import Mathlib

/-!
# CAS timeline: a shallow embedding of the browser script, the local server
and the publish worker

The browser script `assets/app.js` keeps one mutable view state, two locally
stored edit collections and a handful of module-level flags.  Here every
function of the script that the verified properties talk about becomes a Lean
function on an explicit application record `App`; effects on the outside world
(network requests, timers, toasts, render passes) are appended to a log carried
by that record.  The handlers of `server.js` are functions from the server
state and a request to the new state and the answer, and the handler of
`workers/publish-worker.js` is a function from its bindings and a request to
its answer and the repository calls it makes.

Modelling conventions

* A JavaScript string is a Lean `String` (a sequence of Unicode scalar
  values); string functions are written over `String.data` so that they
  evaluate in the kernel.
* A JavaScript array is a `List`; a property that may be missing on an item
  (`categories`, `keywords`, ...) is an `Option`.
* Built-ins whose full definition lives in the language or browser standard
  and is too large to restate (`String.prototype.toLowerCase`, date parsing)
  are fields of a `Host` record; every theorem holds for every host.
* `Array.prototype.sort` reads a comparator result `NaN` as `0`, as the
  language standard prescribes.  For a comparator that is consistent on the
  array the standard fixes the result, the stable sorted order, which
  `arraySort` computes by insertion.  For an inconsistent comparator the
  standard leaves the order to the engine: a statement that depends on it
  takes the engine's sort as a parameter (`sortStepOn`, `getFilteredItemsOn`),
  bound by `conformingSort`; `arraySort`, `v8Sort` and `topDownMergeSort` are
  three sorts that meet it.
* `URLSearchParams`, `history.replaceState` and `location.hash` follow the URL
  standard down to the bytes: UTF-8, percent-encoding and the fragment rules of
  the URL parser are all spelled out.
* A promise continuation is a separate function, or the reply is an argument
  of the function that issues the request.
* A function that can throw returns an `Option`, `none` standing for the
  exception.
-/

namespace Timeline

/-! ## Strings -/

/-- Code points removed by `String.prototype.trim`: the WhiteSpace and
LineTerminator productions of the language standard. -/
def isTrimChar (c : Char) : Bool :=
  let n := c.toNat
  n = 0x09 || n = 0x0A || n = 0x0B || n = 0x0C || n = 0x0D || n = 0x20 ||
  n = 0xA0 || n = 0x1680 || (0x2000 ≤ n && n ≤ 0x200A) || n = 0x2028 ||
  n = 0x2029 || n = 0x202F || n = 0x205F || n = 0x3000 || n = 0xFEFF

/-- The list form of `trim`: white space dropped at both ends. -/
def trimChars (cs : List Char) : List Char :=
  ((cs.dropWhile isTrimChar).reverse.dropWhile isTrimChar).reverse

/-- `s.trim()`. -/
def trim (s : String) : String := String.mk (trimChars s.data)

/-- JavaScript truthiness of a string: `""` is the only falsy string. -/
def truthy (s : String) : Bool := !s.data.isEmpty

/-- `parts.join(sep)`. -/
def join (sep : String) : List String → String
  | [] => ""
  | [s] => s
  | s :: t :: rest => s ++ sep ++ join sep (t :: rest)

/-- `haystack.includes(needle)` on strings: substring test. -/
def strIncludes (haystack needle : String) : Bool :=
  decide (needle.data <:+: haystack.data)

/-- `xs.includes(x)` on an array of strings. -/
def includes (xs : List String) (x : String) : Bool :=
  xs.any (fun y => decide (y = x))

/-! ## Host built-ins -/

/-- Built-ins of the JavaScript engine that the script calls.
`dateParse s` is the time value of `new Date(s)` in milliseconds, `none`
standing for `NaN` (an invalid date). -/
structure Host where
  /-- `String.prototype.toLowerCase`. -/
  toLowerCase : String → String
  /-- The time value of `new Date(s)`. -/
  dateParse : String → Option Int
  /-- The year `new Date(s).getFullYear()`; `none` is `NaN`. -/
  fullYear : String → Option Int
  /-- The empty string has no characters to fold. -/
  toLowerCase_empty : toLowerCase "" = ""

/-- ASCII case folding of one character. -/
def asciiLowerChar (c : Char) : Char :=
  if 65 ≤ c.toNat ∧ c.toNat ≤ 90 then Char.ofNat (c.toNat + 32) else c

/-- Value of a decimal digit character. -/
def digitVal (c : Char) : Option Nat :=
  if 48 ≤ c.toNat ∧ c.toNat ≤ 57 then some (c.toNat - 48) else none

/-- Value of a non-empty all-digit character list. -/
def digitsVal : List Char → Option Nat
  | [] => none
  | cs => cs.foldl (fun acc c => acc.bind (fun n => (digitVal c).map (fun d => 10 * n + d))) (some 0)

/-- Number of days in a month of the proleptic Gregorian calendar. -/
def daysInMonth (y m : Nat) : Nat :=
  if m = 2 then (if (y % 4 = 0 ∧ y % 100 ≠ 0) ∨ y % 400 = 0 then 29 else 28)
  else if m = 4 ∨ m = 6 ∨ m = 9 ∨ m = 11 then 30 else 31

/-- Days from 1970-01-01 to the civil date `y-m-d`. -/
def daysFromCivil (y m d : Nat) : Int :=
  let y1 : Int := if m ≤ 2 then (y : Int) - 1 else y
  let era : Int := y1 / 400
  let yoe : Int := y1 - era * 400
  let mp : Int := ((m : Int) + 9) % 12
  let doy : Int := (153 * mp + 2) / 5 + (d : Int) - 1
  let doe : Int := yoe * 365 + yoe / 4 - yoe / 100 + doy
  era * 146097 + doe - 719468

/-- Time value of the date-only form `YYYY-MM-DD` (midnight UTC); any other
text is an invalid date. -/
def isoDateParse (s : String) : Option Int :=
  match s.data with
  | [y1, y2, y3, y4, '-', m1, m2, '-', d1, d2] =>
    match digitsVal [y1, y2, y3, y4], digitsVal [m1, m2], digitsVal [d1, d2] with
    | some y, some m, some d =>
      if 1 ≤ m ∧ m ≤ 12 ∧ 1 ≤ d ∧ d ≤ daysInMonth y m then
        some (daysFromCivil y m d * 86400000)
      else none
    | _, _, _ => none
  | _ => none

/-- Year of the date-only form `YYYY-MM-DD` in a UTC host. -/
def isoFullYear (s : String) : Option Int :=
  match isoDateParse s with
  | some _ => (digitsVal (s.data.take 4)).map (fun y => (y : Int))
  | none => none

/-- A concrete host: ASCII case folding and date-only ISO parsing. -/
def asciiHost : Host where
  toLowerCase := fun s => String.mk (s.data.map asciiLowerChar)
  dateParse := isoDateParse
  fullYear := isoFullYear
  toLowerCase_empty := rfl

/-! ## Data model -/

/-- A `{label, url}` pair of an item's `links`. -/
structure Link where
  label : String
  url : String
deriving DecidableEq, Repr

/-- A timeline item as it arrives from JSON. -/
structure Item where
  id : String
  date : String
  /-- The cached year; `none` when it is `NaN` or missing. -/
  year : Option Int
  title : String
  summary : String
  details : String
  categories : Option (List String)
  images : Option (List String)
  videos : Option (List String)
  links : Option (List Link)
  keywords : Option (List String)
deriving DecidableEq, Repr

/-- The `state` object of the script. -/
structure ViewState where
  items : List Item
  filter : String
  query : String
  sort : String
  yearAnchor : String
  loaded : Bool
  error : Bool
deriving DecidableEq, Repr

/-- The fixed filter enumeration. -/
def FILTERS : List String :=
  ["All", "Sustainability", "Achievements", "Community", "Facilities", "Academics", "Creativity"]

/-! ## Filter, search and sort (`getFilteredItems`) -/

/-- The test `item.categories?.includes(filter)`. -/
def hasCategory (filter : String) (item : Item) : Bool :=
  match item.categories with
  | some cs => includes cs filter
  | none => false

/-- The search text of an item:
`[title, summary, details, (keywords || []).join(" ")].join(" ").toLowerCase()`. -/
def haystack (h : Host) (item : Item) : String :=
  h.toLowerCase
    (join " " [item.title, item.summary, item.details, join " " (item.keywords.getD [])])

/-- The local `query` of `getFilteredItems`: `state.query.trim().toLowerCase()`. -/
def searchQuery (h : Host) (st : ViewState) : String :=
  h.toLowerCase (trim st.query)

/-- The difference `new Date(a.date) - new Date(b.date)`; `none` is `NaN`. -/
def dateDiff (h : Host) (a b : Item) : Option Int :=
  match h.dateParse a.date, h.dateParse b.date with
  | some x, some y => some (x - y)
  | _, _ => none

/-- The comparator handed to `items.sort` as the sort algorithm reads it:
`direction * (new Date(a.date) - new Date(b.date))`, with `NaN` read as `0`. -/
def sortCompare (h : Host) (sort : String) (a b : Item) : Int :=
  let direction : Int := if sort = "newest" then -1 else 1
  match dateDiff h a b with
  | some d => direction * d
  | none => 0

/-- `Array.prototype.sort(cmp)` as a stable insertion sort: the order that the
language standard prescribes when `cmp` is consistent on the array. -/
def arraySort {α : Type} (cmp : α → α → Int) (xs : List α) : List α :=
  List.insertionSort (fun a b => cmp a b ≤ 0) xs

/-- The category filter step of `getFilteredItems`. -/
def categoryStep (st : ViewState) (items : List Item) : List Item :=
  if st.filter ≠ "All" then items.filter (hasCategory st.filter) else items

/-- The text filter step of `getFilteredItems`. -/
def textStep (h : Host) (st : ViewState) (items : List Item) : List Item :=
  let query := searchQuery h st
  if truthy query then items.filter (fun item => strIncludes (haystack h item) query) else items

/-- The sort step of `getFilteredItems`. -/
def sortStep (h : Host) (st : ViewState) (items : List Item) : List Item :=
  arraySort (sortCompare h st.sort) items

/-- `getFilteredItems()`. -/
def getFilteredItems (h : Host) (st : ViewState) : List Item :=
  if !st.loaded then []
  else sortStep h st (textStep h st (categoryStep st st.items))

/-- The sort step of `getFilteredItems` in an engine whose
`Array.prototype.sort` is `sort`. -/
def sortStepOn (sort : (Item → Item → Int) → List Item → List Item) (h : Host)
    (st : ViewState) (items : List Item) : List Item :=
  sort (sortCompare h st.sort) items

/-- `getFilteredItems()` in an engine whose `Array.prototype.sort` is `sort`. -/
def getFilteredItemsOn (sort : (Item → Item → Int) → List Item → List Item) (h : Host)
    (st : ViewState) : List Item :=
  if !st.loaded then []
  else sortStepOn sort h st (textStep h st (categoryStep st st.items))

/-- The comparator is consistent on the elements of the list, in the words of
the language standard: comparing equal is reflexive, symmetric and transitive,
and so are the two strict orders. -/
def consistentOn (cmp : Item → Item → Int) (l : List Item) : Prop :=
  ∀ a ∈ l, ∀ b ∈ l, ∀ c ∈ l,
    cmp a a = 0 ∧ (cmp a b = 0 → cmp b a = 0) ∧
    (cmp a b = 0 → cmp b c = 0 → cmp a c = 0) ∧
    (cmp a b < 0 → cmp b c < 0 → cmp a c < 0) ∧
    (cmp a b > 0 → cmp b c > 0 → cmp a c > 0)

/-- What the language standard asks of `Array.prototype.sort`: the result is a
permutation of the array; when the comparator is consistent on the array the
result is in order, and the sort is stable, so that elements which stood in
order before keep their relative order.  For an inconsistent comparator the
order is left to the engine. -/
def conformingSort (sort : (Item → Item → Int) → List Item → List Item) : Prop :=
  ∀ cmp l, (sort cmp l).Perm l ∧
    (consistentOn cmp l →
      (sort cmp l).Pairwise (fun a b => cmp a b ≤ 0) ∧
      ∀ c : List Item, c.Sublist l → c.Pairwise (fun a b => cmp a b ≤ 0) →
        c.Sublist (sort cmp l))

/-- The run at the start of an array in `CountAndMakeRun` of V8: how many of
the elements after `previous` continue the run. -/
def runTail {α : Type} (cmp : α → α → Int) (descending : Bool) : α → List α → Nat
  | _, [] => 0
  | previous, current :: rest =>
    if descending then
      if cmp current previous ≥ 0 then 0 else runTail cmp descending current rest + 1
    else
      if cmp current previous < 0 then 0 else runTail cmp descending current rest + 1

/-- `CountAndMakeRun` of V8: the run at the start of the array, reversed when
it descends, and the elements after it. -/
def countAndMakeRun {α : Type} (cmp : α → α → Int) : List α → List α × List α
  | [] => ([], [])
  | [x] => ([x], [])
  | low :: next :: rest =>
    let descending := decide (cmp next low < 0)
    let runLength := 2 + runTail cmp descending next rest
    let run := (low :: next :: rest).take runLength
    (if descending then run.reverse else run, (low :: next :: rest).drop runLength)

/-- The binary search of `BinaryInsertionSort` of V8 for the place of `pivot`
in the sorted part, between `left` and `right`; `fuel` bounds the halvings. -/
def binarySearch {α : Type} (cmp : α → α → Int) (pivot : α) (sorted : List α) :
    Nat → Nat → Nat → Nat
  | 0, left, _ => left
  | fuel + 1, left, right =>
    if left < right then
      let mid := left + (right - left) / 2
      match sorted[mid]? with
      | some element =>
        if cmp pivot element < 0 then binarySearch cmp pivot sorted fuel left mid
        else binarySearch cmp pivot sorted fuel (mid + 1) right
      | none => left
    else left

/-- One step of `BinaryInsertionSort` of V8: `pivot` goes to the place the
binary search finds. -/
def binaryInsert {α : Type} (cmp : α → α → Int) (sorted : List α) (pivot : α) : List α :=
  let left := binarySearch cmp pivot sorted sorted.length 0 sorted.length
  sorted.take left ++ pivot :: sorted.drop left

/-- `Array.prototype.sort(cmp)` in V8 for an array of fewer than 64 elements,
which V8 sorts as one run: the run at the start is found and the other elements
are inserted by binary search. -/
def v8Sort {α : Type} (cmp : α → α → Int) (xs : List α) : List α :=
  (countAndMakeRun cmp xs).2.foldl (binaryInsert cmp) (countAndMakeRun cmp xs).1

/-- The merge of two sorted halves: the head of the right half goes first only
when it compares below the head of the left half; `fuel` bounds the steps. -/
def mergeHalves {α : Type} (cmp : α → α → Int) : Nat → List α → List α → List α
  | 0, left, right => left ++ right
  | _ + 1, [], right => right
  | _ + 1, left, [] => left
  | fuel + 1, a :: left, b :: right =>
    if cmp b a < 0 then b :: mergeHalves cmp fuel (a :: left) right
    else a :: mergeHalves cmp fuel left (b :: right)

/-- A top-down merge sort with `fuel` levels of halving. -/
def mergeSortLevels {α : Type} (cmp : α → α → Int) : Nat → List α → List α
  | 0, xs => xs
  | fuel + 1, xs =>
    if xs.length < 2 then xs
    else
      let middle := xs.length / 2
      mergeHalves cmp xs.length (mergeSortLevels cmp fuel (xs.take middle))
        (mergeSortLevels cmp fuel (xs.drop middle))

/-- `Array.prototype.sort(cmp)` as a stable top-down merge sort: the array is
halved, the halves are sorted and merged. -/
def topDownMergeSort {α : Type} (cmp : α → α → Int) (xs : List α) : List α :=
  mergeSortLevels cmp xs.length xs

/-- An item passes the category filter and the text filter of the view state. -/
def passesFilters (h : Host) (st : ViewState) (item : Item) : Bool :=
  (decide (st.filter = "All") || hasCategory st.filter item) &&
  (!truthy (searchQuery h st) || strIncludes (haystack h item) (searchQuery h st))

/-- Date order of two items: both dates parse and the first is not the later one. -/
def dateLe (h : Host) (a b : Item) : Bool :=
  match h.dateParse a.date, h.dateParse b.date with
  | some x, some y => decide (x ≤ y)
  | _, _ => false

/-! ## URL parameters (`URLSearchParams`)

The browser class `URLSearchParams` as the URL standard defines it: the
application/x-www-form-urlencoded serializer and parser over UTF-8 bytes, with
the UTF-8 decoder of the Encoding standard.  Bytes are natural numbers. -/

/-- UTF-8 bytes of one code point. -/
def utf8EncodeChar (c : Char) : List Nat :=
  let n := c.toNat
  if n < 0x80 then [n]
  else if n < 0x800 then [0xC0 + n / 64, 0x80 + n % 64]
  else if n < 0x10000 then [0xE0 + n / 4096, 0x80 + n / 64 % 64, 0x80 + n % 64]
  else [0xF0 + n / 262144, 0x80 + n / 4096 % 64, 0x80 + n / 64 % 64, 0x80 + n % 64]

/-- UTF-8 encoding of a string. -/
def utf8Encode (s : String) : List Nat := s.data.flatMap utf8EncodeChar

/-- A multi-byte sequence in progress inside the UTF-8 decoder. -/
structure Pending where
  codePoint : Nat
  bytesLeft : Nat
  lower : Nat
  upper : Nat

/-- What the decoder does with a byte read while no sequence is in progress. -/
inductive Lead where
  | emit (c : Char)
  | start (p : Pending)
  | error

/-- The decoder's handling of a byte when no bytes are needed. -/
def leadByte (b : Nat) : Lead :=
  if b ≤ 0x7F then .emit (Char.ofNat b)
  else if 0xC2 ≤ b ∧ b ≤ 0xDF then .start ⟨b % 32, 1, 0x80, 0xBF⟩
  else if 0xE0 ≤ b ∧ b ≤ 0xEF then
    .start ⟨b % 16, 2, if b = 0xE0 then 0xA0 else 0x80, if b = 0xED then 0x9F else 0xBF⟩
  else if 0xF0 ≤ b ∧ b ≤ 0xF4 then
    .start ⟨b % 8, 3, if b = 0xF0 then 0x90 else 0x80, if b = 0xF4 then 0x8F else 0xBF⟩
  else .error

/-- The replacement character emitted for malformed input. -/
def replacementChar : Char := Char.ofNat 0xFFFD

/-- The "UTF-8 decode without BOM" algorithm: malformed input yields U+FFFD and
the offending byte is read again as a lead byte. -/
def utf8DecodeFrom : Option Pending → List Nat → List Char
  | none, [] => []
  | some _, [] => [replacementChar]
  | none, b :: rest =>
    match leadByte b with
    | .emit c => c :: utf8DecodeFrom none rest
    | .start p => utf8DecodeFrom (some p) rest
    | .error => replacementChar :: utf8DecodeFrom none rest
  | some p, b :: rest =>
    if p.lower ≤ b ∧ b ≤ p.upper then
      let cp := p.codePoint * 64 + b % 64
      if p.bytesLeft = 1 then Char.ofNat cp :: utf8DecodeFrom none rest
      else utf8DecodeFrom (some ⟨cp, p.bytesLeft - 1, 0x80, 0xBF⟩) rest
    else
      replacementChar ::
        (match leadByte b with
         | .emit c => c :: utf8DecodeFrom none rest
         | .start q => utf8DecodeFrom (some q) rest
         | .error => replacementChar :: utf8DecodeFrom none rest)

/-- UTF-8 decode a byte sequence to a string. -/
def utf8Decode (bs : List Nat) : String := String.mk (utf8DecodeFrom none bs)

/-- Bytes outside the application/x-www-form-urlencoded percent-encode set:
ASCII alphanumerics and `*`, `-`, `.`, `_`. -/
def isFormSafe (b : Nat) : Bool :=
  (0x30 ≤ b && b ≤ 0x39) || (0x41 ≤ b && b ≤ 0x5A) || (0x61 ≤ b && b ≤ 0x7A) ||
  b = 0x2A || b = 0x2D || b = 0x2E || b = 0x5F

/-- Upper-case ASCII hex digit of a value below 16. -/
def hexDigit (n : Nat) : Nat := if n < 10 then 0x30 + n else 0x37 + n

/-- Value of an ASCII hex digit, either case. -/
def hexVal (b : Nat) : Option Nat :=
  if 0x30 ≤ b ∧ b ≤ 0x39 then some (b - 0x30)
  else if 0x41 ≤ b ∧ b ≤ 0x46 then some (b - 0x37)
  else if 0x61 ≤ b ∧ b ≤ 0x66 then some (b - 0x57)
  else none

/-- One byte in the urlencoded serializer: space becomes `+`, a safe byte is
kept, any other byte becomes `%XX`. -/
def formEncodeByte (b : Nat) : List Nat :=
  if b = 0x20 then [0x2B]
  else if isFormSafe b then [b]
  else [0x25, hexDigit (b / 16), hexDigit (b % 16)]

/-- A name or value in the urlencoded serializer. -/
def formEncode (s : String) : List Nat := (utf8Encode s).flatMap formEncodeByte

/-- The urlencoded serializer on a list of name-value pairs: `name=value`
joined by `&`. -/
def serializePairs : List (String × String) → List Nat
  | [] => []
  | [(k, v)] => formEncode k ++ 0x3D :: formEncode v
  | (k, v) :: p :: rest =>
    (formEncode k ++ 0x3D :: formEncode v) ++ 0x26 :: serializePairs (p :: rest)

/-- Bytes read as the code points of the same value. -/
def isomorphicDecode (bs : List Nat) : String := String.mk (bs.map Char.ofNat)

/-- `params.toString()` of a `URLSearchParams` holding the pairs `ps`. -/
def paramsToString (ps : List (String × String)) : String :=
  isomorphicDecode (serializePairs ps)

/-- A byte sequence split at every occurrence of `sep`. -/
def splitOn (sep : Nat) : List Nat → List (List Nat)
  | [] => [[]]
  | b :: rest =>
    if b = sep then [] :: splitOn sep rest
    else
      match splitOn sep rest with
      | [] => [[b]]
      | s :: ss => (b :: s) :: ss

/-- Percent-decoding with `skip` bytes still to pass over: `%` followed by
two hex digits is the byte they denote (the two digits are then skipped),
every other byte stands for itself. -/
def percentDecodeFrom : Nat → List Nat → List Nat
  | _, [] => []
  | skip + 1, _ :: rest => percentDecodeFrom skip rest
  | 0, b :: rest =>
    if b = 0x25 then
      match rest with
      | hi :: lo :: _ =>
        match hexVal hi, hexVal lo with
        | some x, some y => (16 * x + y) :: percentDecodeFrom 2 rest
        | _, _ => b :: percentDecodeFrom 0 rest
      | _ => b :: percentDecodeFrom 0 rest
    else b :: percentDecodeFrom 0 rest

/-- Percent-decoding of a byte sequence. -/
def percentDecode (bs : List Nat) : List Nat := percentDecodeFrom 0 bs

/-- The urlencoded parser replaces `+` by a space before percent-decoding. -/
def plusToSpace (b : Nat) : Nat := if b = 0x2B then 0x20 else b

/-- A parsed name or value: `+` to space, percent-decode, UTF-8 decode. -/
def decodeComponent (bs : List Nat) : String :=
  utf8Decode (percentDecode (bs.map plusToSpace))

/-- One `name=value` sequence of the urlencoded parser, split at the first `=`. -/
def parsePair (bs : List Nat) : String × String :=
  (decodeComponent (bs.takeWhile (fun b => b ≠ 0x3D)),
   decodeComponent ((bs.dropWhile (fun b => b ≠ 0x3D)).drop 1))

/-- The urlencoded parser: split on `&`, skip empty sequences, parse each. -/
def parseBytes (input : List Nat) : List (String × String) :=
  ((splitOn 0x26 input).filter (fun s => !s.isEmpty)).map parsePair

/-- `new URLSearchParams(init)` for a string `init`: one leading `?` is
dropped, the rest is UTF-8 encoded and parsed. -/
def urlSearchParams (init : String) : List (String × String) :=
  match init.data with
  | '?' :: rest => parseBytes (utf8Encode (String.mk rest))
  | _ => parseBytes (utf8Encode init)

/-- `params.get(name)`: the value of the first pair named `name`, or `null`. -/
def paramsGet (ps : List (String × String)) (name : String) : Option String :=
  (ps.find? (fun p => decide (p.1 = name))).map (fun p => p.2)

/-- `params.set(name, value)`: the first pair named `name` gets the value and
the other pairs of that name go; without such a pair one is appended. -/
def paramsSet (ps : List (String × String)) (name value : String) : List (String × String) :=
  match ps with
  | [] => [(name, value)]
  | p :: rest =>
    if p.1 = name then (name, value) :: rest.filter (fun q => decide (q.1 ≠ name))
    else p :: paramsSet rest name value

/-! ## The URL of the page -/

/-- Code points of the fragment percent-encode set of the URL standard. -/
def inFragmentEncodeSet (c : Char) : Bool :=
  let n := c.toNat
  n ≤ 0x1F || 0x7E < n || n = 0x20 || n = 0x22 || n = 0x3C || n = 0x3E || n = 0x60

/-- C0 control or space: stripped from both ends of a URL string before parsing. -/
def isC0OrSpace (c : Char) : Bool := c.toNat ≤ 0x20

/-- ASCII tab or newline: removed from a URL string before parsing. -/
def isTabOrNewline (c : Char) : Bool :=
  c.toNat = 0x09 || c.toNat = 0x0A || c.toNat = 0x0D

/-- `%XX` for one byte, as text. -/
def percentEncodeByte (b : Nat) : List Char :=
  ['%', Char.ofNat (hexDigit (b / 16)), Char.ofNat (hexDigit (b % 16))]

/-- The fragment the URL parser stores when the URL string ends in `#` followed
by `raw`: trailing C0 controls and spaces are stripped, tabs and newlines are
removed, and code points of the fragment percent-encode set are written as the
percent-encoded bytes of their UTF-8 form. -/
def urlFragment (raw : String) : String :=
  let stripped := (raw.data.reverse.dropWhile isC0OrSpace).reverse
  let kept := stripped.filter (fun c => !isTabOrNewline c)
  String.mk (kept.flatMap (fun c =>
    if inFragmentEncodeSet c then (utf8EncodeChar c).flatMap percentEncodeByte else [c]))

/-- The value `window.location.hash` has after
`history.replaceState(null, "", next ? base + "#" + next : base)`: `#` and the
stored fragment, or the empty string when there is no fragment or it is empty. -/
def hashAfterReplaceState (next : String) : String :=
  if truthy next then
    let fragment := urlFragment next
    if truthy fragment then "#" ++ fragment else ""
  else ""

/-- `s.slice(1)`. -/
def slice1 (s : String) : String := String.mk (s.data.drop 1)

/-! ## Application state -/

/-- A dataset `{school, lastUpdated, items}` as parsed from JSON; `items` is
`none` when the property is not an array. -/
structure Payload where
  school : Option String
  lastUpdated : Option String
  items : Option (List Item)
deriving DecidableEq, Repr

/-- What a `fetch` of the dataset settles to. -/
inductive FetchReply where
  /-- The request rejects or the body is not JSON. -/
  | failed
  /-- The response is not ok; the handler continues with `null`. -/
  | notOk
  /-- The response is ok with this JSON body (`none` for a falsy body). -/
  | data (payload : Option Payload)
deriving DecidableEq, Repr

/-- Effects on the outside world, logged in the order they are issued. -/
inductive Effect where
  /-- A network request `fetch(url, {method})`; cache-busting query omitted. -/
  | fetch (method url : String)
  /-- The toast `showToast(message, isError)`. -/
  | toast (message : String) (isError : Bool)
  /-- The timer `setTimeout(() => window.location.reload(), 1000)`. -/
  | reloadTimer
  /-- The callback `requestAnimationFrame(...)` queued by `requestRender`. -/
  | frameRequest
  /-- One pass of `renderTimeline`. -/
  | render
  /-- The timer of the animated swap, `setTimeout(..., 220)`, with the groups to show. -/
  | swapTimer (groups : List (Option Int × List Item))
  /-- A call `scrollToYear(year)`. -/
  | scrollToYear (year : String)
  /-- The text shown in the admin status line, marked as an error or not. -/
  | status (message : String) (danger : Bool)
  /-- The timer that hides the admin status line again. -/
  | statusTimer
  /-- The timer `setTimeout(poll, intervalMs)` of `pollForPublishUpdate`. -/
  | pollTimer (intervalMs : Nat)
deriving DecidableEq, Repr

/-- The module-level state of the script together with the parts of the page
and of the browser it reads and writes. -/
structure App where
  /-- `SERVER_MODE`. -/
  serverMode : Bool
  /-- `motionQuery.matches`. -/
  motion : Bool
  state : ViewState
  baseItems : List Item
  /-- `baseMeta.school`. -/
  school : String
  /-- `baseMeta.lastUpdated`. -/
  lastUpdated : String
  customItems : List Item
  deletedIds : List String
  publishSignature : Option String
  currentSignature : Option String
  renderQueued : Bool
  hydratingFromHash : Bool
  initialRenderDone : Bool
  pendingYearScroll : String
  /-- `controls.search.value`. -/
  searchValue : String
  /-- The filter value whose chips carry `aria-pressed="true"`. -/
  pressedFilter : String
  /-- `controls.sort.dataset.sort`. -/
  sortToggle : String
  /-- `window.location.hash`. -/
  locationHash : String
  /-- The stored copy under `CUSTOM_STORAGE_KEY`; `none` when the key is unset. -/
  storedCustom : Option (List Item)
  /-- The stored copy under `DELETED_STORAGE_KEY`; `none` when the key is unset. -/
  storedDeleted : Option (List String)
  /-- The year groups shown in the timeline list. -/
  shown : List (Option Int × List Item)
  /-- `emptyStateEl.hidden`. -/
  emptyStateHidden : Bool
  /-- `PUBLISH_ENDPOINT`. -/
  publishEndpoint : String
  /-- The urls of `uploadedImages`. -/
  uploadedImages : List String
  /-- `adminModal.hidden`. -/
  adminModalHidden : Bool
  effects : List Effect
deriving DecidableEq, Repr

/-- The script right after its module-level declarations ran in local mode
with nothing stored. -/
def App.initial : App where
  serverMode := false
  motion := true
  state :=
    { items := [], filter := "All", query := "", sort := "oldest", yearAnchor := "",
      loaded := false, error := false }
  baseItems := []
  school := "King's College Murcia"
  lastUpdated := ""
  customItems := []
  deletedIds := []
  publishSignature := none
  currentSignature := none
  renderQueued := false
  hydratingFromHash := false
  initialRenderDone := false
  pendingYearScroll := ""
  searchValue := ""
  pressedFilter := "All"
  sortToggle := "oldest"
  locationHash := ""
  storedCustom := none
  storedDeleted := none
  shown := []
  emptyStateHidden := true
  publishEndpoint := "https://publish.example/publish"
  uploadedImages := []
  adminModalHidden := true
  effects := []

/-- Append one effect to the log. -/
def App.log (a : App) (e : Effect) : App := { a with effects := a.effects ++ [e] }

/-- `DATA_URL`. -/
def DATA_URL (serverMode : Bool) : String :=
  if serverMode then "/api/timeline-data" else "assets/timeline-data.json"

/-- `DELETE_EVENT_ENDPOINT`. -/
def DELETE_EVENT_ENDPOINT : String := "/api/delete"

/-! ## Merge (`buildVisibleItems`) -/

/-- `buildVisibleItems()`: `[...baseItems.filter(item => !deletedIds.includes(item.id)), ...customItems]`. -/
def buildVisibleItems (a : App) : List Item :=
  let baseVisible := a.baseItems.filter (fun item => !includes a.deletedIds item.id)
  baseVisible ++ a.customItems

/-! ## Rendering -/

/-- One step of the grouping loop of `renderTimeline`: the item joins the group
of its year, or opens a new last group. -/
def addToGroups (item : Item) : List (Option Int × List Item) → List (Option Int × List Item)
  | [] => [(item.year, [item])]
  | (y, g) :: rest =>
    if y = item.year then (y, g ++ [item]) :: rest else (y, g) :: addToGroups item rest

/-- The year groups built by `renderTimeline`, in order of first occurrence. -/
def groupByYear (items : List Item) : List (Option Int × List Item) :=
  items.foldl (fun groups item => addToGroups item groups) []

/-- Specification side of the grouping: the distinct years of a sequence of
years, in the order of their first occurrence. -/
def firstOccurrences : List (Option Int) → List (Option Int)
  | [] => []
  | y :: ys => y :: (firstOccurrences ys).filter (fun z => decide (z ≠ y))

/-- Specification side of the grouping: the group of year `y` holds the items of
that year in their sequence order. -/
def yearGroup (items : List Item) (y : Option Int) : Option Int × List Item :=
  (y, items.filter (fun item => decide (item.year = y)))

/-- Specification side of the grouping: one group per distinct year, ordered by
the first occurrence of the year. -/
def groupsSpec (items : List Item) : List (Option Int × List Item) :=
  (firstOccurrences (items.map (fun item => item.year))).map (yearGroup items)

/-- An entry of the `pool` of `createMediaIndicators`. -/
structure MediaEntry where
  /-- One of "image", "video" and "link". -/
  type : String
  label : String
  url : String
deriving DecidableEq, Repr

/-- A chip returned by `createMediaIndicators`. -/
inductive Chip where
  /-- An anchor of class `media-chip` with the icon and label of the entry. -/
  | media (entry : MediaEntry)
  /-- The static chip whose text counts the entries not shown. -/
  | overflow (text : String)
deriving DecidableEq, Repr

/-- The pool entries of the images, numbered from `index`; `many` is
`item.images.length > 1`. -/
def imageEntries (many : Bool) : Nat → List String → List MediaEntry
  | _, [] => []
  | index, src :: rest =>
    ⟨"image", if many then "Image " ++ toString (index + 1) else "Image", src⟩
      :: imageEntries many (index + 1) rest

/-- The pool entries of the videos, numbered from `index`. -/
def videoEntries : Nat → List String → List MediaEntry
  | _, [] => []
  | index, url :: rest =>
    ⟨"video", "Video " ++ toString (index + 1), url⟩ :: videoEntries (index + 1) rest

/-- The pool entries of the links. -/
def linkEntries (links : List Link) : List MediaEntry :=
  links.map (fun link => ⟨"link", if truthy link.label then link.label else "Link", link.url⟩)

/-- The `pool` that `createMediaIndicators` fills. -/
def mediaPool (item : Item) : List MediaEntry :=
  imageEntries (decide ((item.images.getD []).length > 1)) 0 (item.images.getD [])
    ++ videoEntries 0 (item.videos.getD [])
    ++ linkEntries (item.links.getD [])

/-- `createMediaIndicators(item)`. -/
def createMediaIndicators (item : Item) : List Chip :=
  let pool := mediaPool item
  let visible := pool.take 2
  let chips := visible.map Chip.media
  if pool.length > visible.length then
    chips ++ [.overflow ("+" ++ toString (pool.length - visible.length))]
  else chips

/-- `afterTimelineRender()`. -/
def afterTimelineRender (a : App) : App :=
  if truthy a.pendingYearScroll then
    { a.log (.scrollToYear a.pendingYearScroll) with pendingYearScroll := "" }
  else a

/-- `renderTimeline(immediate)`. -/
def renderTimeline (h : Host) (immediate : Bool) (a : App) : App :=
  let items := getFilteredItems h a.state
  let a := a.log .render
  if items.isEmpty then
    { a with shown := [], emptyStateHidden := false }
  else
    let groups := groupByYear items
    let a := { a with emptyStateHidden := true }
    let a :=
      if !immediate && a.initialRenderDone && a.motion then a.log (.swapTimer groups)
      else afterTimelineRender { a with shown := groups }
    { a with initialRenderDone := true }

/-- `requestRender(immediate)`. -/
def requestRender (h : Host) (immediate : Bool) (a : App) : App :=
  if immediate then renderTimeline h true a
  else if a.renderQueued then a
  else { a.log .frameRequest with renderQueued := true }

/-- `syncFilterButtons()`. -/
def syncFilterButtons (a : App) : App := { a with pressedFilter := a.state.filter }

/-- `updateSortToggle()`. -/
def updateSortToggle (a : App) : App := { a with sortToggle := a.state.sort }

/-! ## URL sync (`syncHash`, `applyHashParams`) -/

/-- The `URLSearchParams` that `syncHash` fills from the view state. -/
def hashParams (st : ViewState) : List (String × String) :=
  let params : List (String × String) := []
  let params := if truthy st.yearAnchor then paramsSet params "year" st.yearAnchor else params
  let params := if st.filter ≠ "All" then paramsSet params "filter" st.filter else params
  let params := if truthy (trim st.query) then paramsSet params "q" (trim st.query) else params
  let params := if st.sort ≠ "oldest" then paramsSet params "sort" st.sort else params
  params

/-- `syncHash()`. -/
def syncHash (a : App) : App :=
  if a.hydratingFromHash then a
  else
    let next := paramsToString (hashParams a.state)
    { a with locationHash := hashAfterReplaceState next }

/-- The assignments `applyHashParams` makes from a non-empty fragment. -/
def hydrateFromParams (params : List (String × String)) (a : App) : App :=
  let filter := paramsGet params "filter"
  let sort := paramsGet params "sort"
  let query := paramsGet params "q"
  let year := paramsGet params "year"
  let a :=
    match filter with
    | some f => if includes FILTERS f then { a with state := { a.state with filter := f } } else a
    | none => a
  let a :=
    match sort with
    | some s =>
      if s = "oldest" ∨ s = "newest" then { a with state := { a.state with sort := s } } else a
    | none => a
  let a :=
    match query with
    | some q => { a with state := { a.state with query := q }, searchValue := q }
    | none => a
  match year with
  | some y =>
    if truthy y then { a with state := { a.state with yearAnchor := y }, pendingYearScroll := y }
    else a
  | none => a

/-- `applyHashParams(fromEvent)`. -/
def applyHashParams (h : Host) (fromEvent : Bool) (a : App) : App :=
  let a := { a with hydratingFromHash := true }
  let hash := slice1 a.locationHash
  let a :=
    { a with
      state := { a.state with filter := "All", sort := "oldest", query := "", yearAnchor := "" },
      searchValue := "", pendingYearScroll := "" }
  if truthy hash then
    let a := hydrateFromParams (urlSearchParams hash) a
    let a := updateSortToggle (syncFilterButtons a)
    let a := { a with hydratingFromHash := false }
    if a.state.loaded then requestRender h true a else a
  else if fromEvent then
    requestRender h true { a with hydratingFromHash := false }
  else
    let a := updateSortToggle (syncFilterButtons a)
    let a := { a with hydratingFromHash := false }
    if a.state.loaded then requestRender h true a else a

/-- The filter a fragment stands for: the value of its key `filter` when that
is one of `FILTERS`, the default "All" otherwise. -/
def fragmentFilter (hash : String) : String :=
  match paramsGet (urlSearchParams (slice1 hash)) "filter" with
  | some f => if f ∈ FILTERS then f else "All"
  | none => "All"

/-- The sort a fragment stands for: the value of its key `sort` when that is
"oldest" or "newest", the default "oldest" otherwise. -/
def fragmentSort (hash : String) : String :=
  match paramsGet (urlSearchParams (slice1 hash)) "sort" with
  | some s => if s = "oldest" ∨ s = "newest" then s else "oldest"
  | none => "oldest"

/-- The query a fragment stands for: the value of its key `q`, default "". -/
def fragmentQuery (hash : String) : String :=
  (paramsGet (urlSearchParams (slice1 hash)) "q").getD ""

/-- The year anchor a fragment stands for: the value of its key `year`, default "". -/
def fragmentYear (hash : String) : String :=
  (paramsGet (urlSearchParams (slice1 hash)) "year").getD ""

/-! ## Local edits (`deleteEventById`) -/

/-- `saveCustomItems(items)`. -/
def saveCustomItems (items : List Item) (a : App) : App := { a with storedCustom := some items }

/-- `saveDeletedIds(ids)`. -/
def saveDeletedIds (ids : List String) (a : App) : App := { a with storedDeleted := some ids }

/-- `deleteEventById(id)`.  In server mode the function only issues the delete
request; its reply is handled by a later callback. -/
def deleteEventById (h : Host) (id : String) (a : App) : App :=
  if a.serverMode then a.log (.fetch "POST" DELETE_EVENT_ENDPOINT)
  else
    let a :=
      match a.customItems.findIdx? (fun item => decide (item.id = id)) with
      | some customIndex =>
        let a := { a with customItems := a.customItems.eraseIdx customIndex }
        saveCustomItems a.customItems a
      | none =>
        if !includes a.deletedIds id then
          let a := { a with deletedIds := a.deletedIds ++ [id] }
          saveDeletedIds a.deletedIds a
        else a
    let a := { a with state := { a.state with items := buildVisibleItems a } }
    requestRender h true a

/-! ## Update polling (`startUpdatePolling`) -/

/-- `buildPublishSignature(payload)`; `none` is `null`. -/
def buildPublishSignature (payload : Option Payload) : Option String :=
  match payload with
  | none => none
  | some p =>
    let stamp := match p.lastUpdated with
      | some s => if truthy s then s else ""
      | none => ""
    let count := match p.items with
      | some items => items.length
      | none => 0
    some (stamp ++ "|" ++ toString count)

/-- Truthiness of a string-or-null value. -/
def optTruthy (s : Option String) : Bool :=
  match s with
  | some s => truthy s
  | none => false

/-- `showToast(message, isError)`. -/
def showToast (message : String) (isError : Bool) (a : App) : App :=
  a.log (.toast message isError)

/-- One firing of the interval callback installed by `startUpdatePolling`,
together with the handling of the reply to the request it may issue. -/
def updatePollTick (reply : FetchReply) (a : App) : App :=
  if !a.state.loaded then a
  else if a.customItems.length ≠ 0 ∨ a.deletedIds.length ≠ 0 then a
  else
    let a := a.log (.fetch "GET" (DATA_URL a.serverMode))
    match reply with
    | .data (some data) =>
      let signature := buildPublishSignature (some data)
      if optTruthy signature && optTruthy a.currentSignature
          && decide (signature ≠ a.currentSignature) then
        (showToast "New updates detected. Reloading…" false a).log .reloadTimer
      else a
    | _ => a

/-! ## Publishing (`publishTimeline`, `showPublishSuccess`, `clearLocalEdits`) -/

/-- `clearLocalEdits()`. -/
def clearLocalEdits (h : Host) (a : App) : App :=
  let a := { a with customItems := [], deletedIds := [] }
  let a := saveCustomItems a.customItems a
  let a := saveDeletedIds a.deletedIds a
  let a := { a with state := { a.state with items := a.baseItems } }
  let a := requestRender h true a
  { a with
    currentSignature := buildPublishSignature
      (some { school := none, lastUpdated := some a.lastUpdated, items := some a.baseItems }) }

/-- `pollForPublishUpdate(attempts, intervalMs)`: the first timer only; the
polls themselves run in later callbacks. -/
def pollForPublishUpdate (_attempts intervalMs : Nat) (a : App) : App :=
  if !optTruthy a.publishSignature then a else a.log (.pollTimer intervalMs)

/-- `showPublishSuccess(payload)`. -/
def showPublishSuccess (h : Host) (payload : Payload) (a : App) : App :=
  let a := a.log
    (.status "Published to GitHub. It can take 1-2 minutes to update the public site." false)
  let a := a.log .statusTimer
  let a := showToast "Published to GitHub. Updating public site (about 1-2 minutes)." false a
  let a := clearLocalEdits h a
  let a := { a with publishSignature := buildPublishSignature (some payload) }
  pollForPublishUpdate 12 10000 a

/-- What the request of `publishTimeline` settles to. -/
inductive PublishReply where
  /-- The request rejects, or the body of the response is not JSON. -/
  | failed
  /-- A response with JSON body: `response.ok` and the `error` text of the body. -/
  | answered (ok : Bool) (error : Option String)
deriving DecidableEq, Repr

/-- `publishTimeline(payload, password)` together with the handling of the
reply to its request. -/
def publishTimeline (h : Host) (payload : Payload) (_password : String) (reply : PublishReply)
    (a : App) : App :=
  let a := a.log (.status "Publishing..." false)
  let a := a.log (.fetch "POST" a.publishEndpoint)
  match reply with
  | .answered ok error =>
    if !ok then
      let message := if optTruthy error then error.getD "" else "Publish failed."
      a.log (.status message true)
    else showPublishSuccess h payload a
  | .failed =>
    let a := a.log (.status "Publish failed. Check the publish server." true)
    showToast "Publish failed. Check the publish server." true a

/-! ## View state updates (`updateState` and its callers) -/

/-- The object handed to `updateState`: the fields it sets. -/
structure Partial where
  filter : Option String
  query : Option String
  sort : Option String
deriving DecidableEq, Repr

/-- `Object.assign(state, partial)`. -/
def assignState (st : ViewState) (p : Partial) : ViewState :=
  { st with
    filter := p.filter.getD st.filter
    query := p.query.getD st.query
    sort := p.sort.getD st.sort }

/-- `updateState(partial)`. -/
def updateState (h : Host) (p : Partial) (a : App) : App :=
  if a.hydratingFromHash then a
  else
    let a := { a with state := assignState a.state p }
    requestRender h false (syncHash a)

/-- The callback that `requestRender` hands to `requestAnimationFrame`. -/
def frameCallback (h : Host) (a : App) : App :=
  renderTimeline h false { a with renderQueued := false }

/-- A call that asks for a render: `updateState(partial)` or
`requestRender(immediate)`. -/
inductive RenderOp where
  | update (p : Partial)
  | request (immediate : Bool)
deriving DecidableEq, Repr

/-- One call of a sequence of render requests. -/
def runOp (h : Host) (a : App) : RenderOp → App
  | .update p => updateState h p a
  | .request immediate => requestRender h immediate a

/-- A sequence of calls run one after the other, with no animation frame in
between. -/
def runOps (h : Host) (ops : List RenderOp) (a : App) : App :=
  ops.foldl (runOp h) a

/-- The click handler of the filter chips; `chip` is the `data-filter` value of
the chip that was hit, `none` when the click hit no chip or the chip has none. -/
def chipClick (h : Host) (chip : Option String) (a : App) : App :=
  match chip with
  | none => a
  | some value =>
    if !includes FILTERS value || decide (value = a.state.filter) then a
    else syncFilterButtons (updateState h { filter := some value, query := none, sort := none } a)

/-- The click handler of the sort toggle. -/
def sortClick (h : Host) (a : App) : App :=
  let nextSort := if a.state.sort = "newest" then "oldest" else "newest"
  updateSortToggle (updateState h { filter := none, query := none, sort := some nextSort } a)

/-- `resetState()`. -/
def resetState (h : Host) (a : App) : App :=
  let a := { a with searchValue := "" }
  let a :=
    { a with state := { a.state with filter := "All", query := "", sort := "oldest", yearAnchor := "" } }
  let a := updateSortToggle (syncFilterButtons a)
  requestRender h true (syncHash a)

/-- `KCM.timeline.setFilter(value)`; `none` stands for an argument that is not
a string. -/
def setFilter (h : Host) (value : Option String) (a : App) : App :=
  match value with
  | some v =>
    if includes FILTERS v then
      syncFilterButtons (updateState h { filter := some v, query := none, sort := none } a)
    else a
  | none => a

/-- `KCM.timeline.setSort(value)`; `none` stands for an argument that is not a
string. -/
def setSort (h : Host) (value : Option String) (a : App) : App :=
  match value with
  | some v =>
    if v = "newest" ∨ v = "oldest" then
      updateSortToggle (updateState h { filter := none, query := none, sort := some v } a)
    else a
  | none => a

/-! ## Authoring form (`setupAdminPanel`, submit handler) -/

/-- A character list split at every character that satisfies `p`. -/
def splitWhere (p : Char → Bool) : List Char → List (List Char)
  | [] => [[]]
  | c :: rest =>
    if p c then [] :: splitWhere p rest
    else
      match splitWhere p rest with
      | [] => [[c]]
      | s :: ss => (c :: s) :: ss

/-- `splitList(value)`: split at newlines and commas, trim, drop empty entries. -/
def splitList (value : String) : List String :=
  ((splitWhere (fun c => c = '\n' || c = ',') value.data).map
    (fun entry => trim (String.mk entry))).filter truthy

/-- One line of `parseLinks`: `label|url`, both trimmed and non-empty. -/
def parseLinkLine (line : String) : Option Link :=
  match (splitWhere (fun c => c = '|') line.data).map (fun part => trim (String.mk part)) with
  | label :: url :: _ => if truthy label && truthy url then some ⟨label, url⟩ else none
  | _ => none

/-- `parseLinks(value)`. -/
def parseLinks (value : String) : List Link :=
  (((splitWhere (fun c => c = '\n') value.data).map
    (fun line => trim (String.mk line))).filter truthy).filterMap parseLinkLine

/-- The values of the controls of the authoring form at submission. -/
structure AdminForm where
  /-- The value of `#admin-title`. -/
  title : String
  /-- The value of `#admin-date`. -/
  date : String
  /-- The value of `#admin-summary`. -/
  summary : String
  /-- The value of `#admin-details`. -/
  details : String
  /-- The values of the checked category boxes. -/
  categories : List String
  /-- The value of `#admin-images`. -/
  images : String
  /-- The value of `#admin-videos`. -/
  videos : String
  /-- The value of `#admin-links`. -/
  links : String
  /-- The value of `#admin-keywords`. -/
  keywords : String
deriving DecidableEq, Repr

/-- Modelled from the spec: the value of the date field `#admin-date` of the
authoring form, whose page is not among the sources.  The spec gives `date` as
a calendar date with ISO-8601 string semantics; the field holds such a date,
`YYYY-MM-DD`, or is empty while no date is chosen. -/
def isDateValue (s : String) : Bool :=
  s.data.isEmpty || (isoDateParse s).isSome

/-- `ADD_EVENT_ENDPOINT`. -/
def ADD_EVENT_ENDPOINT : String := "/api/events"

/-- The submit handler of the authoring form; `now` is `Date.now()`.  In
server mode the handler only issues the request; its reply is handled by a
later callback. -/
def adminFormSubmit (h : Host) (now : Nat) (form : AdminForm) (a : App) : App :=
  let title := trim form.title
  let date := form.date
  let summary := trim form.summary
  let details := trim form.details
  let categories := form.categories
  if !truthy title || !truthy date || !truthy summary || !truthy details
      || categories.length = 0 then
    a.log (.status "Fill title, date, summary, details, and at least one category." true)
  else
    let images := splitList form.images ++ a.uploadedImages
    if a.serverMode then a.log (.fetch "POST" ADD_EVENT_ENDPOINT)
    else
      let newItem : Item :=
        { id := "custom-" ++ toString now, date := date, year := h.fullYear date,
          title := title, summary := summary, categories := some categories,
          details := details, images := some images, videos := some (splitList form.videos),
          links := some (parseLinks form.links), keywords := some (splitList form.keywords) }
      let a := { a with customItems := a.customItems ++ [newItem] }
      let a := saveCustomItems a.customItems a
      let a := { a with state := { a.state with items := buildVisibleItems a } }
      let a := requestRender h true a
      let a := { a with uploadedImages := [], adminModalHidden := true }
      (a.log (.status "Event added! (Not published yet)" false)).log .statusTimer

/-! ## The local server (`server.js`) -/

/-- What the server keeps: the session set, the dataset, the two data files
and the upload directory.  A file is `none` while it does not hold a JSON
array. -/
structure Server where
  /-- The `sessions` set. -/
  sessions : List String
  /-- The `items` array in `assets/timeline-data.json`. -/
  baseFile : Option (List Item)
  /-- The array in `data/custom-items.json`. -/
  customFile : Option (List Item)
  /-- The array in `data/deleted-ids.json`. -/
  deletedFile : Option (List String)
  /-- The files in `img/uploads`: name and base64 text of the content. -/
  uploads : List (String × String)
deriving DecidableEq, Repr

/-- The JSON answer of a handler: status code, the `ok` flag and the error text. -/
structure Response where
  status : Nat
  ok : Bool
  error : Option String
deriving DecidableEq, Repr

/-- The properties that the handlers read from a JSON request body.  A text
property (`title`, `date`, `summary`, `details`, `id`, `dataUrl`, `filename`)
holds `String(value)` of a truthy value, whatever its type, and is `none` when
the property is missing or falsy.  A list property holds the entries of an
array, each as `String(entry)`, and is `none` when the property is not an
array. -/
structure Fields where
  title : Option String
  date : Option String
  summary : Option String
  details : Option String
  categories : Option (List String)
  images : Option (List String)
  videos : Option (List String)
  links : Option (List Link)
  keywords : Option (List String)
  id : Option String
  dataUrl : Option String
  filename : Option String
deriving DecidableEq, Repr

/-- What reading the request body gives. -/
inductive RequestBody where
  /-- More than `MAX_BODY_BYTES`: `readJsonBody` answers 413. -/
  | tooLarge
  /-- The stream fails: `readJsonBody` answers 400. -/
  | unreadable
  /-- The text is not JSON: `readJsonBody` answers 400. -/
  | invalidJson
  /-- A JSON value; `none` for a falsy one (`null`, `false`, `0`, `""`). -/
  | json (value : Option Fields)
deriving DecidableEq, Repr

/-- A request as the handlers see it. -/
structure Request where
  /-- `req.headers.cookie`. -/
  cookie : Option String
  body : RequestBody
deriving DecidableEq, Repr

/-- Server state and answer after a handler ran; the answer is `none` when the
handler returned without sending one. -/
structure Outcome where
  server : Server
  response : Option Response
deriving DecidableEq, Repr

/-- `SESSION_COOKIE`. -/
def SESSION_COOKIE : String := "kcm_session"

/-- One byte read by `decodeURIComponent` in the state `pending`: the new
state and the character completed by the byte, or `none` when the bytes are
not UTF-8. -/
def uriByte (pending : Option Pending) (b : Nat) : Option (Option Pending × Option Char) :=
  match pending with
  | none =>
    match leadByte b with
    | .emit c => some (none, some c)
    | .start p => some (some p, none)
    | .error => none
  | some p =>
    if p.lower ≤ b ∧ b ≤ p.upper then
      let cp := p.codePoint * 64 + b % 64
      if p.bytesLeft = 1 then some (none, some (Char.ofNat cp))
      else some (some ⟨cp, p.bytesLeft - 1, 0x80, 0xBF⟩, none)
    else none

/-- `decodeURIComponent` on a character list, with `skip` characters of an
escape still to pass over and a UTF-8 sequence possibly in progress; `none`
is the `URIError` thrown for a malformed escape. -/
def uriDecodeFrom : Nat → Option Pending → List Char → Option (List Char)
  | _, none, [] => some []
  | _, some _, [] => none
  | skip + 1, pending, _ :: rest => uriDecodeFrom skip pending rest
  | 0, pending, c :: rest =>
    if c = '%' then
      match rest with
      | hi :: lo :: _ =>
        match hexVal hi.toNat, hexVal lo.toNat with
        | some x, some y =>
          match uriByte pending (16 * x + y) with
          | some (next, some ch) => (uriDecodeFrom 2 next rest).map (fun out => ch :: out)
          | some (next, none) => uriDecodeFrom 2 next rest
          | none => none
        | _, _ => none
      | _ => none
    else
      match pending with
      | none => (uriDecodeFrom 0 none rest).map (fun out => c :: out)
      | some _ => none

/-- `decodeURIComponent(s)`; `none` when it throws. -/
def decodeURIComponent (s : String) : Option String :=
  (uriDecodeFrom 0 none s.data).map String.mk

/-- One `;`-separated part of the cookie header: nothing for a part without a
name, else the name and the decoded value; the outer `none` when decoding
throws. -/
def parseCookiePart (part : String) : Option (Option (String × String)) :=
  let trimmed := (trim part).data
  let k := String.mk (trimmed.takeWhile (fun c => c ≠ '='))
  let value := String.mk ((trimmed.dropWhile (fun c => c ≠ '=')).drop 1)
  if !truthy k then some none
  else (decodeURIComponent value).map (fun v => some (k, v))

/-- The parts of a cookie header read in order; `none` when one of them throws. -/
def parseCookieParts : List String → Option (List (String × String))
  | [] => some []
  | part :: rest =>
    match parseCookiePart part with
    | none => none
    | some entry =>
      (parseCookieParts rest).map (fun entries =>
        match entry with
        | some kv => kv :: entries
        | none => entries)

/-- `parseCookies(headerValue)`: the name-value pairs in the order they are
assigned; `none` when `decodeURIComponent` throws. -/
def parseCookies (headerValue : Option String) : Option (List (String × String)) :=
  match headerValue with
  | none => some []
  | some header =>
    if !truthy header then some []
    else parseCookieParts ((splitWhere (fun c => c = ';') header.data).map String.mk)

/-- `cookies[name]`: the value assigned last under the name. -/
def cookieValue (cookies : List (String × String)) (name : String) : Option String :=
  (cookies.reverse.find? (fun kv => decide (kv.1 = name))).map (fun kv => kv.2)

/-- `isLoggedIn(req)`; `none` when parsing the cookies throws. -/
def isLoggedIn (s : Server) (req : Request) : Option Bool :=
  (parseCookies req.cookie).map (fun cookies =>
    match cookieValue cookies SESSION_COOKIE with
    | some token => truthy token && includes s.sessions token
    | none => false)

/-- The outcome of `requireAuth(req, res)`. -/
inductive Auth where
  /-- `isLoggedIn` threw. -/
  | threw
  /-- Not logged in: the 401 answer was sent. -/
  | denied (response : Response)
  /-- Logged in. -/
  | granted
deriving DecidableEq, Repr

/-- `requireAuth(req, res)`. -/
def requireAuth (s : Server) (req : Request) : Auth :=
  match isLoggedIn s req with
  | none => .threw
  | some false => .denied ⟨401, false, some "Not logged in."⟩
  | some true => .granted

/-- `readJsonBody(req, res)`: the parsed body, or the answer already sent; a
falsy JSON value comes back as it is. -/
def readJsonBody (req : Request) : Except Response (Option Fields) :=
  match req.body with
  | .tooLarge => .error ⟨413, false, some "Request too large."⟩
  | .unreadable => .error ⟨400, false, some "Unable to read request body."⟩
  | .invalidJson => .error ⟨400, false, some "Invalid JSON."⟩
  | .json value => .ok value

/-- `String(value || "").trim()` for a property of the body. -/
def fieldText (value : Option String) : String := trim (value.getD "")

/-- `Array.isArray(value) ? value.map(String).filter(Boolean) : []`. -/
def fieldList (value : Option (List String)) : List String := (value.getD []).filter truthy

/-- `getBaseItems()`. -/
def getBaseItems (s : Server) : List Item := s.baseFile.getD []

/-- `getCustomItems()`. -/
def getCustomItems (s : Server) : List Item := s.customFile.getD []

/-- `getDeletedIds()`. -/
def getDeletedIds (s : Server) : List String := s.deletedFile.getD []

/-- `getTimelineData()`: the `items` of the answer. -/
def getTimelineData (s : Server) : List Item :=
  let baseItems := getBaseItems s
  let customItems := getCustomItems s
  let deletedIds := getDeletedIds s
  let visibleBase := baseItems.filter (fun item => !includes deletedIds item.id)
  visibleBase ++ customItems

/-- `handleAddEvent(req, res)`; `now` is `Date.now()` and `uuid8` the first
eight characters of `randomUUID()`; `none` when the handler throws. -/
def handleAddEvent (h : Host) (now : Nat) (uuid8 : String) (s : Server) (req : Request) :
    Option Outcome :=
  match requireAuth s req with
  | .threw => none
  | .denied response => some ⟨s, some response⟩
  | .granted =>
    match readJsonBody req with
    | .error response => some ⟨s, some response⟩
    | .ok none => some ⟨s, none⟩
    | .ok (some payload) =>
      let title := fieldText payload.title
      let date := fieldText payload.date
      let summary := fieldText payload.summary
      let details := fieldText payload.details
      let categories := fieldList payload.categories
      let images := fieldList payload.images
      let videos := fieldList payload.videos
      let links := payload.links.getD []
      let keywords := fieldList payload.keywords
      if !truthy title || !truthy date || !truthy summary || !truthy details
          || categories.length = 0 then
        some ⟨s, some ⟨400, false, some "Missing required fields."⟩⟩
      else
        let item : Item :=
          { id := "custom-" ++ toString now ++ "-" ++ uuid8, date := date,
            year := h.fullYear date, title := title, summary := summary,
            categories := some categories, details := details, images := some images,
            videos := some videos, links := some links, keywords := some keywords }
        let items := getCustomItems s ++ [item]
        some ⟨{ s with customFile := some items }, some ⟨200, true, none⟩⟩

/-- `handleDeleteEvent(req, res)`; `none` when the handler throws. -/
def handleDeleteEvent (s : Server) (req : Request) : Option Outcome :=
  match requireAuth s req with
  | .threw => none
  | .denied response => some ⟨s, some response⟩
  | .granted =>
    match readJsonBody req with
    | .error response => some ⟨s, some response⟩
    | .ok none => some ⟨s, none⟩
    | .ok (some payload) =>
      let id := fieldText payload.id
      if !truthy id then some ⟨s, some ⟨400, false, some "Missing id."⟩⟩
      else
        let customItems := getCustomItems s
        match customItems.findIdx? (fun item => decide (item.id = id)) with
        | some customIndex =>
          some ⟨{ s with customFile := some (customItems.eraseIdx customIndex) },
            some ⟨200, true, none⟩⟩
        | none =>
          let deletedIds := getDeletedIds s
          if !includes deletedIds id then
            some ⟨{ s with deletedFile := some (deletedIds ++ [id]) }, some ⟨200, true, none⟩⟩
          else some ⟨s, some ⟨200, true, none⟩⟩

/-- The match of `/^data:([^;]+);base64,(.+)$/` on a data URL: the mime type
and the base64 text. -/
def matchDataUrl (dataUrl : String) : Option (String × String) :=
  match dataUrl.data with
  | 'd' :: 'a' :: 't' :: 'a' :: ':' :: rest =>
    let mime := rest.takeWhile (fun c => c ≠ ';')
    match rest.dropWhile (fun c => c ≠ ';') with
    | ';' :: 'b' :: 'a' :: 's' :: 'e' :: '6' :: '4' :: ',' :: base64 =>
      if mime.isEmpty || base64.isEmpty
          || base64.any (fun c => c = '\n' || c = '\r' || c.toNat = 0x2028 || c.toNat = 0x2029)
      then none
      else some (String.mk mime, String.mk base64)
    | _ => none
  | _ => none

/-- `s.startsWith(prefix)`. -/
def startsWith (s pre : String) : Bool := pre.data.isPrefixOf s.data

/-- `handleUpload(req, res)`; `storedName` is the file name the handler builds
from the original name, the time and a random id; `none` when the handler
throws. -/
def handleUpload (h : Host) (storedName : String) (s : Server) (req : Request) :
    Option Outcome :=
  match requireAuth s req with
  | .threw => none
  | .denied response => some ⟨s, some response⟩
  | .granted =>
    match readJsonBody req with
    | .error response => some ⟨s, some response⟩
    | .ok none => some ⟨s, none⟩
    | .ok (some payload) =>
      match matchDataUrl (payload.dataUrl.getD "") with
      | none => some ⟨s, some ⟨400, false, some "Expected a base64 data URL."⟩⟩
      | some (mime, base64) =>
        if !startsWith (h.toLowerCase mime) "image/" then
          some ⟨s, some ⟨400, false, some "Only image uploads are supported."⟩⟩
        else
          some ⟨{ s with uploads := s.uploads ++ [(storedName, base64)] },
            some ⟨200, true, none⟩⟩

/-! ## Static files (`safeResolveUrlPath`, `handleStatic`) -/

/-- The loop of `normalizeString(path, allowAboveRoot, "/")` of Node over the
segments of a path; `stack` holds the segments kept so far, last one first. -/
def normalizeSegments (allowAboveRoot : Bool) : List String → List String → List String
  | stack, [] => stack.reverse
  | stack, segment :: rest =>
    if segment = "" ∨ segment = "." then normalizeSegments allowAboveRoot stack rest
    else if segment = ".." then
      match stack with
      | [] => normalizeSegments allowAboveRoot (if allowAboveRoot then [".."] else []) rest
      | top :: below =>
        if top = ".." then normalizeSegments allowAboveRoot (".." :: top :: below) rest
        else normalizeSegments allowAboveRoot below rest
    else normalizeSegments allowAboveRoot (segment :: stack) rest

/-- The loop of `path.resolve` of Node (POSIX) over its arguments from the last
one to the first, ending with the working directory: the joined path and
whether it is absolute. -/
def resolveFrom : List String → String → String × Bool
  | [], resolvedPath => (resolvedPath, false)
  | path :: rest, resolvedPath =>
    if path = "" then resolveFrom rest resolvedPath
    else if path.data.head? = some '/' then (path ++ "/" ++ resolvedPath, true)
    else resolveFrom rest (path ++ "/" ++ resolvedPath)

/-- `path.resolve(...args)` of Node on a POSIX system with working directory
`cwd`. -/
def pathResolve (cwd : String) (args : List String) : String :=
  let joined := resolveFrom (args.reverse ++ [cwd]) ""
  let segments := (splitWhere (fun c => c = '/') joined.1.data).map String.mk
  let normalized := join "/" (normalizeSegments (!joined.2) [] segments)
  if joined.2 then "/" ++ normalized
  else if truthy normalized then normalized else "."

/-- `safeResolveUrlPath(urlPath)` with `root` for `ROOT_DIR`, which is
`process.cwd()`; the outer `none` when `decodeURIComponent` throws, the inner
`none` for the result `null`. -/
def safeResolveUrlPath (root urlPath : String) : Option (Option String) :=
  match decodeURIComponent urlPath with
  | none => none
  | some decoded =>
    let cleaned := String.mk (decoded.data.map (fun c => if c = '\\' then '/' else c))
    let stripped := if startsWith cleaned "/" then String.mk (cleaned.data.drop 1) else cleaned
    let resolved := pathResolve root [root, stripped]
    if !startsWith resolved root then some none else some (some resolved)

/-- What `handleStatic` sends: a text answer, or the file at a path. -/
inductive StaticReply where
  | text (status : Nat) (body : String)
  | file (path : String)
deriving DecidableEq, Repr

/-- `handleStatic(req, res)` from the `pathname` of the request URL on;
`isFile path` tells whether `fsp.stat(path)` finds a regular file; `none` when
the handler throws. -/
def handleStatic (root : String) (isFile : String → Bool) (urlPathname : String) :
    Option StaticReply :=
  let pathname := if urlPathname = "/" then "/index.html" else urlPathname
  match safeResolveUrlPath root pathname with
  | none => none
  | some none => some (.text 400 "Bad request.")
  | some (some resolved) =>
    if !truthy resolved then some (.text 400 "Bad request.")
    else if isFile resolved then some (.file resolved)
    else some (.text 404 "Not found.")

/-- The `try`/`catch` around the handlers in the request listener: a handler
that throws ends in the answer 500. -/
def catchError (s : Server) (result : Option Outcome) : Outcome :=
  match result with
  | some outcome => outcome
  | none => ⟨s, some ⟨500, false, some "Server error."⟩⟩

/-! ## The publish worker (`publish-worker.js`) -/

/-- The bindings of the worker that the handler reads. -/
structure WorkerEnv where
  PUBLISH_PASSWORD : Option String
  GITHUB_OWNER : Option String
  GITHUB_REPO : Option String
  GITHUB_TOKEN : Option String
deriving DecidableEq, Repr

/-- The JSON body of a publish request. -/
structure PublishBody where
  password : Option String
  data : Option Payload
deriving DecidableEq, Repr

/-- A request to the worker; `body` is `none` when `request.json()` throws and
`some none` for a JSON value without properties. -/
structure WorkerRequest where
  method : String
  pathname : String
  body : Option (Option PublishBody)
deriving DecidableEq, Repr

/-- The calls of the worker to the repository API. -/
inductive ApiCall where
  /-- `GET` of the file, for its `sha`. -/
  | getFile
  /-- `PUT` of the new content. -/
  | putFile
deriving DecidableEq, Repr

/-- What the repository API answers, should it be called. -/
structure ApiReplies where
  getOk : Bool
  sha : Option String
  putOk : Bool
deriving DecidableEq, Repr

/-- Status and `ok` flag of the worker's answer (`ok` is false for an answer
without a body) and the repository calls made on the way. -/
structure WorkerResult where
  status : Nat
  ok : Bool
  calls : List ApiCall
deriving DecidableEq, Repr

/-- The `fetch(request, env)` handler of the worker. -/
def workerFetch (env : WorkerEnv) (api : ApiReplies) (req : WorkerRequest) : WorkerResult :=
  if req.method = "OPTIONS" then ⟨204, false, []⟩
  else if req.pathname ≠ "/publish" ∨ req.method ≠ "POST" then ⟨404, false, []⟩
  else
    match req.body with
    | none => ⟨400, false, []⟩
    | some body =>
      let password := (body.bind (fun b => b.password)).getD ""
      if !optTruthy env.PUBLISH_PASSWORD || decide (some password ≠ env.PUBLISH_PASSWORD) then
        ⟨401, false, []⟩
      else
        match (body.bind (fun b => b.data)).bind (fun payload => payload.items) with
        | none => ⟨400, false, []⟩
        | some _ =>
          if !optTruthy env.GITHUB_OWNER || !optTruthy env.GITHUB_REPO
              || !optTruthy env.GITHUB_TOKEN then ⟨500, false, []⟩
          else if !api.getOk then ⟨502, false, [.getFile]⟩
          else if !optTruthy api.sha then ⟨502, false, [.getFile]⟩
          else if !api.putOk then ⟨502, false, [.getFile, .putFile]⟩
          else ⟨200, true, [.getFile, .putFile]⟩

/-- The view-state invariant: the filter is one of `FILTERS` and the sort is
"oldest" or "newest". -/
def validView (st : ViewState) : Prop :=
  st.filter ∈ FILTERS ∧ (st.sort = "oldest" ∨ st.sort = "newest")

instance (st : ViewState) : Decidable (validView st) := by
  unfold validView
  infer_instance

/-! ## Scenario data -/

/-- The base item of the filter scenario dated 2023-09-01. -/
def itemSep2023 : Item :=
  { id := "evt-1", date := "2023-09-01", year := some 2023, title := "Science fair",
    summary := "Annual fair", details := "Projects from every year group",
    categories := some ["Academics"], images := none, videos := none, links := none,
    keywords := some ["STEM", "Robotics"] }

/-- The base item of the filter scenario dated 2022-05-10. -/
def itemMay2022 : Item :=
  { id := "evt-2", date := "2022-05-10", year := some 2022, title := "Solar panels",
    summary := "Roof installation", details := "Panels on the sports hall",
    categories := some ["Sustainability"], images := none, videos := none, links := none,
    keywords := none }

/-- The view state of the filter scenario. -/
def scenarioState : ViewState :=
  { items := [itemSep2023, itemMay2022], filter := "Sustainability", query := "",
    sort := "oldest", yearAnchor := "", loaded := true, error := false }

/-- Local mode with the two scenario items as base set and "evt-1" deleted. -/
def tombstoneApp : App :=
  { App.initial with
    baseItems := [itemSep2023, itemMay2022], deletedIds := ["evt-1"],
    state := { scenarioState with items := [itemMay2022], filter := "All" } }

/-- As `tombstoneApp`, with a custom item that carries the deleted id "evt-1". -/
def tombstoneClash : App :=
  { tombstoneApp with customItems := [{ itemMay2022 with id := "evt-1" }] }

/-- A loaded local-mode session with one tombstone whose last load had the
signature "2024-01-01|2". -/
def pollApp : App :=
  { tombstoneApp with currentSignature := some "2024-01-01|2" }

/-- A remote dataset whose signature "2024-02-02|1" differs from that of `pollApp`. -/
def remoteChanged : FetchReply :=
  .data (some { school := none, lastUpdated := some "2024-02-02", items := some [itemMay2022] })

/-- A loaded local-mode session showing the two scenario items, with no local edit. -/
def deleteApp : App :=
  { App.initial with
    baseItems := [itemSep2023, itemMay2022],
    state := { scenarioState with filter := "All" } }

/-- A session whose view state has every navigational field away from its default. -/
def linkApp : App :=
  { deleteApp with
    state := { scenarioState with
      filter := "Sustainability", sort := "newest", query := "  Solar panels & café ",
      yearAnchor := "2022" } }

/-- A session with a stale view state whose address bar holds a fragment with
an unknown filter, an unknown sort and no query. -/
def staleApp : App :=
  { linkApp with locationHash := "#filter=Sports&sort=sideways&year=2021" }

/-- The dataset a publish of the scenario session would send. -/
def publishPayload : Payload :=
  { school := some "King's College Murcia", lastUpdated := some "2024-03-01",
    items := some [itemMay2022] }

/-- A custom item with the same date as `itemMay2022`. -/
def itemCustomMay : Item :=
  { itemMay2022 with id := "custom-1700000000000", title := "Recycling drive" }

/-- Local mode with the two scenario items as base set and one custom item
that shares its date with a base item. -/
def tieApp : App :=
  { deleteApp with customItems := [itemCustomMay] }

/-- An item whose date does not parse. -/
def itemNoDate : Item :=
  { itemMay2022 with id := "evt-3", date := "soon", year := none, title := "Open day" }

/-- A server with one session and nothing stored. -/
def scenarioServer : Server :=
  { sessions := ["token-1"], baseFile := some [itemSep2023, itemMay2022], customFile := none,
    deletedFile := none, uploads := [] }

/-- The fields of a submission whose title is blank. -/
def untitledFields : Fields :=
  { title := some "  ", date := some "2024-05-01", summary := some "Visit us",
    details := some "All welcome", categories := some ["Community"], images := none,
    videos := none, links := none, keywords := none, id := some "evt-1",
    dataUrl := some "data:image/png;base64,AAAA", filename := none }

/-- A request to add an event without a title, sent with the session cookie. -/
def untitledRequest : Request :=
  { cookie := some "kcm_session=token-1", body := .json (some untitledFields) }

/-- The same request sent with no session cookie and a cookie whose value is
not a valid percent-encoding. -/
def brokenCookieRequest : Request :=
  { untitledRequest with cookie := some "theme=%" }

/-- The same request sent with a token that the server does not know. -/
def strangerRequest : Request :=
  { untitledRequest with cookie := some "kcm_session=token-2" }

/-- A worker with a publish password and its repository bindings. -/
def scenarioEnv : WorkerEnv :=
  { PUBLISH_PASSWORD := some "secret", GITHUB_OWNER := some "school",
    GITHUB_REPO := some "timeline", GITHUB_TOKEN := some "t0ken" }

/-- A repository API that answers every call with success. -/
def apiUp : ApiReplies := { getOk := true, sha := some "abc123", putOk := true }

/-- The session of `tombstoneClash` whose base set was fetched with the date
"2024-01-01": two base items, one of them deleted, and one custom item. -/
def editedApp : App :=
  { tombstoneClash with lastUpdated := "2024-01-01", currentSignature := some "2024-01-01|2" }

/-- An item with two images, one video and one link. -/
def itemWithMedia : Item :=
  { itemMay2022 with
    images := some ["img/a.png", "img/b.png"], videos := some ["https://video.example/v"],
    links := some [⟨"", "https://school.example"⟩] }

/-- A session sorted newest first that shows three items of two years. -/
def groupedApp : App :=
  { App.initial with
    state := { scenarioState with
      items := [itemMay2022, itemSep2023, itemCustomMay], filter := "All", sort := "newest" } }

/-- A loaded session that shows the filter "Sustainability" and the sort
"newest", both in the view state and on the controls, after the fragment of
the address was removed. -/
def pressedApp : App :=
  { linkApp with pressedFilter := "Sustainability", sortToggle := "newest", locationHash := "" }

/-- The directory the server of the traversal scenario runs in. -/
def scenarioRoot : String := "/srv/app"

/-- The file system of the traversal scenario: the page of the site, and a
file in a sibling directory of the root. -/
def scenarioFiles (path : String) : Bool :=
  decide (path = "/srv/app/index.html") || decide (path = "/srv/app-secret/notes.txt")

/-- An item of the sort scenarios with the given id and date. -/
def datedItem (id date : String) : Item :=
  { itemMay2022 with id := id, date := date, year := isoFullYear date }

/-- Seven items, the third with a date that does not parse and the last four
with one and the same date. -/
def staggeredItems : List Item :=
  [datedItem "i0" "2022-05-10", datedItem "i1" "2021-03-01", datedItem "i2" "soon",
   datedItem "i3" "2021-03-01", datedItem "i4" "2021-03-01", datedItem "i5" "2021-03-01",
   datedItem "i6" "2021-03-01"]

/-- Six items, the second with a date that does not parse. -/
def interleavedItems : List Item :=
  [datedItem "i0" "2022-05-10", datedItem "i1" "soon", datedItem "i2" "2021-03-01",
   datedItem "i3" "2021-03-01", datedItem "i4" "2022-05-10", datedItem "i5" "2022-05-10"]

/-- A submission of the authoring form with every required field filled but
the title, which is blank. -/
def untitledForm : AdminForm :=
  { title := "  ", date := "2024-05-01", summary := "Visit us", details := "All welcome",
    categories := ["Community"], images := "", videos := "", links := "", keywords := "" }

/-! # Verification -/

/-! ## The URL codec -/

theorem utf8DecodeFrom_encodeChar (c : Char) (rest : List Nat) :
    utf8DecodeFrom none (utf8EncodeChar c ++ rest) = c :: utf8DecodeFrom none rest := by
  have hv : c.toNat < 0xD800 ∨ (0xDFFF < c.toNat ∧ c.toNat < 0x110000) := c.valid
  have hc : Char.ofNat c.toNat = c := Char.ofNat_toNat c
  unfold utf8EncodeChar
  generalize c.toNat = n at hv hc
  simp only []
  by_cases h1 : n < 0x80
  · have : n ≤ 0x7F := by omega
    simp [h1, utf8DecodeFrom, leadByte, this, hc]
  · by_cases h2 : n < 0x800
    · have e1 : ¬ (0xC0 + n / 64 ≤ 0x7F) := by omega
      have e2 : 0xC2 ≤ 0xC0 + n / 64 ∧ 0xC0 + n / 64 ≤ 0xDF := by omega
      have e3 : 0x80 ≤ 0x80 + n % 64 ∧ 0x80 + n % 64 ≤ 0xBF := by omega
      have e4 : (0xC0 + n / 64) % 32 * 64 + (0x80 + n % 64) % 64 = n := by omega
      simp only [h1, h2, if_true, if_false, List.cons_append, List.nil_append, utf8DecodeFrom, leadByte, e1, e2, e3, e4, hc, and_self]
    · by_cases h3 : n < 0x10000
      · have e1 : ¬ (0xE0 + n / 4096 ≤ 0x7F) := by omega
        have e2 : ¬ (0xC2 ≤ 0xE0 + n / 4096 ∧ 0xE0 + n / 4096 ≤ 0xDF) := by omega
        have e3 : 0xE0 ≤ 0xE0 + n / 4096 ∧ 0xE0 + n / 4096 ≤ 0xEF := by omega
        have e4 : (if 0xE0 + n / 4096 = 0xE0 then 0xA0 else 0x80) ≤ 0x80 + n / 64 % 64 ∧
            0x80 + n / 64 % 64 ≤ (if 0xE0 + n / 4096 = 0xED then 0x9F else 0xBF) := by
          split_ifs <;> omega
        have e5 : 0x80 ≤ 0x80 + n % 64 ∧ 0x80 + n % 64 ≤ 0xBF := by omega
        have e6 : ((0xE0 + n / 4096) % 16 * 64 + (0x80 + n / 64 % 64) % 64) * 64
            + (0x80 + n % 64) % 64 = n := by omega
        simp only [h1, h2, h3, if_true, if_false, List.cons_append, List.nil_append,
          utf8DecodeFrom, leadByte, e1, e2, e3, e4, e5, e6, hc, and_self]
        simp [e5, e6, hc]
      · have e1 : ¬ (0xF0 + n / 262144 ≤ 0x7F) := by omega
        have e2 : ¬ (0xC2 ≤ 0xF0 + n / 262144 ∧ 0xF0 + n / 262144 ≤ 0xDF) := by omega
        have e3 : ¬ (0xE0 ≤ 0xF0 + n / 262144 ∧ 0xF0 + n / 262144 ≤ 0xEF) := by omega
        have e4 : 0xF0 ≤ 0xF0 + n / 262144 ∧ 0xF0 + n / 262144 ≤ 0xF4 := by omega
        have e5 : (if 0xF0 + n / 262144 = 0xF0 then 0x90 else 0x80) ≤ 0x80 + n / 4096 % 64 ∧
            0x80 + n / 4096 % 64 ≤ (if 0xF0 + n / 262144 = 0xF4 then 0x8F else 0xBF) := by
          split_ifs <;> omega
        have e6 : 0x80 ≤ 0x80 + n / 64 % 64 ∧ 0x80 + n / 64 % 64 ≤ 0xBF := by omega
        have e7 : 0x80 ≤ 0x80 + n % 64 ∧ 0x80 + n % 64 ≤ 0xBF := by omega
        have e8 : (((0xF0 + n / 262144) % 8 * 64 + (0x80 + n / 4096 % 64) % 64) * 64
            + (0x80 + n / 64 % 64) % 64) * 64 + (0x80 + n % 64) % 64 = n := by omega
        simp only [h1, h2, h3, if_true, if_false, List.cons_append, List.nil_append,
          utf8DecodeFrom, leadByte, e1, e2, e3, e4, e5, and_self]
        simp [e6, e7]
        rw [← hc]; congr 1; omega

theorem utf8Decode_encode (s : String) : utf8Decode (utf8Encode s) = s := by
  have key : ∀ cs : List Char, utf8DecodeFrom none (cs.flatMap utf8EncodeChar) = cs := by
    intro cs
    induction cs with
    | nil => rfl
    | cons c cs ih => rw [List.flatMap_cons, utf8DecodeFrom_encodeChar, ih]
  unfold utf8Decode utf8Encode
  rw [key]

theorem utf8EncodeChar_lt (c : Char) : ∀ b ∈ utf8EncodeChar c, b < 256 := by
  have hv : c.toNat < 0xD800 ∨ (0xDFFF < c.toNat ∧ c.toNat < 0x110000) := c.valid
  unfold utf8EncodeChar
  generalize c.toNat = n at hv
  intro b hb
  simp only [] at hb
  split_ifs at hb <;> simp at hb <;> omega

theorem toNat_ofNat_of_lt (n : Nat) (h : n < 0xD800) : (Char.ofNat n).toNat = n := by
  have hv : n.isValidChar := Or.inl h
  simp only [Char.ofNat, hv, dite_true, Char.ofNatAux, Char.toNat]
  show (UInt32.ofNatCore n _).toNat = n
  rfl

theorem hexVal_hexDigit (n : Nat) (h : n < 16) : hexVal (hexDigit n) = some n := by
  unfold hexVal hexDigit
  by_cases h10 : n < 10
  · have : 0x30 ≤ 0x30 + n ∧ 0x30 + n ≤ 0x39 := by omega
    simp [h10, this]
  · have a1 : ¬ (0x30 ≤ 0x37 + n ∧ 0x37 + n ≤ 0x39) := by omega
    have a2 : 0x41 ≤ 0x37 + n ∧ 0x37 + n ≤ 0x46 := by omega
    simp [h10, a1, a2]

theorem isFormSafe_iff (b : Nat) :
    isFormSafe b = true ↔
      (0x30 ≤ b ∧ b ≤ 0x39) ∨ (0x41 ≤ b ∧ b ≤ 0x5A) ∨ (0x61 ≤ b ∧ b ≤ 0x7A) ∨
        b = 0x2A ∨ b = 0x2D ∨ b = 0x2E ∨ b = 0x5F := by
  simp [isFormSafe, or_assoc]

theorem isFormSafe_hexDigit (n : Nat) (h : n < 16) : isFormSafe (hexDigit n) = true := by
  rw [isFormSafe_iff]
  unfold hexDigit
  split_ifs <;> omega

/-- Every byte the serializer writes for a name or value is a safe byte, `+` or `%`. -/
theorem formEncodeByte_alphabet (b : Nat) (hb : b < 256) :
    ∀ x ∈ formEncodeByte b, isFormSafe x = true ∨ x = 0x2B ∨ x = 0x25 := by
  intro x hx
  unfold formEncodeByte at hx
  split_ifs at hx with h1 h2
  · simp at hx; exact Or.inr (Or.inl hx)
  · simp at hx; subst hx; exact Or.inl h2
  · simp at hx
    rcases hx with hx | hx | hx
    · exact Or.inr (Or.inr hx)
    · subst hx; exact Or.inl (isFormSafe_hexDigit _ (by omega))
    · subst hx; exact Or.inl (isFormSafe_hexDigit _ (by omega))

theorem utf8Encode_lt (s : String) : ∀ b ∈ utf8Encode s, b < 256 := by
  intro b hb
  unfold utf8Encode at hb
  rw [List.mem_flatMap] at hb
  obtain ⟨c, _, hc⟩ := hb
  exact utf8EncodeChar_lt c b hc

theorem formEncode_alphabet (s : String) :
    ∀ x ∈ formEncode s, isFormSafe x = true ∨ x = 0x2B ∨ x = 0x25 := by
  intro x hx
  unfold formEncode at hx
  rw [List.mem_flatMap] at hx
  obtain ⟨b, hb, hxb⟩ := hx
  exact formEncodeByte_alphabet b (utf8Encode_lt s b hb) x hxb

theorem percentDecodeFrom_formEncodeByte (b : Nat) (hb : b < 256) (rest : List Nat) :
    percentDecodeFrom 0 ((formEncodeByte b).map plusToSpace ++ rest)
      = b :: percentDecodeFrom 0 rest := by
  unfold formEncodeByte
  split_ifs with h1 h2
  · subst h1
    simp [plusToSpace, percentDecodeFrom]
  · rw [isFormSafe_iff] at h2
    have n1 : b ≠ 0x2B := by omega
    have n2 : b ≠ 0x25 := by omega
    simp [plusToSpace, percentDecodeFrom, n1, n2]
  · have s1 := isFormSafe_hexDigit (b / 16) (by omega)
    have s2 := isFormSafe_hexDigit (b % 16) (by omega)
    rw [isFormSafe_iff] at s1 s2
    have n1 : hexDigit (b / 16) ≠ 0x2B := by omega
    have n2 : hexDigit (b % 16) ≠ 0x2B := by omega
    have v1 := hexVal_hexDigit (b / 16) (by omega)
    have v2 := hexVal_hexDigit (b % 16) (by omega)
    have e : 16 * (b / 16) + b % 16 = b := by omega
    simp [plusToSpace, percentDecodeFrom, n1, n2, v1, v2, e]

theorem percentDecode_formEncode (bs : List Nat) (hbs : ∀ b ∈ bs, b < 256) :
    percentDecode ((bs.flatMap formEncodeByte).map plusToSpace) = bs := by
  unfold percentDecode
  induction bs with
  | nil => rfl
  | cons b bs ih =>
    rw [List.flatMap_cons, List.map_append,
      percentDecodeFrom_formEncodeByte b (hbs b (List.mem_cons_self _ _)),
      ih (fun x hx => hbs x (List.mem_cons_of_mem _ hx))]

theorem decodeComponent_formEncode (s : String) : decodeComponent (formEncode s) = s := by
  unfold decodeComponent formEncode
  rw [percentDecode_formEncode _ (utf8Encode_lt s), utf8Decode_encode]

theorem formEncode_ne (s : String) (x : Nat) (hx : x ∈ formEncode s) :
    x ≠ 0x3D ∧ x ≠ 0x26 ∧ x ≠ 0x3F ∧ x < 0x80 := by
  have h := formEncode_alphabet s x hx
  rw [isFormSafe_iff] at h
  omega

theorem takeWhile_append_stop {p : Nat → Bool} (xs : List Nat) (y : Nat) (ys : List Nat)
    (hxs : ∀ x ∈ xs, p x = true) (hy : p y = false) :
    (xs ++ y :: ys).takeWhile p = xs ∧ (xs ++ y :: ys).dropWhile p = y :: ys := by
  induction xs with
  | nil => simp [List.takeWhile, List.dropWhile, hy]
  | cons x xs ih =>
    have hx := hxs x (List.mem_cons_self _ _)
    have := ih (fun z hz => hxs z (List.mem_cons_of_mem _ hz))
    simp [List.takeWhile, List.dropWhile, hx, this]

theorem parsePair_encode (k v : String) :
    parsePair (formEncode k ++ 0x3D :: formEncode v) = (k, v) := by
  have h := takeWhile_append_stop (p := fun b => decide (b ≠ 0x3D)) (formEncode k) 0x3D
    (formEncode v) (fun x hx => by simpa using (formEncode_ne k x hx).1) (by simp)
  unfold parsePair
  rw [h.1, h.2, List.drop_one, List.tail_cons, decodeComponent_formEncode,
    decodeComponent_formEncode]

theorem splitOn_ne_nil (sep : Nat) (l : List Nat) : splitOn sep l ≠ [] := by
  cases l with
  | nil => simp [splitOn]
  | cons b rest =>
    unfold splitOn
    split_ifs
    · simp
    · split <;> simp

theorem splitOn_of_not_mem (sep : Nat) (xs : List Nat) (h : sep ∉ xs) :
    splitOn sep xs = [xs] := by
  induction xs with
  | nil => rfl
  | cons x xs ih =>
    have hx : x ≠ sep := fun e => h (e ▸ List.mem_cons_self _ _)
    have := ih (fun hm => h (List.mem_cons_of_mem _ hm))
    simp [splitOn, hx, this]

theorem splitOn_append_sep (sep : Nat) (xs ys : List Nat) (h : sep ∉ xs) :
    splitOn sep (xs ++ sep :: ys) = xs :: splitOn sep ys := by
  induction xs with
  | nil => simp [splitOn]
  | cons x xs ih =>
    have hx : x ≠ sep := fun e => h (e ▸ List.mem_cons_self _ _)
    have := ih (fun hm => h (List.mem_cons_of_mem _ hm))
    simp [splitOn, hx, this]

theorem pair_no_amp (k v : String) : 0x26 ∉ formEncode k ++ 0x3D :: formEncode v := by
  intro hm
  rw [List.mem_append, List.mem_cons] at hm
  rcases hm with hm | hm | hm
  · exact (formEncode_ne k _ hm).2.1 rfl
  · omega
  · exact (formEncode_ne v _ hm).2.1 rfl

theorem parseBytes_serializePairs (ps : List (String × String)) :
    parseBytes (serializePairs ps) = ps := by
  induction ps with
  | nil => rfl
  | cons p rest ih =>
    obtain ⟨k, v⟩ := p
    cases rest with
    | nil =>
      unfold parseBytes serializePairs
      rw [splitOn_of_not_mem _ _ (pair_no_amp k v)]
      simp [parsePair_encode]
    | cons q rest =>
      unfold parseBytes at ih ⊢
      unfold serializePairs
      rw [splitOn_append_sep _ _ _ (pair_no_amp k v)]
      have hne : (!(formEncode k ++ 0x3D :: formEncode v).isEmpty) = true := by
        cases formEncode k <;> rfl
      rw [List.filter_cons, if_pos hne, List.map_cons, parsePair_encode, ih]

/-- Bytes that can occur in the output of the serializer: printable ASCII
other than space, `"`, `<`, `>`, `?` and the backquote. -/
theorem serializePairs_alphabet (ps : List (String × String)) :
    ∀ x ∈ serializePairs ps,
      0x20 < x ∧ x < 0x7F ∧ x ≠ 0x22 ∧ x ≠ 0x3C ∧ x ≠ 0x3E ∧ x ≠ 0x60 ∧ x ≠ 0x3F := by
  have hcomp : ∀ (s : String), ∀ y ∈ formEncode s,
      0x20 < y ∧ y < 0x7F ∧ y ≠ 0x22 ∧ y ≠ 0x3C ∧ y ≠ 0x3E ∧ y ≠ 0x60 ∧ y ≠ 0x3F := by
    intro s y hy
    have h := formEncode_alphabet s y hy
    rw [isFormSafe_iff] at h
    omega
  induction ps with
  | nil => intro x hx; simp [serializePairs] at hx
  | cons p rest ih =>
    obtain ⟨k, v⟩ := p
    intro x hx
    have hpair : ∀ y ∈ formEncode k ++ 0x3D :: formEncode v,
        0x20 < y ∧ y < 0x7F ∧ y ≠ 0x22 ∧ y ≠ 0x3C ∧ y ≠ 0x3E ∧ y ≠ 0x60 ∧ y ≠ 0x3F := by
      intro y hy
      rw [List.mem_append, List.mem_cons] at hy
      rcases hy with hy | hy | hy
      · exact hcomp k y hy
      · omega
      · exact hcomp v y hy
    cases rest with
    | nil => exact hpair x (by simpa [serializePairs] using hx)
    | cons q rest =>
      unfold serializePairs at hx
      rw [List.mem_append, List.mem_cons] at hx
      rcases hx with hx | hx | hx
      · exact hpair x hx
      · omega
      · exact ih x hx

theorem utf8Encode_isomorphicDecode (bs : List Nat) (h : ∀ b ∈ bs, b < 0x80) :
    utf8Encode (isomorphicDecode bs) = bs := by
  unfold utf8Encode isomorphicDecode
  induction bs with
  | nil => rfl
  | cons b bs ih =>
    have hb := h b (List.mem_cons_self _ _)
    have hn : (Char.ofNat b).toNat = b := toNat_ofNat_of_lt b (by omega)
    have := ih (fun x hx => h x (List.mem_cons_of_mem _ hx))
    simp only [List.map_cons, List.flatMap_cons] at this ⊢
    rw [this]
    simp [utf8EncodeChar, hn, hb]

/-- Parsing the text that `toString` wrote gives back the pairs. -/
theorem urlSearchParams_paramsToString (ps : List (String × String)) :
    urlSearchParams (paramsToString ps) = ps := by
  have hal := serializePairs_alphabet ps
  have hmain : parseBytes (utf8Encode (paramsToString ps)) = ps := by
    unfold paramsToString
    rw [utf8Encode_isomorphicDecode _ (fun b hb => by have := hal b hb; omega),
      parseBytes_serializePairs]
  unfold urlSearchParams
  split
  · rename_i rest hd
    exfalso
    unfold paramsToString isomorphicDecode at hd
    cases hs : serializePairs ps with
    | nil => rw [hs] at hd; simp at hd
    | cons b bs =>
      rw [hs] at hd
      simp only [List.map_cons, List.cons.injEq] at hd
      have hb := hal b (by rw [hs]; exact List.mem_cons_self _ _)
      have hn : (Char.ofNat b).toNat = b := toNat_ofNat_of_lt b (by omega)
      rw [hd.1] at hn
      exact hb.2.2.2.2.2.2 hn.symm
  · exact hmain

/-! ## Filter, search and sort -/

theorem includes_iff (xs : List String) (x : String) : includes xs x = true ↔ x ∈ xs := by
  unfold includes
  rw [List.any_eq_true]
  constructor
  · rintro ⟨y, hy, hxy⟩
    rw [decide_eq_true_eq] at hxy
    exact hxy ▸ hy
  · intro hx
    exact ⟨x, hx, by simp⟩

theorem hasCategory_iff (filter : String) (item : Item) :
    hasCategory filter item = true ↔ ∃ cs, item.categories = some cs ∧ filter ∈ cs := by
  unfold hasCategory
  cases hc : item.categories with
  | none => simp
  | some cs => simp [includes_iff]

theorem strIncludes_iff (hay needle : String) :
    strIncludes hay needle = true ↔ needle.data <:+: hay.data := by
  unfold strIncludes
  rw [decide_eq_true_eq]

theorem truthy_iff (s : String) : truthy s = true ↔ s ≠ "" := by
  unfold truthy
  cases s with
  | mk cs =>
    cases cs with
    | nil => simp
    | cons c cs =>
      simp only [List.isEmpty_cons, Bool.not_false, ne_eq, true_iff]
      intro hc
      exact absurd (congrArg String.data hc) (by simp)

theorem sortStep_perm (h : Host) (st : ViewState) (items : List Item) :
    (sortStep h st items).Perm items :=
  List.perm_insertionSort _ items

theorem getFilteredItems_perm (h : Host) (st : ViewState) (hl : st.loaded = true) :
    (getFilteredItems h st).Perm (textStep h st (categoryStep st st.items)) := by
  unfold getFilteredItems
  simp only [hl, Bool.not_true, Bool.false_eq_true, if_false]
  exact sortStep_perm h st _

theorem mem_categoryStep (st : ViewState) (items : List Item) (item : Item) :
    item ∈ categoryStep st items ↔
      item ∈ items ∧ (st.filter ≠ "All" → hasCategory st.filter item = true) := by
  unfold categoryStep
  split_ifs with hf
  · simp [List.mem_filter, hf]
  · simp [hf]

theorem mem_textStep (h : Host) (st : ViewState) (items : List Item) (item : Item) :
    item ∈ textStep h st items ↔
      item ∈ items ∧ (truthy (searchQuery h st) = true →
        strIncludes (haystack h item) (searchQuery h st) = true) := by
  unfold textStep
  simp only []
  split_ifs with hq
  · simp [List.mem_filter, hq]
  · simp [hq]

/-- Membership in the output of `getFilteredItems`. -/
theorem mem_getFilteredItems (h : Host) (st : ViewState) (item : Item) :
    item ∈ getFilteredItems h st ↔
      st.loaded = true ∧ item ∈ st.items ∧
        (st.filter ≠ "All" → hasCategory st.filter item = true) ∧
        (truthy (searchQuery h st) = true →
          strIncludes (haystack h item) (searchQuery h st) = true) := by
  cases hl : st.loaded with
  | false => simp [getFilteredItems, hl]
  | true =>
    rw [(getFilteredItems_perm h st hl).mem_iff, mem_textStep, mem_categoryStep]
    simp [and_assoc]

theorem searchQuery_of_empty (h : Host) (st : ViewState) (hq : st.query = "") :
    searchQuery h st = "" := by
  unfold searchQuery
  rw [hq]
  exact h.toLowerCase_empty

/-- C1. Category filter of `getFilteredItems`: when the filter is not "All",
every returned item has the filter among its categories (exact string
membership); when the list is loaded, the filter is "All" and the query is
empty, the output is a rearrangement of `state.items`, so every item is
returned; and for two items dated 2023-09-01 (categories [Academics]) and
2022-05-10 (categories [Sustainability]), filter "Sustainability" in ascending
order returns exactly the 2022-05-10 item. -/
theorem getFilteredItems_category (h : Host) (st : ViewState) :
    (st.filter ≠ "All" → ∀ item ∈ getFilteredItems h st,
        ∃ cs, item.categories = some cs ∧ st.filter ∈ cs) ∧
    (st.loaded = true → st.filter = "All" → st.query = "" →
        (getFilteredItems h st).Perm st.items ∧
        ∀ item ∈ st.items, item ∈ getFilteredItems h st) ∧
    (∀ a b : Item, a.date = "2023-09-01" → a.categories = some ["Academics"] →
        b.date = "2022-05-10" → b.categories = some ["Sustainability"] →
        st.items = [a, b] → st.loaded = true → st.filter = "Sustainability" →
        st.query = "" → st.sort = "oldest" → getFilteredItems h st = [b]) := by
  refine ⟨?_, ?_, ?_⟩
  · intro hf item hi
    rw [mem_getFilteredItems] at hi
    exact (hasCategory_iff _ _).1 (hi.2.2.1 hf)
  · intro hl hf hq
    have hperm : (getFilteredItems h st).Perm st.items := by
      have hp := getFilteredItems_perm h st hl
      have hq0 : truthy (searchQuery h st) = false := by
        rw [searchQuery_of_empty h st hq]; rfl
      simpa [textStep, categoryStep, hf, hq0] using hp
    exact ⟨hperm, fun item hi => hperm.mem_iff.2 hi⟩
  · intro a b _ hca _ hcb hitems hl hf hq _
    have hq0 : truthy (searchQuery h st) = false := by
      rw [searchQuery_of_empty h st hq]; rfl
    have hne : st.filter ≠ "All" := by rw [hf]; decide
    have ha : hasCategory "Sustainability" a = false := by
      unfold hasCategory; rw [hca]; decide
    have hb : hasCategory "Sustainability" b = true := by
      unfold hasCategory; rw [hcb]; decide
    unfold getFilteredItems
    simp only [hl, Bool.not_true, Bool.false_eq_true, if_false]
    unfold sortStep textStep categoryStep
    simp only [hq0, Bool.false_eq_true, if_false, hne, ne_eq, not_false_eq_true, if_true,
      hitems, hf, List.filter_cons, ha, hb, List.filter_nil]
    rfl

/-- The scenario of C1 evaluated: the loaded two-item list under filter
"Sustainability" shows the 2022-05-10 item only. -/
theorem getFilteredItems_category_witness :
    getFilteredItems asciiHost scenarioState = [itemMay2022] :=
  (getFilteredItems_category asciiHost scenarioState).2.2 itemSep2023 itemMay2022
    rfl rfl rfl rfl rfl rfl rfl rfl rfl

/-! ## Text filter -/

theorem join_data_cons (sep s : String) (t : String) (rest : List String) :
    (join sep (s :: t :: rest)).data = s.data ++ sep.data ++ (join sep (t :: rest)).data := by
  simp [join, String.data_append]

theorem infix_join (sep kw : String) (kws : List String) (hk : kw ∈ kws) :
    kw.data <:+: (join sep kws).data := by
  induction kws with
  | nil => cases hk
  | cons s rest ih =>
    cases rest with
    | nil =>
      rw [List.mem_singleton] at hk
      subst hk
      exact List.infix_refl _
    | cons t rest =>
      rw [join_data_cons]
      rcases List.mem_cons.1 hk with hk | hk
      · subst hk
        rw [List.append_assoc]
        exact List.infix_append' [] _ _
      · exact (ih hk).trans ⟨s.data ++ sep.data, [], by simp⟩

/-- The search text of an item contains each of its keywords, case-folded by
the ASCII host. -/
theorem keyword_infix_haystack (item : Item) (kw : String) (hk : kw ∈ item.keywords.getD []) :
    (asciiHost.toLowerCase kw).data <:+: (haystack asciiHost item).data := by
  have h1 := infix_join " " kw _ hk
  have h2 : kw.data <:+: (join " " [item.title, item.summary, item.details,
      join " " (item.keywords.getD [])]).data := by
    refine h1.trans ?_
    simp only [join, String.data_append]
    exact ⟨item.title.data ++ " ".data ++ (item.summary.data ++ " ".data ++
      (item.details.data ++ " ".data)), [], by simp⟩
  exact List.IsInfix.map asciiLowerChar h2

/-- C2. Text filter of `getFilteredItems`, with q' the trimmed, case-folded
query: on a loaded list with q' non-empty the output is a rearrangement of
exactly those items passing the category filter whose case-folded text
`title summary details keywords` contains q' as a substring; with q' empty the
text filter removes nothing; and (ASCII case folding) an item that has the
keyword "Robotics" is returned for the query "robotics" whatever its title and
summary are. -/
theorem getFilteredItems_text (h : Host) (st : ViewState) :
    (st.loaded = true → h.toLowerCase (trim st.query) ≠ "" →
      (getFilteredItems h st).Perm
        ((categoryStep st st.items).filter (fun item =>
          decide ((h.toLowerCase (trim st.query)).data <:+:
            (h.toLowerCase (item.title ++ " " ++ (item.summary ++ " " ++
              (item.details ++ " " ++ join " " (item.keywords.getD []))))).data)))) ∧
    (st.loaded = true → h.toLowerCase (trim st.query) = "" →
      (getFilteredItems h st).Perm (categoryStep st st.items)) ∧
    (∀ item ∈ st.items, "Robotics" ∈ item.keywords.getD [] → st.loaded = true →
      st.filter = "All" → st.query = "robotics" → item ∈ getFilteredItems asciiHost st) := by
  refine ⟨?_, ?_, ?_⟩
  · intro hl hq
    have hp := getFilteredItems_perm h st hl
    have hq1 : truthy (searchQuery h st) = true := (truthy_iff _).2 hq
    unfold textStep at hp
    simp only [hq1, if_true] at hp
    exact hp
  · intro hl hq
    have hp := getFilteredItems_perm h st hl
    have hq0 : truthy (searchQuery h st) = false := by
      unfold searchQuery; rw [hq]; rfl
    unfold textStep at hp
    simpa [hq0] using hp
  · intro item hi hk hl hf hq
    rw [mem_getFilteredItems]
    refine ⟨hl, hi, fun hne => absurd hf hne, fun _ => ?_⟩
    rw [strIncludes_iff]
    have hs : searchQuery asciiHost st = asciiHost.toLowerCase "Robotics" := by
      unfold searchQuery; rw [hq]; decide
    rw [hs]
    exact keyword_infix_haystack item "Robotics" hk

/-- The keyword scenario of C2 evaluated: the query "robotics" finds the item
whose only match is its keyword "Robotics". -/
theorem getFilteredItems_text_witness :
    itemSep2023 ∈ getFilteredItems asciiHost
      { scenarioState with filter := "All", query := "robotics" } :=
  (getFilteredItems_text asciiHost { scenarioState with filter := "All", query := "robotics" }).2.2
    itemSep2023 (by decide) (by decide) rfl rfl rfl

/-! ## Sorting -/

/-- Inserting into a list sorted for `s` keeps it sorted, when on the elements
at hand the test `r` of the insertion agrees with `s`. -/
theorem pairwise_orderedInsert {α : Type} (r s : α → α → Prop) [DecidableRel r]
    (P : α → Prop) (hrs : ∀ a b, P a → P b → r a b → s a b)
    (hnr : ∀ a b, P a → P b → ¬ r a b → s b a)
    (htr : ∀ a b c, P a → P b → P c → s a b → s b c → s a c)
    (a : α) (ha : P a) (l : List α) (hl : ∀ x ∈ l, P x) (hs : l.Pairwise s) :
    (List.orderedInsert r a l).Pairwise s := by
  induction l with
  | nil => simp [List.orderedInsert]
  | cons b l ih =>
    have hb : P b := hl b (List.mem_cons_self _ _)
    have hl' : ∀ x ∈ l, P x := fun x hx => hl x (List.mem_cons_of_mem _ hx)
    rw [List.pairwise_cons] at hs
    unfold List.orderedInsert
    split_ifs with hab
    · refine List.Pairwise.cons ?_ (List.Pairwise.cons hs.1 hs.2)
      intro x hx
      rcases List.mem_cons.1 hx with hx | hx
      · subst hx; exact hrs a x ha hb hab
      · exact htr a b x ha hb (hl' x hx) (hrs a b ha hb hab) (hs.1 x hx)
    · refine List.Pairwise.cons ?_ (ih hl' hs.2)
      intro x hx
      rcases (List.mem_orderedInsert r).1 hx with hx | hx
      · subst hx; exact hnr x b ha hb hab
      · exact hs.1 x hx

/-- Insertion sort returns a list sorted for `s`, when on the elements of the
input the test `r` agrees with the total preorder `s`. -/
theorem pairwise_insertionSort {α : Type} (r s : α → α → Prop) [DecidableRel r]
    (P : α → Prop) (hrs : ∀ a b, P a → P b → r a b → s a b)
    (hnr : ∀ a b, P a → P b → ¬ r a b → s b a)
    (htr : ∀ a b c, P a → P b → P c → s a b → s b c → s a c)
    (l : List α) (hl : ∀ x ∈ l, P x) : (List.insertionSort r l).Pairwise s := by
  induction l with
  | nil => simp [List.insertionSort]
  | cons a l ih =>
    have hl' : ∀ x ∈ l, P x := fun x hx => hl x (List.mem_cons_of_mem _ hx)
    exact pairwise_orderedInsert r s P hrs hnr htr a (hl a (List.mem_cons_self _ _)) _
      (fun x hx => hl' x ((List.mem_insertionSort r).1 hx)) (ih hl')

theorem dateLe_iff (h : Host) (a b : Item) :
    dateLe h a b = true ↔
      ∃ x y, h.dateParse a.date = some x ∧ h.dateParse b.date = some y ∧ x ≤ y := by
  unfold dateLe
  cases h.dateParse a.date <;> cases h.dateParse b.date <;> simp

theorem sortCompare_of_parsed (h : Host) (sort : String) (a b : Item) (x y : Int)
    (hx : h.dateParse a.date = some x) (hy : h.dateParse b.date = some y) :
    sortCompare h sort a b = (if sort = "newest" then -1 else 1) * (x - y) := by
  simp [sortCompare, dateDiff, hx, hy]

theorem sortStep_ascending (h : Host) (st : ViewState) (items : List Item)
    (hs : st.sort ≠ "newest") (hd : ∀ item ∈ items, (h.dateParse item.date).isSome = true) :
    (sortStep h st items).Pairwise (fun a b => dateLe h a b = true) := by
  simp only [dateLe_iff]
  unfold sortStep arraySort
  refine pairwise_insertionSort _ _ (fun item => (h.dateParse item.date).isSome = true)
    ?_ ?_ ?_ items hd
  · intro a b ha hb hr
    obtain ⟨x, hx⟩ := Option.isSome_iff_exists.1 ha
    obtain ⟨y, hy⟩ := Option.isSome_iff_exists.1 hb
    rw [sortCompare_of_parsed h _ a b x y hx hy, if_neg hs] at hr
    exact ⟨x, y, hx, hy, by omega⟩
  · intro a b ha hb hr
    obtain ⟨x, hx⟩ := Option.isSome_iff_exists.1 ha
    obtain ⟨y, hy⟩ := Option.isSome_iff_exists.1 hb
    rw [sortCompare_of_parsed h _ a b x y hx hy, if_neg hs] at hr
    exact ⟨y, x, hy, hx, by omega⟩
  · rintro a b c - - - ⟨x, y, hx, hy, hxy⟩ ⟨y', z, hy', hz, hyz⟩
    rw [hy] at hy'
    cases hy'
    exact ⟨x, z, hx, hz, by omega⟩

theorem sortStep_descending (h : Host) (st : ViewState) (items : List Item)
    (hs : st.sort = "newest") (hd : ∀ item ∈ items, (h.dateParse item.date).isSome = true) :
    (sortStep h st items).Pairwise (fun a b => dateLe h b a = true) := by
  simp only [dateLe_iff]
  unfold sortStep arraySort
  refine pairwise_insertionSort _ _ (fun item => (h.dateParse item.date).isSome = true)
    ?_ ?_ ?_ items hd
  · intro a b ha hb hr
    obtain ⟨x, hx⟩ := Option.isSome_iff_exists.1 ha
    obtain ⟨y, hy⟩ := Option.isSome_iff_exists.1 hb
    rw [sortCompare_of_parsed h _ a b x y hx hy, if_pos hs] at hr
    exact ⟨y, x, hy, hx, by omega⟩
  · intro a b ha hb hr
    obtain ⟨x, hx⟩ := Option.isSome_iff_exists.1 ha
    obtain ⟨y, hy⟩ := Option.isSome_iff_exists.1 hb
    rw [sortCompare_of_parsed h _ a b x y hx hy, if_pos hs] at hr
    exact ⟨x, y, hx, hy, by omega⟩
  · rintro a b c - - - ⟨x, y, hx, hy, hxy⟩ ⟨y', z, hy', hz, hyz⟩
    rw [hz] at hx
    cases hx
    exact ⟨y', y, hy', hy, by omega⟩

theorem textStep_categoryStep (h : Host) (st : ViewState) (items : List Item) :
    textStep h st (categoryStep st items) = items.filter (passesFilters h st) := by
  unfold textStep categoryStep passesFilters
  by_cases hf : st.filter = "All" <;> cases hq : truthy (searchQuery h st) <;>
    simp [hf, hq, List.filter_filter, Bool.and_comm]

/-- C3. Sort of `getFilteredItems`: on a loaded list whose dates all parse, the
output is a permutation of the items that pass the category and text filters,
and it is ordered by parsed date, non-decreasing when sort is "oldest" and
non-increasing when sort is "newest". -/
theorem getFilteredItems_sorted (h : Host) (st : ViewState) (hl : st.loaded = true)
    (hd : ∀ item ∈ st.items, (h.dateParse item.date).isSome = true) :
    (getFilteredItems h st).Perm (st.items.filter (passesFilters h st)) ∧
    (st.sort = "oldest" →
      (getFilteredItems h st).Pairwise (fun a b => dateLe h a b = true)) ∧
    (st.sort = "newest" →
      (getFilteredItems h st).Pairwise (fun a b => dateLe h b a = true)) := by
  have hperm := getFilteredItems_perm h st hl
  rw [textStep_categoryStep] at hperm
  have hd' : ∀ item ∈ st.items.filter (passesFilters h st),
      (h.dateParse item.date).isSome = true :=
    fun item hi => hd item (List.mem_filter.1 hi).1
  have heq : getFilteredItems h st = sortStep h st (st.items.filter (passesFilters h st)) := by
    unfold getFilteredItems
    simp only [hl, Bool.not_true, Bool.false_eq_true, if_false, textStep_categoryStep]
  refine ⟨hperm, ?_, ?_⟩
  · intro hs
    rw [heq]
    exact sortStep_ascending h st _ (by rw [hs]; decide) hd'
  · intro hs
    rw [heq]
    exact sortStep_descending h st _ hs hd'

/-- C3 on the two scenario items: oldest first puts 2022-05-10 before
2023-09-01 and newest first reverses them. -/
theorem getFilteredItems_sorted_witness :
    (getFilteredItems asciiHost { scenarioState with filter := "All" }).Pairwise
        (fun a b => dateLe asciiHost a b = true) ∧
    getFilteredItems asciiHost { scenarioState with filter := "All" }
      = [itemMay2022, itemSep2023] ∧
    getFilteredItems asciiHost { scenarioState with filter := "All", sort := "newest" }
      = [itemSep2023, itemMay2022] :=
  ⟨(getFilteredItems_sorted asciiHost { scenarioState with filter := "All" } rfl
      (by decide)).2.1 rfl, by decide, by decide⟩

/-! ## Merge and tombstones -/

theorem includes_eq_false_iff (xs : List String) (x : String) :
    includes xs x = false ↔ x ∉ xs := by
  rw [← includes_iff, Bool.not_eq_true]

theorem mem_buildVisibleItems (a : App) (item : Item) :
    item ∈ buildVisibleItems a ↔
      (item ∈ a.baseItems ∧ item.id ∉ a.deletedIds) ∨ item ∈ a.customItems := by
  unfold buildVisibleItems
  simp [List.mem_append, List.mem_filter, includes_eq_false_iff]

/-- C4. Merge of `buildVisibleItems`: the result is the base items whose id is
not in `deletedIds`, a sublist of `baseItems` in its original order, followed
by all of `customItems` in their order; so every custom item is visible, and
every visible item is a custom item or a base item that is not deleted. -/
theorem buildVisibleItems_merge (a : App) :
    buildVisibleItems a =
      a.baseItems.filter (fun item => decide (item.id ∉ a.deletedIds)) ++ a.customItems ∧
    (a.baseItems.filter (fun item => decide (item.id ∉ a.deletedIds))).Sublist a.baseItems ∧
    a.customItems.Sublist (buildVisibleItems a) ∧
    (∀ item ∈ a.customItems, item ∈ buildVisibleItems a) ∧
    (∀ item ∈ buildVisibleItems a,
      item ∈ a.customItems ∨ (item ∈ a.baseItems ∧ item.id ∉ a.deletedIds)) := by
  have heq : buildVisibleItems a =
      a.baseItems.filter (fun item => decide (item.id ∉ a.deletedIds)) ++ a.customItems := by
    show a.baseItems.filter (fun item => !includes a.deletedIds item.id) ++ a.customItems = _
    congr 1
    apply List.filter_congr
    intro item _
    cases hi : includes a.deletedIds item.id with
    | true => simp [(includes_iff _ _).1 hi]
    | false => simp [(includes_eq_false_iff _ _).1 hi]
  refine ⟨heq, List.filter_sublist _, ?_, ?_, ?_⟩
  · rw [heq]; exact List.sublist_append_right _ _
  · intro item hi
    exact (mem_buildVisibleItems a item).2 (Or.inr hi)
  · intro item hi
    rcases (mem_buildVisibleItems a item).1 hi with hb | hc
    · exact Or.inr hb
    · exact Or.inl hc

/-- C5 as stated fails: with "evt-1" among `deletedIds` and a custom item that
carries the id "evt-1", the visible set still holds an item with that id. -/
theorem tombstone_counterexample :
    "evt-1" ∈ tombstoneClash.deletedIds ∧
      ∃ item ∈ buildVisibleItems tombstoneClash, item.id = "evt-1" :=
  ⟨by decide, { itemMay2022 with id := "evt-1" }, by decide, rfl⟩

/-- C5, amended. Tombstone law: for an id in `deletedIds`, the visible set
built by `buildVisibleItems` is a base part that holds no item with that id,
followed by `customItems`; so every visible item with that id is one of
`customItems`, and when no custom item carries the id, no item with that id is
in the visible set, nor in the output of `getFilteredItems` computed from it. -/
theorem tombstone_law (h : Host) (a : App) (id : String) (hid : id ∈ a.deletedIds) :
    (∃ kept, buildVisibleItems a = kept ++ a.customItems ∧ kept.Sublist a.baseItems ∧
      ∀ item ∈ kept, item.id ≠ id) ∧
    (∀ item ∈ buildVisibleItems a, item.id = id → item ∈ a.customItems) ∧
    ((∀ item ∈ a.customItems, item.id ≠ id) →
      (∀ item ∈ buildVisibleItems a, item.id ≠ id) ∧
      ∀ st : ViewState, st.items = buildVisibleItems a →
        ∀ item ∈ getFilteredItems h st, item.id ≠ id) := by
  have h0 : ∃ kept, buildVisibleItems a = kept ++ a.customItems ∧ kept.Sublist a.baseItems ∧
      ∀ item ∈ kept, item.id ≠ id := by
    refine ⟨a.baseItems.filter (fun item => !includes a.deletedIds item.id), rfl,
      List.filter_sublist _, ?_⟩
    intro item hi he
    have hinc := (List.mem_filter.1 hi).2
    rw [Bool.not_eq_true', includes_eq_false_iff] at hinc
    exact hinc (he ▸ hid)
  have h1 : ∀ item ∈ buildVisibleItems a, item.id = id → item ∈ a.customItems := by
    intro item hi he
    rcases (mem_buildVisibleItems a item).1 hi with hb | hc
    · exact absurd (he ▸ hid) hb.2
    · exact hc
  refine ⟨h0, h1, fun hc => ?_⟩
  have h2 : ∀ item ∈ buildVisibleItems a, item.id ≠ id :=
    fun item hi he => hc item (h1 item hi he) he
  refine ⟨h2, fun st hst item hi => ?_⟩
  rw [mem_getFilteredItems, hst] at hi
  exact h2 item hi.2.1

/-- The tombstone law at work: "evt-1" is deleted, no custom item has that id,
and neither the visible set nor the filtered output holds an item with it. -/
theorem tombstone_law_witness :
    (∀ item ∈ buildVisibleItems tombstoneApp, item.id ≠ "evt-1") ∧
    buildVisibleItems tombstoneApp = [itemMay2022] :=
  ⟨((tombstone_law asciiHost tombstoneApp "evt-1" (by decide)).2.2 (by decide)).1, by decide⟩

/-! ## Update polling -/

/-- C9. Local-edit priority: at a tick of the update poll, when `customItems`
or `deletedIds` is non-empty the tick changes nothing, whatever the reply of
the server would be and whatever `currentSignature` is: the effect log is as
before, so no request is issued and no reload is scheduled. -/
theorem updatePollTick_local_edits (reply : FetchReply) (a : App)
    (hedits : a.customItems ≠ [] ∨ a.deletedIds ≠ []) :
    updatePollTick reply a = a ∧
    (updatePollTick reply a).effects = a.effects ∧
    (∀ m u, Effect.fetch m u ∈ (updatePollTick reply a).effects → Effect.fetch m u ∈ a.effects) ∧
    (Effect.reloadTimer ∈ (updatePollTick reply a).effects → Effect.reloadTimer ∈ a.effects) := by
  have hlen : a.customItems.length ≠ 0 ∨ a.deletedIds.length ≠ 0 := by
    rcases hedits with hc | hd
    · exact Or.inl (fun h0 => hc (List.length_eq_zero.1 h0))
    · exact Or.inr (fun h0 => hd (List.length_eq_zero.1 h0))
  have heq : updatePollTick reply a = a := by
    unfold updatePollTick
    split_ifs
    · rfl
    · rfl
  rw [heq]
  exact ⟨rfl, rfl, fun _ _ hm => hm, fun hm => hm⟩

/-- C9 on a session with one tombstone and a changed remote dataset: the tick
logs nothing; the same session without the tombstone would fetch, toast and
schedule the reload. -/
theorem updatePollTick_local_edits_witness :
    (updatePollTick remoteChanged pollApp).effects = [] ∧
    (updatePollTick remoteChanged { pollApp with deletedIds := [] }).effects =
      [.fetch "GET" "assets/timeline-data.json",
       .toast "New updates detected. Reloading…" false, .reloadTimer] :=
  ⟨(updatePollTick_local_edits remoteChanged pollApp (Or.inr (by decide))).2.1, by decide⟩

/-! ## Local deletion -/

theorem renderTimeline_frame (h : Host) (immediate : Bool) (a : App) :
    (renderTimeline h immediate a).state = a.state ∧
    (renderTimeline h immediate a).customItems = a.customItems ∧
    (renderTimeline h immediate a).deletedIds = a.deletedIds ∧
    (renderTimeline h immediate a).baseItems = a.baseItems ∧
    ∃ added, (renderTimeline h immediate a).effects = a.effects ++ added ∧
      ∀ e ∈ added, ∀ m u, e ≠ Effect.fetch m u := by
  unfold renderTimeline afterTimelineRender App.log
  simp only []
  split_ifs <;> refine ⟨rfl, rfl, rfl, rfl, ?_⟩
  · exact ⟨[.render], rfl, by simp⟩
  · exact ⟨[.render, .swapTimer (groupByYear (getFilteredItems h a.state))], by simp, by simp⟩
  · exact ⟨[.render, .scrollToYear a.pendingYearScroll], by simp, by simp⟩
  · exact ⟨[.render], rfl, by simp⟩

theorem findIdx?_eq_none_of_forall {α : Type} (p : α → Bool) (l : List α)
    (hp : ∀ x ∈ l, p x = false) : l.findIdx? p = none := by
  rw [List.findIdx?_eq_none_iff]
  exact hp

/-- C10. Local deletion of a base item: in local mode, for an id that no custom
item carries (so the id of a base item), `deleteEventById` leaves the id in
`deletedIds` (appending it when it was not there), leaves `customItems`
unchanged, sets `state.items` to the visible set rebuilt from the new
tombstones, which holds no item with that id, and logs no network request. -/
theorem deleteEventById_base (h : Host) (a : App) (id : String)
    (hlocal : a.serverMode = false) (hcustom : ∀ item ∈ a.customItems, item.id ≠ id) :
    id ∈ (deleteEventById h id a).deletedIds ∧
    (deleteEventById h id a).deletedIds =
      (if id ∈ a.deletedIds then a.deletedIds else a.deletedIds ++ [id]) ∧
    (deleteEventById h id a).customItems = a.customItems ∧
    (deleteEventById h id a).state.items = buildVisibleItems (deleteEventById h id a) ∧
    (∀ item ∈ (deleteEventById h id a).state.items, item.id ≠ id) ∧
    ∃ added, (deleteEventById h id a).effects = a.effects ++ added ∧
      ∀ e ∈ added, ∀ m u, e ≠ Effect.fetch m u := by
  have hfind : a.customItems.findIdx? (fun item => decide (item.id = id)) = none :=
    findIdx?_eq_none_of_forall _ _ (fun item hi => by simpa using hcustom item hi)
  have hreq : ∀ b : App, requestRender h true b = renderTimeline h true b := fun b => by
    simp [requestRender]
  obtain ⟨b, hstep, hbc, hbd, hbb, hbs, hbe⟩ : ∃ b : App,
      deleteEventById h id a = renderTimeline h true b ∧ b.customItems = a.customItems ∧
      b.deletedIds = (if id ∈ a.deletedIds then a.deletedIds else a.deletedIds ++ [id]) ∧
      b.baseItems = a.baseItems ∧ b.state.items = buildVisibleItems b ∧
      b.effects = a.effects := by
    by_cases hin : id ∈ a.deletedIds
    · have hinc : includes a.deletedIds id = true := (includes_iff _ _).2 hin
      refine ⟨{ a with state := { a.state with items := buildVisibleItems a } }, ?_, rfl, ?_,
        rfl, rfl, rfl⟩
      · unfold deleteEventById
        simp [hlocal, hfind, hinc, hreq]
      · simp [hin]
    · have hinc : includes a.deletedIds id = false := (includes_eq_false_iff _ _).2 hin
      refine ⟨{ a with
          deletedIds := a.deletedIds ++ [id]
          storedDeleted := some (a.deletedIds ++ [id])
          state := { a.state with
            items := buildVisibleItems { a with deletedIds := a.deletedIds ++ [id] } } },
        ?_, rfl, ?_, rfl, rfl, rfl⟩
      · unfold deleteEventById
        simp [hlocal, hfind, hinc, hreq, saveDeletedIds, buildVisibleItems]
      · simp [hin]
  obtain ⟨hs, hc, hd, hb, added, hadd, hnofetch⟩ := renderTimeline_frame h true b
  have hmem : id ∈ b.deletedIds := by
    rw [hbd]; split_ifs with hin
    · exact hin
    · simp
  have hvis : buildVisibleItems (renderTimeline h true b) = buildVisibleItems b := by
    unfold buildVisibleItems
    rw [hc, hd, hb]
  rw [hstep, hs, hc, hd, hvis]
  refine ⟨hmem, hbd, hbc, hbs, ?_, added, by rw [hadd, hbe], hnofetch⟩
  intro item hi he
  rw [hbs] at hi
  rcases (mem_buildVisibleItems b item).1 hi with hbase | hcus
  · exact hbase.2 (he ▸ hmem)
  · exact hcustom item (hbc ▸ hcus) he

/-- C10 on the witness id: deleting "evt-1" in local mode, with the two
scenario items as base set and no custom item, records the tombstone, shows
only the other item and logs one render pass and no request. -/
theorem deleteEventById_base_witness :
    "evt-1" ∈ (deleteEventById asciiHost "evt-1" deleteApp).deletedIds ∧
    (deleteEventById asciiHost "evt-1" deleteApp).state.items = [itemMay2022] ∧
    (deleteEventById asciiHost "evt-1" deleteApp).effects = [.render] :=
  ⟨(deleteEventById_base asciiHost deleteApp "evt-1" rfl (by decide)).1, by decide, by decide⟩

/-! ## URL sync -/

theorem dropWhile_eq_self_of_forall {α : Type} (p : α → Bool) (l : List α)
    (hp : ∀ x ∈ l, p x = false) : l.dropWhile p = l := by
  cases l with
  | nil => rfl
  | cons x l => simp [List.dropWhile, hp x (List.mem_cons_self _ _)]

theorem flatMap_eq_self_of_forall {α : Type} (f : α → List α) (l : List α)
    (hf : ∀ x ∈ l, f x = [x]) : l.flatMap f = l := by
  induction l with
  | nil => rfl
  | cons x l ih =>
    rw [List.flatMap_cons, hf x (List.mem_cons_self _ _),
      ih (fun y hy => hf y (List.mem_cons_of_mem _ hy))]
    rfl

/-- The URL parser stores the text written by `toString` unchanged as fragment. -/
theorem urlFragment_paramsToString (ps : List (String × String)) :
    urlFragment (paramsToString ps) = paramsToString ps := by
  have hal := serializePairs_alphabet ps
  have hchar : ∀ c ∈ (paramsToString ps).data,
      isC0OrSpace c = false ∧ isTabOrNewline c = false ∧ inFragmentEncodeSet c = false := by
    intro c hc
    unfold paramsToString isomorphicDecode at hc
    simp only [List.mem_map] at hc
    obtain ⟨b, hb, rfl⟩ := hc
    have hb' := hal b hb
    have hn : (Char.ofNat b).toNat = b := toNat_ofNat_of_lt b (by omega)
    simp only [isC0OrSpace, isTabOrNewline, inFragmentEncodeSet, hn]
    refine ⟨?_, ?_, ?_⟩ <;> simp <;> omega
  unfold urlFragment
  simp only []
  rw [dropWhile_eq_self_of_forall _ _ (fun c hc => (hchar c (List.mem_reverse.1 hc)).1),
    List.reverse_reverse,
    List.filter_eq_self.2 (fun c hc => by simp [(hchar c hc).2.1]),
    flatMap_eq_self_of_forall _ _ (fun c hc => by simp [(hchar c hc).2.2])]

theorem paramsToString_eq_empty (ps : List (String × String)) :
    paramsToString ps = "" ↔ ps = [] := by
  constructor
  · intro he
    cases ps with
    | nil => rfl
    | cons p rest =>
      exfalso
      obtain ⟨k, v⟩ := p
      have hd := congrArg String.data he
      unfold paramsToString isomorphicDecode at hd
      simp only [List.map_eq_nil_iff] at hd
      have hm : 0x3D ∈ serializePairs ((k, v) :: rest) := by
        cases rest <;> simp [serializePairs]
      rw [hd] at hm
      cases hm
  · rintro rfl
    rfl

theorem slice1_hash (s : String) : slice1 ("#" ++ s) = s := by
  simp [slice1]

/-- What `location.hash.slice(1)` reads after `replaceState` wrote the
serialized parameters: the serialized parameters. -/
theorem slice1_hashAfterReplaceState (ps : List (String × String)) :
    slice1 (hashAfterReplaceState (paramsToString ps)) = paramsToString ps := by
  unfold hashAfterReplaceState
  simp only [urlFragment_paramsToString]
  cases ht : truthy (paramsToString ps) with
  | true => simp [slice1_hash]
  | false =>
    have he : paramsToString ps = "" := by
      by_contra hne
      rw [(truthy_iff _).2 hne] at ht
      cases ht
    rw [he]
    rfl

theorem paramsGet_hashParams (st : ViewState) :
    paramsGet (hashParams st) "year"
      = (if truthy st.yearAnchor then some st.yearAnchor else none) ∧
    paramsGet (hashParams st) "filter"
      = (if st.filter ≠ "All" then some st.filter else none) ∧
    paramsGet (hashParams st) "q"
      = (if truthy (trim st.query) then some (trim st.query) else none) ∧
    paramsGet (hashParams st) "sort"
      = (if st.sort ≠ "oldest" then some st.sort else none) := by
  unfold hashParams
  simp only []
  split_ifs <;> simp [paramsSet, paramsGet]

theorem requestRender_state (h : Host) (immediate : Bool) (a : App) :
    (requestRender h immediate a).state = a.state := by
  unfold requestRender
  split_ifs
  · exact (renderTimeline_frame h true a).1
  · rfl
  · rfl

theorem hydrateFromParams_state (ps : List (String × String)) (a : App) :
    (hydrateFromParams ps a).state.filter =
      (match paramsGet ps "filter" with
        | some f => if f ∈ FILTERS then f else a.state.filter
        | none => a.state.filter) ∧
    (hydrateFromParams ps a).state.sort =
      (match paramsGet ps "sort" with
        | some s => if s = "oldest" ∨ s = "newest" then s else a.state.sort
        | none => a.state.sort) ∧
    (hydrateFromParams ps a).state.query = (paramsGet ps "q").getD a.state.query ∧
    (hydrateFromParams ps a).state.yearAnchor =
      (match paramsGet ps "year" with
        | some y => if truthy y then y else a.state.yearAnchor
        | none => a.state.yearAnchor) := by
  unfold hydrateFromParams
  cases paramsGet ps "filter" <;> cases paramsGet ps "sort" <;> cases paramsGet ps "q" <;>
    cases paramsGet ps "year" <;> simp only [] <;>
    (refine ⟨?_, ?_, ?_, ?_⟩ <;> (try simp only [← includes_iff]) <;>
      first | rfl | (split_ifs <;> rfl))

/-- After `applyHashParams` the four navigational fields are the ones the
fragment stands for. -/
theorem applyHashParams_state (h : Host) (fromEvent : Bool) (a : App) :
    (applyHashParams h fromEvent a).state.filter = fragmentFilter a.locationHash ∧
    (applyHashParams h fromEvent a).state.sort = fragmentSort a.locationHash ∧
    (applyHashParams h fromEvent a).state.query = fragmentQuery a.locationHash ∧
    (applyHashParams h fromEvent a).state.yearAnchor = fragmentYear a.locationHash := by
  unfold fragmentFilter fragmentSort fragmentQuery fragmentYear
  cases ht : truthy (slice1 a.locationHash) with
  | false =>
    have he : slice1 a.locationHash = "" := by
      by_contra hne
      rw [(truthy_iff _).2 hne] at ht
      cases ht
    have hps : urlSearchParams (slice1 a.locationHash) = [] := by rw [he]; rfl
    rw [hps]
    unfold applyHashParams
    simp only [ht, Bool.false_eq_true, if_false]
    split_ifs <;> simp only [requestRender_state] <;> exact ⟨rfl, rfl, rfl, rfl⟩
  | true =>
    unfold applyHashParams
    simp only [ht, if_true]
    have hst := hydrateFromParams_state (urlSearchParams (slice1 a.locationHash))
      { a with
        hydratingFromHash := true
        state := { a.state with filter := "All", sort := "oldest", query := "", yearAnchor := "" }
        searchValue := ""
        pendingYearScroll := "" }
    obtain ⟨h1, h2, h3, h4⟩ := hst
    have h4' : (paramsGet (urlSearchParams (slice1 a.locationHash)) "year").getD "" =
        (match paramsGet (urlSearchParams (slice1 a.locationHash)) "year" with
          | some y => if truthy y then y else ""
          | none => "") := by
      cases hy : paramsGet (urlSearchParams (slice1 a.locationHash)) "year" with
      | none => rfl
      | some y =>
        cases hty : truthy y with
        | true => simp [hty]
        | false =>
          have : y = "" := by
            by_contra hne
            rw [(truthy_iff _).2 hne] at hty
            cases hty
          simp [this]
    rw [h4']
    split_ifs <;> simp only [requestRender_state, updateSortToggle, syncFilterButtons] <;>
      exact ⟨h1, h2, h3, h4⟩

theorem fragmentFilter_mem (hash : String) : fragmentFilter hash ∈ FILTERS := by
  unfold fragmentFilter
  split
  · split_ifs with hf
    · exact hf
    · decide
  · decide

theorem fragmentSort_valid (hash : String) :
    fragmentSort hash = "oldest" ∨ fragmentSort hash = "newest" := by
  unfold fragmentSort
  split
  · split_ifs with hs
    · exact hs
    · exact Or.inl rfl
  · exact Or.inl rfl

/-- C7. Hydration resets the view state to the fragment: after
`applyHashParams`, for every fragment, every prior state and either value of
`fromEvent`, the fields filter, sort, query and yearAnchor are the ones the
fragment stands for, so two sessions with the same fragment agree on them; an
absent key, a filter outside `FILTERS` or a sort other than "oldest"/"newest"
leaves the field at its default ("All", "oldest", "", ""), and the resulting
filter and sort are always valid. -/
theorem applyHashParams_fragment_only (h : Host) (fromEvent : Bool) (a : App) :
    ((applyHashParams h fromEvent a).state.filter = fragmentFilter a.locationHash ∧
      (applyHashParams h fromEvent a).state.sort = fragmentSort a.locationHash ∧
      (applyHashParams h fromEvent a).state.query = fragmentQuery a.locationHash ∧
      (applyHashParams h fromEvent a).state.yearAnchor = fragmentYear a.locationHash) ∧
    (∀ (a' : App) (fromEvent' : Bool), a'.locationHash = a.locationHash →
      (applyHashParams h fromEvent' a').state.filter = (applyHashParams h fromEvent a).state.filter ∧
      (applyHashParams h fromEvent' a').state.sort = (applyHashParams h fromEvent a).state.sort ∧
      (applyHashParams h fromEvent' a').state.query = (applyHashParams h fromEvent a).state.query ∧
      (applyHashParams h fromEvent' a').state.yearAnchor
        = (applyHashParams h fromEvent a).state.yearAnchor) ∧
    ((paramsGet (urlSearchParams (slice1 a.locationHash)) "filter" = none →
        (applyHashParams h fromEvent a).state.filter = "All") ∧
      (∀ f, paramsGet (urlSearchParams (slice1 a.locationHash)) "filter" = some f →
        f ∉ FILTERS → (applyHashParams h fromEvent a).state.filter = "All") ∧
      (paramsGet (urlSearchParams (slice1 a.locationHash)) "sort" = none →
        (applyHashParams h fromEvent a).state.sort = "oldest") ∧
      (∀ s, paramsGet (urlSearchParams (slice1 a.locationHash)) "sort" = some s →
        s ≠ "oldest" → s ≠ "newest" → (applyHashParams h fromEvent a).state.sort = "oldest") ∧
      (paramsGet (urlSearchParams (slice1 a.locationHash)) "q" = none →
        (applyHashParams h fromEvent a).state.query = "") ∧
      (paramsGet (urlSearchParams (slice1 a.locationHash)) "year" = none →
        (applyHashParams h fromEvent a).state.yearAnchor = "")) ∧
    (applyHashParams h fromEvent a).state.filter ∈ FILTERS ∧
    ((applyHashParams h fromEvent a).state.sort = "oldest" ∨
      (applyHashParams h fromEvent a).state.sort = "newest") := by
  obtain ⟨h1, h2, h3, h4⟩ := applyHashParams_state h fromEvent a
  refine ⟨⟨h1, h2, h3, h4⟩, ?_, ?_, ?_, ?_⟩
  · intro a' fromEvent' hh
    obtain ⟨g1, g2, g3, g4⟩ := applyHashParams_state h fromEvent' a'
    rw [g1, g2, g3, g4, h1, h2, h3, h4, hh]
    exact ⟨rfl, rfl, rfl, rfl⟩
  · rw [h1, h2, h3, h4]
    unfold fragmentFilter fragmentSort fragmentQuery fragmentYear
    refine ⟨?_, ?_, ?_, ?_, ?_, ?_⟩
    · intro hn; rw [hn]
    · intro f hf hnot; rw [hf]; exact if_neg hnot
    · intro hn; rw [hn]
    · intro s hs h1 h2; rw [hs]; exact if_neg (fun ho => ho.elim h1 h2)
    · intro hn; rw [hn]; rfl
    · intro hn; rw [hn]; rfl
  · rw [h1]; exact fragmentFilter_mem _
  · rw [h2]; exact fragmentSort_valid _

/-- C7 on a stale session: the prior state had filter "Sustainability", sort
"newest" and a query; the fragment names an unknown filter "Sports", an
unknown sort "sideways", no query and the year 2021.  Hydration gives the
defaults for the first three and the year of the fragment. -/
theorem applyHashParams_fragment_only_witness :
    (applyHashParams asciiHost true staleApp).state.filter = "All" ∧
    (applyHashParams asciiHost true staleApp).state.sort = "oldest" ∧
    (applyHashParams asciiHost true staleApp).state.query = "" ∧
    (applyHashParams asciiHost true staleApp).state.yearAnchor = "2021" :=
  ⟨(applyHashParams_fragment_only asciiHost true staleApp).2.2.1.2.1 "Sports"
      (by decide) (by decide),
    (applyHashParams_fragment_only asciiHost true staleApp).2.2.1.2.2.2.1 "sideways"
      (by decide) (by decide) (by decide),
    (applyHashParams_fragment_only asciiHost true staleApp).2.2.1.2.2.2.2.1 (by decide),
    by decide⟩

theorem syncHash_locationHash (a : App) (hh : a.hydratingFromHash = false) :
    (syncHash a).locationHash = hashAfterReplaceState (paramsToString (hashParams a.state)) := by
  unfold syncHash
  simp [hh]

/-- Reading back the fragment that `syncHash` wrote gives the parameters it set. -/
theorem urlSearchParams_syncHash (a : App) (hh : a.hydratingFromHash = false) :
    urlSearchParams (slice1 (syncHash a).locationHash) = hashParams a.state := by
  rw [syncHash_locationHash a hh, slice1_hashAfterReplaceState, urlSearchParams_paramsToString]

theorem not_truthy_iff (s : String) : truthy s = false ↔ s = "" := by
  rw [← Bool.not_eq_true, truthy_iff, not_not]

theorem hashParams_eq_nil (st : ViewState) :
    hashParams st = [] ↔
      st.yearAnchor = "" ∧ st.filter = "All" ∧ trim st.query = "" ∧ st.sort = "oldest" := by
  by_cases c1 : st.yearAnchor = "" <;> by_cases c2 : st.filter = "All" <;>
    by_cases c3 : trim st.query = "" <;> by_cases c4 : st.sort = "oldest" <;>
    simp [hashParams, truthy_iff, c1, c2, c3, c4, paramsSet]

theorem hashParams_keys (st : ViewState) :
    ∀ p ∈ hashParams st, p.1 ∈ ["year", "filter", "q", "sort"] := by
  by_cases c1 : st.yearAnchor = "" <;> by_cases c2 : st.filter = "All" <;>
    by_cases c3 : trim st.query = "" <;> by_cases c4 : st.sort = "oldest" <;>
    simp [hashParams, truthy_iff, c1, c2, c3, c4, paramsSet]

/-- C8. The fragment written by `syncHash`, read as URL parameters, has the
key `filter` (with the filter as value) iff the filter is not "All", the key
`q` (with the trimmed query as value) iff the trimmed query is non-empty, the
key `sort` iff the sort is not "oldest" and the key `year` iff `yearAnchor` is
non-empty, and no other key; the URL is written without a fragment exactly
when all four are at their defaults. -/
theorem syncHash_fragment (a : App) (hh : a.hydratingFromHash = false) :
    paramsGet (urlSearchParams (slice1 (syncHash a).locationHash)) "filter"
      = (if a.state.filter ≠ "All" then some a.state.filter else none) ∧
    paramsGet (urlSearchParams (slice1 (syncHash a).locationHash)) "q"
      = (if trim a.state.query ≠ "" then some (trim a.state.query) else none) ∧
    paramsGet (urlSearchParams (slice1 (syncHash a).locationHash)) "sort"
      = (if a.state.sort ≠ "oldest" then some a.state.sort else none) ∧
    paramsGet (urlSearchParams (slice1 (syncHash a).locationHash)) "year"
      = (if a.state.yearAnchor ≠ "" then some a.state.yearAnchor else none) ∧
    (∀ p ∈ urlSearchParams (slice1 (syncHash a).locationHash),
      p.1 ∈ ["year", "filter", "q", "sort"]) ∧
    ((syncHash a).locationHash = "" ↔
      a.state.filter = "All" ∧ trim a.state.query = "" ∧ a.state.sort = "oldest" ∧
        a.state.yearAnchor = "") := by
  rw [urlSearchParams_syncHash a hh]
  obtain ⟨hy, hf, hq, hs⟩ := paramsGet_hashParams a.state
  refine ⟨hf, ?_, hs, ?_, ?_, ?_⟩
  · rw [hq]
    by_cases he : trim a.state.query = ""
    · rw [he]; rfl
    · rw [if_pos ((truthy_iff _).2 he), if_pos he]
  · rw [hy]
    by_cases he : a.state.yearAnchor = ""
    · rw [he]; rfl
    · rw [if_pos ((truthy_iff _).2 he), if_pos he]
  · exact hashParams_keys a.state
  · rw [syncHash_locationHash a hh]
    constructor
    · intro he
      have hs1 : paramsToString (hashParams a.state) = "" := by
        rw [← slice1_hashAfterReplaceState, he]; rfl
      obtain ⟨h1, h2, h3, h4⟩ := (hashParams_eq_nil _).1 ((paramsToString_eq_empty _).1 hs1)
      exact ⟨h2, h3, h4, h1⟩
    · rintro ⟨h2, h3, h4, h1⟩
      rw [(hashParams_eq_nil _).2 ⟨h1, h2, h3, h4⟩]
      rfl

/-- C8 on a session with all four fields set: the written fragment, and its
absence once the fields are back at their defaults. -/
theorem syncHash_fragment_witness :
    (syncHash linkApp).locationHash
      = "#year=2022&filter=Sustainability&q=Solar+panels+%26+caf%C3%A9&sort=newest" ∧
    paramsGet (urlSearchParams (slice1 (syncHash linkApp).locationHash)) "q"
      = some "Solar panels & café" ∧
    (syncHash deleteApp).locationHash = "" :=
  ⟨by decide,
    (syncHash_fragment linkApp rfl).2.1.trans (by decide),
    (syncHash_fragment deleteApp rfl).2.2.2.2.2.2 (by decide)⟩

/-- C6. URL round trip: for a view state whose filter is in `FILTERS` and whose
sort is "oldest" or "newest", with any query and any year anchor, hydrating
with `applyHashParams` (in any session, for either value of `fromEvent`) from
the fragment that `syncHash` wrote for that state gives back the same filter,
sort and year anchor, and the trimmed query. -/
theorem url_round_trip (h : Host) (a : App) (hh : a.hydratingFromHash = false)
    (hf : a.state.filter ∈ FILTERS)
    (hs : a.state.sort = "oldest" ∨ a.state.sort = "newest")
    (b : App) (fromEvent : Bool) (hb : b.locationHash = (syncHash a).locationHash) :
    (applyHashParams h fromEvent b).state.filter = a.state.filter ∧
    (applyHashParams h fromEvent b).state.sort = a.state.sort ∧
    (applyHashParams h fromEvent b).state.yearAnchor = a.state.yearAnchor ∧
    (applyHashParams h fromEvent b).state.query = trim a.state.query := by
  obtain ⟨h1, h2, h3, h4⟩ := applyHashParams_state h fromEvent b
  obtain ⟨gy, gf, gq, gs⟩ := paramsGet_hashParams a.state
  rw [h1, h2, h3, h4, hb]
  unfold fragmentFilter fragmentSort fragmentQuery fragmentYear
  rw [urlSearchParams_syncHash a hh, gy, gf, gq, gs]
  refine ⟨?_, ?_, ?_, ?_⟩
  · by_cases he : a.state.filter = "All"
    · simp [he]
    · simp [he, hf]
  · by_cases he : a.state.sort = "oldest"
    · simp [he]
    · have hn : a.state.sort = "newest" := hs.resolve_left he
      simp [hn]
  · cases ht : truthy a.state.yearAnchor with
    | true => simp
    | false => simp [(not_truthy_iff _).1 ht]
  · cases ht : truthy (trim a.state.query) with
    | true => simp
    | false => simp [(not_truthy_iff _).1 ht]

/-- C6 on a session with filter "Sustainability", sort "newest", year 2022 and
the query "  Solar panels & café ": a session with a stale state that opens
the written link ends with the same filter, sort and year and the trimmed query. -/
theorem url_round_trip_witness :
    (applyHashParams asciiHost true { staleApp with locationHash := (syncHash linkApp).locationHash }).state.filter
      = "Sustainability" ∧
    (applyHashParams asciiHost true { staleApp with locationHash := (syncHash linkApp).locationHash }).state.sort
      = "newest" ∧
    (applyHashParams asciiHost true { staleApp with locationHash := (syncHash linkApp).locationHash }).state.yearAnchor
      = "2022" ∧
    (applyHashParams asciiHost true { staleApp with locationHash := (syncHash linkApp).locationHash }).state.query
      = "Solar panels & café" :=
  url_round_trip asciiHost linkApp rfl (by decide) (Or.inr rfl)
    { staleApp with locationHash := (syncHash linkApp).locationHash } true rfl

/-! ## Publishing -/

/-- Fields that a render request leaves alone. -/
theorem requestRender_keeps (h : Host) (immediate : Bool) (a : App) :
    (requestRender h immediate a).state = a.state ∧
    (requestRender h immediate a).customItems = a.customItems ∧
    (requestRender h immediate a).deletedIds = a.deletedIds ∧
    (requestRender h immediate a).storedCustom = a.storedCustom ∧
    (requestRender h immediate a).storedDeleted = a.storedDeleted ∧
    (requestRender h immediate a).locationHash = a.locationHash ∧
    (requestRender h immediate a).baseItems = a.baseItems ∧
    (requestRender h immediate a).lastUpdated = a.lastUpdated ∧
    (requestRender h immediate a).hydratingFromHash = a.hydratingFromHash := by
  unfold requestRender renderTimeline afterTimelineRender App.log
  simp only []
  split_ifs <;> exact ⟨rfl, rfl, rfl, rfl, rfl, rfl, rfl, rfl, rfl⟩

/-- C11. A confirmed publish clears the local edits and keeps the navigation:
after `showPublishSuccess`, which calls `clearLocalEdits`, `customItems` and
`deletedIds` are empty in memory and in their stored copies, and the filter,
query, sort and year anchor of the view state and the fragment of the URL are
what they were. -/
theorem showPublishSuccess_clears (h : Host) (payload : Payload) (a : App) :
    (showPublishSuccess h payload a).customItems = [] ∧
    (showPublishSuccess h payload a).deletedIds = [] ∧
    (showPublishSuccess h payload a).storedCustom = some [] ∧
    (showPublishSuccess h payload a).storedDeleted = some [] ∧
    (showPublishSuccess h payload a).state.filter = a.state.filter ∧
    (showPublishSuccess h payload a).state.query = a.state.query ∧
    (showPublishSuccess h payload a).state.sort = a.state.sort ∧
    (showPublishSuccess h payload a).state.yearAnchor = a.state.yearAnchor ∧
    (showPublishSuccess h payload a).locationHash = a.locationHash := by
  have hk := fun b : App => requestRender_keeps h true b
  unfold showPublishSuccess pollForPublishUpdate clearLocalEdits saveCustomItems saveDeletedIds
    showToast App.log
  simp only []
  split_ifs <;>
    simp [(hk _).1, (hk _).2.1, (hk _).2.2.1, (hk _).2.2.2.1, (hk _).2.2.2.2.1,
      (hk _).2.2.2.2.2.1]

/-- C12. A failed publish keeps the local edits: when the publish endpoint
answers with a response that is not ok, or the request cannot be completed,
`publishTimeline` leaves `customItems`, `deletedIds` and their stored copies as
they were; it issues the one publish request and only reports the failure. -/
theorem publishTimeline_failure (h : Host) (payload : Payload) (password : String)
    (reply : PublishReply) (a : App)
    (hfail : reply = .failed ∨ ∃ error, reply = .answered false error) :
    (publishTimeline h payload password reply a).customItems = a.customItems ∧
    (publishTimeline h payload password reply a).deletedIds = a.deletedIds ∧
    (publishTimeline h payload password reply a).storedCustom = a.storedCustom ∧
    (publishTimeline h payload password reply a).storedDeleted = a.storedDeleted ∧
    (publishTimeline h payload password reply a).state = a.state := by
  rcases hfail with hf | ⟨error, hf⟩ <;> subst hf <;>
    simp [publishTimeline, showToast, App.log]

/-- C12 on a session with one custom item and one tombstone: the endpoint
answers 401 and both collections are as before; a confirmed publish of the
same session would have emptied them. -/
theorem publishTimeline_failure_witness :
    (publishTimeline asciiHost publishPayload "wrong" (.answered false (some "Unauthorized."))
        tombstoneClash).customItems = tombstoneClash.customItems ∧
    (publishTimeline asciiHost publishPayload "wrong" (.answered false (some "Unauthorized."))
        tombstoneClash).deletedIds = ["evt-1"] ∧
    (publishTimeline asciiHost publishPayload "secret" (.answered true none)
        tombstoneClash).deletedIds = [] :=
  ⟨(publishTimeline_failure asciiHost publishPayload "wrong"
      (.answered false (some "Unauthorized.")) tombstoneClash (Or.inr ⟨_, rfl⟩)).1,
    (publishTimeline_failure asciiHost publishPayload "wrong"
      (.answered false (some "Unauthorized.")) tombstoneClash (Or.inr ⟨_, rfl⟩)).2.1,
    by decide⟩

/-! ## The view-state invariant -/

theorem syncHash_state (a : App) : (syncHash a).state = a.state := by
  unfold syncHash
  split_ifs <;> rfl

theorem updateState_state (h : Host) (p : Partial) (a : App) :
    (updateState h p a).state = if a.hydratingFromHash then a.state else assignState a.state p := by
  unfold updateState
  split_ifs
  · rfl
  · rw [(requestRender_keeps h false _).1, syncHash_state]

theorem validView_assign_filter (st : ViewState) (v : String) (hv : v ∈ FILTERS)
    (hst : validView st) :
    validView (assignState st { filter := some v, query := none, sort := none }) :=
  ⟨hv, hst.2⟩

theorem validView_assign_sort (st : ViewState) (v : String)
    (hv : v = "oldest" ∨ v = "newest") (hst : validView st) :
    validView (assignState st { filter := none, query := none, sort := some v }) :=
  ⟨hst.1, hv⟩

/-- C16. The invariant "the filter is one of `FILTERS` and the sort is "oldest"
or "newest"" holds for the initial view state and is preserved by the filter
chip click handler (any chip value), the sort toggle, `resetState`,
`applyHashParams` (any fragment, either value of `fromEvent`), `setFilter` and
`setSort` (any argument); `resetState` and `applyHashParams` establish it from
any state. -/
theorem validView_invariant (h : Host) (a : App) :
    validView App.initial.state ∧
    (validView a.state → ∀ chip, validView (chipClick h chip a).state) ∧
    (validView a.state → validView (sortClick h a).state) ∧
    validView (resetState h a).state ∧
    (∀ fromEvent, validView (applyHashParams h fromEvent a).state) ∧
    (validView a.state → ∀ value, validView (setFilter h value a).state) ∧
    (validView a.state → ∀ value, validView (setSort h value a).state) := by
  refine ⟨by decide, ?_, ?_, ?_, ?_, ?_, ?_⟩
  · intro hst chip
    unfold chipClick
    cases chip with
    | none => exact hst
    | some value =>
      simp only []
      split_ifs with hc
      · exact hst
      · have hin : includes FILTERS value = true := by
          by_contra hne
          exact hc (by simp [hne])
        show validView (updateState h _ a).state
        rw [updateState_state]
        split_ifs
        · exact hst
        · exact validView_assign_filter _ _ ((includes_iff _ _).1 hin) hst
  · intro hst
    show validView (updateState h _ a).state
    rw [updateState_state]
    by_cases hh : a.hydratingFromHash = true
    · rw [if_pos hh]; exact hst
    · rw [if_neg hh]
      refine validView_assign_sort _ _ ?_ hst
      by_cases hs : a.state.sort = "newest" <;> simp [hs]
  · unfold resetState
    simp only [(requestRender_keeps h true _).1, syncHash_state]
    refine ⟨?_, Or.inl rfl⟩
    show "All" ∈ FILTERS
    decide
  · intro fromEvent
    obtain ⟨h1, h2, -, -⟩ := applyHashParams_state h fromEvent a
    exact ⟨h1 ▸ fragmentFilter_mem _, h2 ▸ fragmentSort_valid _⟩
  · intro hst value
    unfold setFilter
    cases value with
    | none => exact hst
    | some v =>
      simp only []
      split_ifs with hc
      · show validView (updateState h _ a).state
        rw [updateState_state]
        split_ifs
        · exact hst
        · exact validView_assign_filter _ _ ((includes_iff _ _).1 hc) hst
      · exact hst
  · intro hst value
    unfold setSort
    cases value with
    | none => exact hst
    | some v =>
      simp only []
      split_ifs with hc
      · show validView (updateState h _ a).state
        rw [updateState_state]
        split_ifs
        · exact hst
        · exact validView_assign_sort _ _ hc.symm hst
      · exact hst

/-- C16 on a loaded session: a click on the chip "Community" and a call
`setSort("sideways")` both end in a valid view state, the first with the new
filter and the second with the sort unchanged. -/
theorem validView_invariant_witness :
    validView (chipClick asciiHost (some "Community") deleteApp).state ∧
    (chipClick asciiHost (some "Community") deleteApp).state.filter = "Community" ∧
    validView (setSort asciiHost (some "sideways") deleteApp).state ∧
    (setSort asciiHost (some "sideways") deleteApp).state.sort = "oldest" :=
  ⟨(validView_invariant asciiHost deleteApp).2.1 (by decide) (some "Community"), by decide,
    (validView_invariant asciiHost deleteApp).2.2.2.2.2.2 (by decide) (some "sideways"),
    by decide⟩

/-! ## Sort idempotence, ties and unparsable dates -/

theorem consistentOn_sortCompare (h : Host) (sort : String) (l : List Item)
    (hd : ∀ item ∈ l, (h.dateParse item.date).isSome = true) :
    consistentOn (sortCompare h sort) l := by
  intro a ha b hb c hc
  obtain ⟨x, hx⟩ := Option.isSome_iff_exists.1 (hd a ha)
  obtain ⟨y, hy⟩ := Option.isSome_iff_exists.1 (hd b hb)
  obtain ⟨z, hz⟩ := Option.isSome_iff_exists.1 (hd c hc)
  rw [sortCompare_of_parsed h sort a a x x hx hx, sortCompare_of_parsed h sort a b x y hx hy,
    sortCompare_of_parsed h sort b a y x hy hx, sortCompare_of_parsed h sort b c y z hy hz,
    sortCompare_of_parsed h sort a c x z hx hz]
  by_cases hs : sort = "newest"
  · simp only [hs, if_true]
    omega
  · simp only [hs, if_false]
    omega

/-- On a list where the comparator is consistent, a pair that compares below
compares above when it is swapped, and the other way round. -/
theorem consistentOn_swap (cmp : Item → Item → Int) (l : List Item)
    (hc : consistentOn cmp l) (a b : Item) (ha : a ∈ l) (hb : b ∈ l) :
    (cmp a b < 0 → cmp b a > 0) ∧ (cmp a b > 0 → cmp b a < 0) := by
  obtain ⟨hrefl, -, -, hlt, hgt⟩ := hc a ha b hb a ha
  obtain ⟨-, hsymm, -, -, -⟩ := hc b hb a ha a ha
  constructor
  · intro hab
    rcases lt_trichotomy (cmp b a) 0 with hba | hba | hba
    · have := hlt hab hba
      omega
    · have := hsymm hba
      omega
    · exact hba
  · intro hab
    rcases lt_trichotomy (cmp b a) 0 with hba | hba | hba
    · exact hba
    · have := hsymm hba
      omega
    · have := hgt hab hba
      omega

/-- On a list where the comparator is consistent, "not above" is total and
transitive. -/
theorem consistentOn_preorder (cmp : Item → Item → Int) (l : List Item)
    (hc : consistentOn cmp l) (a b c : Item) (ha : a ∈ l) (hb : b ∈ l) (hcm : c ∈ l) :
    (¬ cmp a b ≤ 0 → cmp b a ≤ 0) ∧ (cmp a b ≤ 0 → cmp b c ≤ 0 → cmp a c ≤ 0) := by
  constructor
  · intro hab
    have := (consistentOn_swap cmp l hc a b ha hb).2 (by omega)
    omega
  · intro hab hbc
    by_contra hac
    have hca : cmp c a < 0 := (consistentOn_swap cmp l hc a c ha hcm).2 (by omega)
    obtain ⟨-, -, heq, hlt, -⟩ := hc a ha b hb c hcm
    rcases lt_or_eq_of_le hab with hab | hab <;> rcases lt_or_eq_of_le hbc with hbc | hbc
    · have := hlt hab hbc
      omega
    · have h1 := (hc c hcm a ha b hb).2.2.2.1 hca hab
      have h2 := (hc b hb c hcm c hcm).2.1 hbc
      omega
    · have h1 := (hc b hb c hcm a ha).2.2.2.1 hbc hca
      have h2 := (hc a ha b hb b hb).2.1 hab
      omega
    · have := heq hab hbc
      omega

/-- The insertion sort meets what the language standard asks of
`Array.prototype.sort`. -/
theorem conformingSort_arraySort : conformingSort arraySort := by
  intro cmp l
  refine ⟨List.perm_insertionSort _ l, fun hc => ⟨?_, ?_⟩⟩
  · unfold arraySort
    exact pairwise_insertionSort _ _ (fun item => item ∈ l) (fun _ _ _ _ hr => hr)
      (fun a b ha hb hr => (consistentOn_preorder cmp l hc a b a ha hb ha).1 hr)
      (fun a b c ha hb hcm hab hbc => (consistentOn_preorder cmp l hc a b c ha hb hcm).2 hab hbc)
      l (fun _ hx => hx)
  · intro c hsub hpair
    unfold arraySort
    exact List.sublist_insertionSort hpair hsub

theorem getFilteredItemsOn_arraySort (h : Host) (st : ViewState) :
    getFilteredItemsOn arraySort h st = getFilteredItems h st := rfl

/-! ## The merge sort meets the standard -/

theorem mergeHalves_perm (cmp : Item → Item → Int) (fuel : Nat) (l r : List Item) :
    (mergeHalves cmp fuel l r).Perm (l ++ r) := by
  induction fuel generalizing l r with
  | zero => simp [mergeHalves]
  | succ fuel ih =>
    cases l with
    | nil => simp [mergeHalves]
    | cons a l =>
      cases r with
      | nil => simp [mergeHalves]
      | cons b r =>
        unfold mergeHalves
        split_ifs
        · exact ((ih (a :: l) r).cons b).trans List.perm_middle.symm
        · exact (ih l (b :: r)).cons a

theorem mergeSortLevels_perm (cmp : Item → Item → Int) (fuel : Nat) (xs : List Item) :
    (mergeSortLevels cmp fuel xs).Perm xs := by
  induction fuel generalizing xs with
  | zero => simp [mergeSortLevels]
  | succ fuel ih =>
    unfold mergeSortLevels
    split_ifs
    · exact List.Perm.refl _
    · simp only []
      refine (mergeHalves_perm cmp _ _ _).trans ?_
      refine ((ih _).append (ih _)).trans ?_
      rw [List.take_append_drop]

theorem consistentOn_le_of_not_lt (cmp : Item → Item → Int) (L : List Item)
    (hc : consistentOn cmp L) (a b : Item) (ha : a ∈ L) (hb : b ∈ L)
    (hba : ¬ cmp b a < 0) : cmp a b ≤ 0 := by
  by_contra hab
  exact hba ((consistentOn_swap cmp L hc a b ha hb).2 (by omega))

theorem mergeHalves_sorted (cmp : Item → Item → Int) (L : List Item)
    (hc : consistentOn cmp L) (fuel : Nat) (l r : List Item)
    (hl : ∀ x ∈ l, x ∈ L) (hr : ∀ x ∈ r, x ∈ L)
    (hls : l.Pairwise (fun a b => cmp a b ≤ 0)) (hrs : r.Pairwise (fun a b => cmp a b ≤ 0))
    (hfuel : l.length + r.length ≤ fuel) :
    (mergeHalves cmp fuel l r).Pairwise (fun a b => cmp a b ≤ 0) := by
  induction fuel generalizing l r with
  | zero =>
    have h1 : l = [] := List.length_eq_zero.1 (by omega)
    have h2 : r = [] := List.length_eq_zero.1 (by omega)
    simp [mergeHalves, h1, h2]
  | succ fuel ih =>
    cases l with
    | nil => simpa [mergeHalves] using hrs
    | cons a l =>
      cases r with
      | nil => simpa [mergeHalves] using hls
      | cons b r =>
        have ha : a ∈ L := hl a (List.mem_cons_self _ _)
        have hb : b ∈ L := hr b (List.mem_cons_self _ _)
        have hl' : ∀ x ∈ l, x ∈ L := fun x hx => hl x (List.mem_cons_of_mem _ hx)
        have hr' : ∀ x ∈ r, x ∈ L := fun x hx => hr x (List.mem_cons_of_mem _ hx)
        rw [List.pairwise_cons] at hls hrs
        simp only [List.length_cons] at hfuel
        unfold mergeHalves
        split_ifs with hba
        · refine List.Pairwise.cons ?_
            (ih (a :: l) r hl hr' (List.Pairwise.cons hls.1 hls.2) hrs.2
              (by simp only [List.length_cons]; omega))
          intro x hx
          rcases List.mem_append.1 ((mergeHalves_perm cmp fuel (a :: l) r).mem_iff.1 hx)
            with hx | hx
          · rcases List.mem_cons.1 hx with rfl | hx
            · omega
            · exact (consistentOn_preorder cmp L hc b a x hb ha (hl' x hx)).2 (by omega)
                (hls.1 x hx)
          · exact hrs.1 x hx
        · have hab : cmp a b ≤ 0 := consistentOn_le_of_not_lt cmp L hc a b ha hb hba
          refine List.Pairwise.cons ?_
            (ih l (b :: r) hl' hr hls.2 (List.Pairwise.cons hrs.1 hrs.2)
              (by simp only [List.length_cons]; omega))
          intro x hx
          rcases List.mem_append.1 ((mergeHalves_perm cmp fuel l (b :: r)).mem_iff.1 hx)
            with hx | hx
          · exact hls.1 x hx
          · rcases List.mem_cons.1 hx with rfl | hx
            · exact hab
            · exact (consistentOn_preorder cmp L hc a b x ha hb (hr' x hx)).2 hab
                (hrs.1 x hx)

theorem mergeSortLevels_sorted (cmp : Item → Item → Int) (L : List Item)
    (hc : consistentOn cmp L) (fuel : Nat) (xs : List Item)
    (hxs : ∀ x ∈ xs, x ∈ L) (hfuel : xs.length ≤ fuel + 1) :
    (mergeSortLevels cmp fuel xs).Pairwise (fun a b => cmp a b ≤ 0) := by
  induction fuel generalizing xs with
  | zero =>
    unfold mergeSortLevels
    cases xs with
    | nil => exact List.Pairwise.nil
    | cons a xs =>
      have : xs = [] := List.length_eq_zero.1 (by simp only [List.length_cons] at hfuel; omega)
      rw [this]
      exact List.pairwise_singleton _ _
  | succ fuel ih =>
    unfold mergeSortLevels
    split_ifs with hshort
    · cases xs with
      | nil => exact List.Pairwise.nil
      | cons a xs =>
        have : xs = [] :=
          List.length_eq_zero.1 (by simp only [List.length_cons] at hshort; omega)
        rw [this]
        exact List.pairwise_singleton _ _
    · simp only []
      have htake : ∀ x ∈ xs.take (xs.length / 2), x ∈ L :=
        fun x hx => hxs x (List.mem_of_mem_take hx)
      have hdrop : ∀ x ∈ xs.drop (xs.length / 2), x ∈ L :=
        fun x hx => hxs x (List.mem_of_mem_drop hx)
      have hp1 := mergeSortLevels_perm cmp fuel (xs.take (xs.length / 2))
      have hp2 := mergeSortLevels_perm cmp fuel (xs.drop (xs.length / 2))
      refine mergeHalves_sorted cmp L hc _ _ _
        (fun x hx => htake x (hp1.mem_iff.1 hx)) (fun x hx => hdrop x (hp2.mem_iff.1 hx))
        (ih _ htake (by rw [List.length_take]; omega))
        (ih _ hdrop (by rw [List.length_drop]; omega)) ?_
      rw [hp1.length_eq, hp2.length_eq, List.length_take, List.length_drop]
      omega

theorem mergeHalves_stable (cmp : Item → Item → Int) (L : List Item)
    (hc : consistentOn cmp L) (fuel : Nat) (l r : List Item)
    (hl : ∀ x ∈ l, x ∈ L) (hr : ∀ x ∈ r, x ∈ L)
    (hls : l.Pairwise (fun a b => cmp a b ≤ 0)) (c1 c2 : List Item)
    (h1 : c1.Sublist l) (h2 : c2.Sublist r)
    (hp : (c1 ++ c2).Pairwise (fun a b => cmp a b ≤ 0)) :
    (c1 ++ c2).Sublist (mergeHalves cmp fuel l r) := by
  induction fuel generalizing l r c1 c2 with
  | zero =>
    unfold mergeHalves
    exact h1.append h2
  | succ fuel ih =>
    cases l with
    | nil =>
      rw [List.sublist_nil.1 h1]
      simpa [mergeHalves] using h2
    | cons a l =>
      cases r with
      | nil =>
        rw [List.sublist_nil.1 h2]
        simpa [mergeHalves] using h1
      | cons b r =>
        have ha : a ∈ L := hl a (List.mem_cons_self _ _)
        have hb : b ∈ L := hr b (List.mem_cons_self _ _)
        have hl' : ∀ x ∈ l, x ∈ L := fun x hx => hl x (List.mem_cons_of_mem _ hx)
        have hr' : ∀ x ∈ r, x ∈ L := fun x hx => hr x (List.mem_cons_of_mem _ hx)
        unfold mergeHalves
        split_ifs with hba
        · cases h2 with
          | cons _ h2' => exact (ih (a :: l) r hl hr' hls c1 c2 h1 h2' hp).cons b
          | @cons₂ c2' _ _ h2' =>
            have hnil : c1 = [] := by
              cases c1 with
              | nil => rfl
              | cons x c1' =>
                exfalso
                have hxb : cmp x b ≤ 0 := by
                  rw [List.cons_append, List.pairwise_cons] at hp
                  exact hp.1 b (by simp)
                have hx : x ∈ a :: l := h1.subset (List.mem_cons_self _ _)
                have hab : cmp a b > 0 := (consistentOn_swap cmp L hc b a hb ha).1 hba
                rcases List.mem_cons.1 hx with rfl | hx
                · omega
                · have := (consistentOn_preorder cmp L hc a x b ha (hl' x hx) hb).2
                    ((List.pairwise_cons.1 hls).1 x hx) hxb
                  omega
            subst hnil
            have hp' : ([] ++ c2').Pairwise (fun a b => cmp a b ≤ 0) := by
              simpa using (List.pairwise_cons.1 (by simpa using hp)).2
            simpa using (ih (a :: l) r hl hr' hls [] c2' (List.nil_sublist _) h2' hp').cons₂ b
        · cases h1 with
          | cons _ h1' =>
            exact (ih l (b :: r) hl' hr (List.pairwise_cons.1 hls).2 c1 c2 h1' h2 hp).cons a
          | @cons₂ c1' _ _ h1' =>
            have hp' : (c1' ++ c2).Pairwise (fun a b => cmp a b ≤ 0) :=
              (List.pairwise_cons.1 (by simpa using hp)).2
            simpa using
              (ih l (b :: r) hl' hr (List.pairwise_cons.1 hls).2 c1' c2 h1' h2 hp').cons₂ a

theorem mergeSortLevels_stable (cmp : Item → Item → Int) (L : List Item)
    (hc : consistentOn cmp L) (fuel : Nat) (xs : List Item)
    (hxs : ∀ x ∈ xs, x ∈ L) (hfuel : xs.length ≤ fuel + 1) (c : List Item)
    (hsub : c.Sublist xs) (hp : c.Pairwise (fun a b => cmp a b ≤ 0)) :
    c.Sublist (mergeSortLevels cmp fuel xs) := by
  induction fuel generalizing xs c with
  | zero => simpa [mergeSortLevels] using hsub
  | succ fuel ih =>
    unfold mergeSortLevels
    split_ifs with hshort
    · exact hsub
    · simp only []
      have htake : ∀ x ∈ xs.take (xs.length / 2), x ∈ L :=
        fun x hx => hxs x (List.mem_of_mem_take hx)
      have hdrop : ∀ x ∈ xs.drop (xs.length / 2), x ∈ L :=
        fun x hx => hxs x (List.mem_of_mem_drop hx)
      have hlen1 : (xs.take (xs.length / 2)).length ≤ fuel + 1 := by
        rw [List.length_take]; omega
      have hlen2 : (xs.drop (xs.length / 2)).length ≤ fuel + 1 := by
        rw [List.length_drop]; omega
      rw [← List.take_append_drop (xs.length / 2) xs] at hsub
      obtain ⟨c1, c2, rfl, hc1, hc2⟩ := List.sublist_append_iff.1 hsub
      have hp1 := mergeSortLevels_perm cmp fuel (xs.take (xs.length / 2))
      have hp2 := mergeSortLevels_perm cmp fuel (xs.drop (xs.length / 2))
      exact mergeHalves_stable cmp L hc _ _ _
        (fun x hx => htake x (hp1.mem_iff.1 hx)) (fun x hx => hdrop x (hp2.mem_iff.1 hx))
        (mergeSortLevels_sorted cmp L hc fuel _ htake hlen1) c1 c2
        (ih _ htake hlen1 c1 hc1 (hp.sublist (List.sublist_append_left c1 c2)))
        (ih _ hdrop hlen2 c2 hc2 (hp.sublist (List.sublist_append_right c1 c2))) hp

/-- The top-down merge sort meets what the language standard asks of
`Array.prototype.sort`. -/
theorem conformingSort_topDownMergeSort : conformingSort topDownMergeSort := by
  intro cmp l
  refine ⟨mergeSortLevels_perm cmp _ l, fun hc => ⟨?_, ?_⟩⟩
  · exact mergeSortLevels_sorted cmp l hc _ l (fun _ hx => hx) (Nat.le_succ _)
  · intro c hsub hp
    exact mergeSortLevels_stable cmp l hc _ l (fun _ hx => hx) (Nat.le_succ _) c hsub hp

/-! ## The sort of V8 meets the standard -/

/-- The test that keeps an element in the run of `CountAndMakeRun`. -/
theorem runTail_chain (cmp : Item → Item → Int) (descending : Bool) (previous : Item)
    (rest : List Item) :
    List.Chain (fun p c => if descending = true then cmp c p < 0 else ¬ cmp c p < 0)
      previous (rest.take (runTail cmp descending previous rest)) := by
  induction rest generalizing previous with
  | nil => simp [runTail]
  | cons current rest ih =>
    unfold runTail
    cases descending with
    | true =>
      simp only [if_true]
      split_ifs with hge
      · simp
      · rw [List.take_succ_cons]
        exact List.Chain.cons (by omega) (ih current)
    | false =>
      simp only [Bool.false_eq_true, if_false]
      split_ifs with hlt
      · simp
      · rw [List.take_succ_cons]
        exact List.Chain.cons hlt (ih current)

theorem pairwise_of_ascending_chain (cmp : Item → Item → Int) (L : List Item)
    (hc : consistentOn cmp L) (previous : Item) (rest : List Item)
    (hmem : ∀ x ∈ previous :: rest, x ∈ L)
    (hchain : List.Chain (fun p c => ¬ cmp c p < 0) previous rest) :
    (previous :: rest).Pairwise (fun a b => cmp a b ≤ 0) := by
  induction rest generalizing previous with
  | nil => exact List.pairwise_singleton _ _
  | cons current rest ih =>
    obtain ⟨hstep, htail⟩ := List.chain_cons.1 hchain
    have hp : previous ∈ L := hmem _ (List.mem_cons_self _ _)
    have hcur : current ∈ L := hmem _ (List.mem_cons_of_mem _ (List.mem_cons_self _ _))
    have hrest := ih current (fun x hx => hmem x (List.mem_cons_of_mem _ hx)) htail
    have hle : cmp previous current ≤ 0 :=
      consistentOn_le_of_not_lt cmp L hc previous current hp hcur hstep
    refine List.Pairwise.cons ?_ hrest
    intro x hx
    rcases List.mem_cons.1 hx with rfl | hx'
    · exact hle
    · exact (consistentOn_preorder cmp L hc previous current x hp hcur
        (hmem x (List.mem_cons_of_mem _ hx))).2 hle ((List.pairwise_cons.1 hrest).1 x hx')

theorem pairwise_of_descending_chain (cmp : Item → Item → Int) (L : List Item)
    (hc : consistentOn cmp L) (previous : Item) (rest : List Item)
    (hmem : ∀ x ∈ previous :: rest, x ∈ L)
    (hchain : List.Chain (fun p c => cmp c p < 0) previous rest) :
    (previous :: rest).Pairwise (fun a b => cmp b a < 0) := by
  induction rest generalizing previous with
  | nil => exact List.pairwise_singleton _ _
  | cons current rest ih =>
    obtain ⟨hstep, htail⟩ := List.chain_cons.1 hchain
    have hp : previous ∈ L := hmem _ (List.mem_cons_self _ _)
    have hcur : current ∈ L := hmem _ (List.mem_cons_of_mem _ (List.mem_cons_self _ _))
    have hrest := ih current (fun x hx => hmem x (List.mem_cons_of_mem _ hx)) htail
    refine List.Pairwise.cons ?_ hrest
    intro x hx
    rcases List.mem_cons.1 hx with rfl | hx'
    · exact hstep
    · exact (hc x (hmem x (List.mem_cons_of_mem _ hx)) current hcur previous hp).2.2.2.1
        ((List.pairwise_cons.1 hrest).1 x hx') hstep

theorem countAndMakeRun_descending (cmp : Item → Item → Int) (low next : Item)
    (rest : List Item) (hd : cmp next low < 0) :
    countAndMakeRun cmp (low :: next :: rest) =
      ((low :: next :: rest.take (runTail cmp true next rest)).reverse,
        rest.drop (runTail cmp true next rest)) := by
  unfold countAndMakeRun
  simp only [hd, decide_True, if_true, Nat.add_comm 2]
  rfl

theorem countAndMakeRun_ascending (cmp : Item → Item → Int) (low next : Item)
    (rest : List Item) (hd : ¬ cmp next low < 0) :
    countAndMakeRun cmp (low :: next :: rest) =
      (low :: next :: rest.take (runTail cmp false next rest),
        rest.drop (runTail cmp false next rest)) := by
  unfold countAndMakeRun
  simp only [hd, decide_False, Bool.false_eq_true, if_false, Nat.add_comm 2]
  rfl

/-- What `CountAndMakeRun` returns on a consistent comparator: the run is a
prefix of the array put in order, stably, and the rest is what follows it. -/
theorem countAndMakeRun_spec (cmp : Item → Item → Int) (xs : List Item)
    (hc : consistentOn cmp xs) :
    ∃ p : List Item, p ++ (countAndMakeRun cmp xs).2 = xs ∧
      (countAndMakeRun cmp xs).1.Perm p ∧
      (countAndMakeRun cmp xs).1.Pairwise (fun a b => cmp a b ≤ 0) ∧
      ∀ c : List Item, c.Sublist p → c.Pairwise (fun a b => cmp a b ≤ 0) →
        c.Sublist (countAndMakeRun cmp xs).1 := by
  match xs, hc with
  | [], _ => exact ⟨[], rfl, List.Perm.refl _, List.Pairwise.nil, fun c hsub _ => hsub⟩
  | [x], _ =>
    exact ⟨[x], rfl, List.Perm.refl _, List.pairwise_singleton _ _, fun c hsub _ => hsub⟩
  | low :: next :: rest, hc =>
    by_cases hd : cmp next low < 0
    · have hchain := runTail_chain cmp true next rest
      simp only [if_true] at hchain
      have hmem : ∀ x ∈ low :: next :: rest.take (runTail cmp true next rest),
          x ∈ low :: next :: rest := by
        intro x hx
        rcases List.mem_cons.1 hx with rfl | hx
        · exact List.mem_cons_self _ _
        · rcases List.mem_cons.1 hx with rfl | hx
          · exact List.mem_cons_of_mem _ (List.mem_cons_self _ _)
          · exact List.mem_cons_of_mem _ (List.mem_cons_of_mem _ (List.mem_of_mem_take hx))
      have hdesc := pairwise_of_descending_chain cmp _ hc low _ hmem
        (List.Chain.cons hd hchain)
      rw [countAndMakeRun_descending cmp low next rest hd]
      refine ⟨low :: next :: rest.take (runTail cmp true next rest), ?_,
        List.reverse_perm _, ?_, ?_⟩
      · simp [List.take_append_drop]
      · rw [List.pairwise_reverse]
        exact hdesc.imp (fun hlt => le_of_lt hlt)
      · intro c hsub hp
        match c, hsub, hp with
        | [], _, _ => exact List.nil_sublist _
        | [x], hsub, _ =>
          exact List.singleton_sublist.2
            (List.mem_reverse.2 (hsub.subset (List.mem_cons_self _ _)))
        | x :: y :: c', hsub, hp =>
          exfalso
          have hxy : cmp x y ≤ 0 := (List.pairwise_cons.1 hp).1 y (List.mem_cons_self _ _)
          have hyx : cmp y x < 0 :=
            (List.pairwise_cons.1 (hdesc.sublist hsub)).1 y (List.mem_cons_self _ _)
          have hx : x ∈ low :: next :: rest := hmem x (hsub.subset (List.mem_cons_self _ _))
          have hy : y ∈ low :: next :: rest :=
            hmem y (hsub.subset (List.mem_cons_of_mem _ (List.mem_cons_self _ _)))
          have := (consistentOn_swap cmp _ hc y x hy hx).1 hyx
          omega
    · have hchain := runTail_chain cmp false next rest
      simp only [Bool.false_eq_true, if_false] at hchain
      have hmem : ∀ x ∈ low :: next :: rest.take (runTail cmp false next rest),
          x ∈ low :: next :: rest := by
        intro x hx
        rcases List.mem_cons.1 hx with rfl | hx
        · exact List.mem_cons_self _ _
        · rcases List.mem_cons.1 hx with rfl | hx
          · exact List.mem_cons_of_mem _ (List.mem_cons_self _ _)
          · exact List.mem_cons_of_mem _ (List.mem_cons_of_mem _ (List.mem_of_mem_take hx))
      rw [countAndMakeRun_ascending cmp low next rest hd]
      refine ⟨low :: next :: rest.take (runTail cmp false next rest), ?_,
        List.Perm.refl _, ?_, fun c hsub _ => hsub⟩
      · simp [List.take_append_drop]
      · exact pairwise_of_ascending_chain cmp _ hc low _ hmem (List.Chain.cons hd hchain)

theorem consistentOn_lt_of_lt_of_le (cmp : Item → Item → Int) (L : List Item)
    (hc : consistentOn cmp L) (p e x : Item) (hp : p ∈ L) (he : e ∈ L) (hx : x ∈ L)
    (hpe : cmp p e < 0) (hex : cmp e x ≤ 0) : cmp p x < 0 := by
  rcases lt_or_eq_of_le hex with hex | hex
  · exact (hc p hp e he x hx).2.2.2.1 hpe hex
  · by_contra hpx
    rcases lt_or_eq_of_le (not_lt.1 hpx) with hpx | hpx
    · have h1 : cmp x p < 0 := (consistentOn_swap cmp L hc p x hp hx).2 hpx
      have h2 := (hc x hx p hp e he).2.2.2.1 h1 hpe
      have h3 := (hc e he x hx x hx).2.1 hex
      omega
    · have h1 := (hc p hp x hx x hx).2.1 hpx.symm
      have h2 := (hc e he x hx p hp).2.2.1 hex h1
      have h3 := (hc e he p hp p hp).2.1 h2
      omega

/-- The binary search of V8 on a sorted list and a consistent comparator: the
elements before the place found are not above the pivot, the elements from it
on are above the pivot. -/
theorem binarySearch_spec (cmp : Item → Item → Int) (L : List Item)
    (hc : consistentOn cmp L) (pivot : Item) (hpivot : pivot ∈ L) (s : List Item)
    (hs : ∀ x ∈ s, x ∈ L) (hsorted : s.Pairwise (fun a b => cmp a b ≤ 0))
    (fuel left right : Nat) (hlr : left ≤ right) (hr : right ≤ s.length)
    (hfuel : right - left ≤ fuel)
    (hlo : ∀ x ∈ s.take left, ¬ cmp pivot x < 0)
    (hhi : ∀ x ∈ s.drop right, cmp pivot x < 0) :
    (∀ x ∈ s.take (binarySearch cmp pivot s fuel left right), ¬ cmp pivot x < 0) ∧
    (∀ x ∈ s.drop (binarySearch cmp pivot s fuel left right), cmp pivot x < 0) := by
  induction fuel generalizing left right with
  | zero =>
    have heq : left = right := by omega
    unfold binarySearch
    exact ⟨hlo, heq ▸ hhi⟩
  | succ fuel ih =>
    unfold binarySearch
    by_cases hlt : left < right
    · rw [if_pos hlt]
      simp only []
      have hmid : left + (right - left) / 2 < s.length := by omega
      rw [List.getElem?_eq_getElem hmid]
      simp only []
      have hdrop : s.drop (left + (right - left) / 2)
          = s[left + (right - left) / 2] :: s.drop (left + (right - left) / 2 + 1) :=
        List.drop_eq_getElem_cons hmid
      have hmem : s[left + (right - left) / 2] ∈ L := hs _ (List.getElem_mem _)
      have hsplit : (s.take (left + (right - left) / 2)
          ++ s.drop (left + (right - left) / 2)).Pairwise (fun a b => cmp a b ≤ 0) := by
        rw [List.take_append_drop]
        exact hsorted
      rw [hdrop] at hsplit
      obtain ⟨-, hright, hcross⟩ := List.pairwise_append.1 hsplit
      split_ifs with hcmp
      · refine ih left (left + (right - left) / 2) (by omega) (by omega) (by omega) hlo ?_
        intro x hx
        rw [hdrop] at hx
        rcases List.mem_cons.1 hx with rfl | hx
        · exact hcmp
        · exact consistentOn_lt_of_lt_of_le cmp L hc pivot _ x hpivot hmem
            (hs x (List.mem_of_mem_drop hx)) hcmp ((List.pairwise_cons.1 hright).1 x hx)
      · refine ih (left + (right - left) / 2 + 1) right (by omega) hr (by omega) ?_ hhi
        intro x hx hpx
        rw [List.take_succ, List.getElem?_eq_getElem hmid] at hx
        rcases List.mem_append.1 hx with hx | hx
        · exact hcmp (consistentOn_lt_of_lt_of_le cmp L hc pivot x _ hpivot
            (hs x (List.mem_of_mem_take hx)) hmem hpx
            (hcross x hx _ (List.mem_cons_self _ _)))
        · simp only [Option.toList, List.mem_singleton] at hx
          exact hcmp (hx ▸ hpx)
    · rw [if_neg hlt]
      have heq : left = right := by omega
      exact ⟨hlo, heq ▸ hhi⟩

theorem countAndMakeRun_perm (cmp : Item → Item → Int) (xs : List Item) :
    ((countAndMakeRun cmp xs).1 ++ (countAndMakeRun cmp xs).2).Perm xs := by
  match xs with
  | [] => exact List.Perm.refl _
  | [x] => exact List.Perm.refl _
  | low :: next :: rest =>
    unfold countAndMakeRun
    simp only []
    split_ifs
    · refine ((List.reverse_perm _).append_right _).trans ?_
      rw [List.take_append_drop]
    · rw [List.take_append_drop]

theorem binaryInsert_perm (cmp : Item → Item → Int) (s : List Item) (pivot : Item) :
    (binaryInsert cmp s pivot).Perm (s ++ [pivot]) := by
  unfold binaryInsert
  simp only []
  refine List.perm_middle.trans ?_
  rw [List.take_append_drop]
  exact (List.perm_append_singleton pivot s).symm

theorem foldl_binaryInsert_perm (cmp : Item → Item → Int) (rest s : List Item) :
    (rest.foldl (binaryInsert cmp) s).Perm (s ++ rest) := by
  induction rest generalizing s with
  | nil => simp
  | cons pivot rest ih =>
    rw [List.foldl_cons]
    refine (ih _).trans ?_
    refine ((binaryInsert_perm cmp s pivot).append_right rest).trans ?_
    simp

theorem v8Sort_perm (cmp : Item → Item → Int) (xs : List Item) : (v8Sort cmp xs).Perm xs :=
  (foldl_binaryInsert_perm cmp _ _).trans (countAndMakeRun_perm cmp xs)

/-- One insertion of `BinaryInsertionSort` on a consistent comparator keeps the
list in order and keeps the sort stable: `processed` is the part of the array
that `s` holds. -/
theorem binaryInsert_spec (cmp : Item → Item → Int) (L : List Item)
    (hc : consistentOn cmp L) (pivot : Item) (hpivot : pivot ∈ L) (s : List Item)
    (hs : ∀ x ∈ s, x ∈ L) (hsorted : s.Pairwise (fun a b => cmp a b ≤ 0))
    (processed : List Item)
    (hstable : ∀ c : List Item, c.Sublist processed →
      c.Pairwise (fun a b => cmp a b ≤ 0) → c.Sublist s) :
    (binaryInsert cmp s pivot).Pairwise (fun a b => cmp a b ≤ 0) ∧
    ∀ c : List Item, c.Sublist (processed ++ [pivot]) →
      c.Pairwise (fun a b => cmp a b ≤ 0) → c.Sublist (binaryInsert cmp s pivot) := by
  obtain ⟨hlo, hhi⟩ := binarySearch_spec cmp L hc pivot hpivot s hs hsorted s.length 0
    s.length (Nat.zero_le _) (Nat.le_refl _) (by omega) (by simp) (by simp)
  unfold binaryInsert
  simp only []
  generalize binarySearch cmp pivot s s.length 0 s.length = k at hlo hhi
  have hsplit : (s.take k ++ s.drop k).Pairwise (fun a b => cmp a b ≤ 0) := by
    rw [List.take_append_drop]
    exact hsorted
  obtain ⟨htake, hdrop, hcross⟩ := List.pairwise_append.1 hsplit
  constructor
  · refine List.pairwise_append.2 ⟨htake,
      List.Pairwise.cons (fun x hx => le_of_lt (hhi x hx)) hdrop, ?_⟩
    intro a ha b hb
    rcases List.mem_cons.1 hb with rfl | hb
    · exact consistentOn_le_of_not_lt cmp L hc a b (hs a (List.mem_of_mem_take ha)) hpivot
        (hlo a ha)
    · exact hcross a ha b hb
  · intro c hsub hp
    obtain ⟨c1, c2, rfl, hc1, hc2⟩ := List.sublist_append_iff.1 hsub
    have hp1 : c1.Pairwise (fun a b => cmp a b ≤ 0) :=
      hp.sublist (List.sublist_append_left c1 c2)
    have hc1s : c1.Sublist s := hstable c1 hc1 hp1
    rcases List.sublist_singleton.1 hc2 with rfl | rfl
    · rw [List.append_nil]
      refine hc1s.trans ?_
      conv_lhs => rw [← List.take_append_drop k s]
      exact (List.Sublist.refl _).append (List.sublist_cons_self _ _)
    · have hle : ∀ x ∈ c1, cmp x pivot ≤ 0 :=
        fun x hx => (List.pairwise_append.1 hp).2.2 x hx pivot (List.mem_singleton_self _)
      rw [← List.take_append_drop k s] at hc1s
      obtain ⟨d1, d2, rfl, hd1, hd2⟩ := List.sublist_append_iff.1 hc1s
      have hd2nil : d2 = [] := by
        cases d2 with
        | nil => rfl
        | cons x d2' =>
          exfalso
          have hx : x ∈ s.drop k := hd2.subset (List.mem_cons_self _ _)
          have h1 := (consistentOn_swap cmp L hc pivot x hpivot
            (hs x (List.mem_of_mem_drop hx))).1 (hhi x hx)
          have h2 := hle x (by simp)
          omega
      subst hd2nil
      rw [List.append_nil]
      exact hd1.append (List.Sublist.cons₂ pivot (List.nil_sublist (s.drop k)))

theorem foldl_binaryInsert_spec (cmp : Item → Item → Int) (L : List Item)
    (hc : consistentOn cmp L) (rest s processed : List Item)
    (hs : ∀ x ∈ s, x ∈ L) (hrest : ∀ x ∈ rest, x ∈ L)
    (hsorted : s.Pairwise (fun a b => cmp a b ≤ 0))
    (hstable : ∀ c : List Item, c.Sublist processed →
      c.Pairwise (fun a b => cmp a b ≤ 0) → c.Sublist s) :
    (rest.foldl (binaryInsert cmp) s).Pairwise (fun a b => cmp a b ≤ 0) ∧
    ∀ c : List Item, c.Sublist (processed ++ rest) →
      c.Pairwise (fun a b => cmp a b ≤ 0) → c.Sublist (rest.foldl (binaryInsert cmp) s) := by
  induction rest generalizing s processed with
  | nil =>
    simp only [List.foldl_nil, List.append_nil]
    exact ⟨hsorted, hstable⟩
  | cons pivot rest ih =>
    have hpivot : pivot ∈ L := hrest pivot (List.mem_cons_self _ _)
    obtain ⟨hsorted2, hstable2⟩ :=
      binaryInsert_spec cmp L hc pivot hpivot s hs hsorted processed hstable
    have hs2 : ∀ x ∈ binaryInsert cmp s pivot, x ∈ L := by
      intro x hx
      rcases List.mem_append.1 ((binaryInsert_perm cmp s pivot).mem_iff.1 hx) with hx | hx
      · exact hs x hx
      · rw [List.mem_singleton.1 hx]
        exact hpivot
    have := ih (binaryInsert cmp s pivot) (processed ++ [pivot]) hs2
      (fun x hx => hrest x (List.mem_cons_of_mem _ hx)) hsorted2 hstable2
    rw [List.append_assoc, List.singleton_append] at this
    exact this

/-- The sort of V8 meets what the language standard asks of
`Array.prototype.sort`. -/
theorem conformingSort_v8Sort : conformingSort v8Sort := by
  intro cmp l
  refine ⟨v8Sort_perm cmp l, fun hc => ?_⟩
  obtain ⟨p, hsplit, hperm, hsorted, hstable⟩ := countAndMakeRun_spec cmp l hc
  have hrun : ∀ x ∈ (countAndMakeRun cmp l).1, x ∈ l := by
    intro x hx
    rw [← hsplit]
    exact List.mem_append_left _ (hperm.mem_iff.1 hx)
  have hrest : ∀ x ∈ (countAndMakeRun cmp l).2, x ∈ l := by
    intro x hx
    rw [← hsplit]
    exact List.mem_append_right _ hx
  have := foldl_binaryInsert_spec cmp l hc (countAndMakeRun cmp l).2 (countAndMakeRun cmp l).1 p
    hrun hrest hsorted hstable
  rw [hsplit] at this
  exact this

/-- C17 as stated fails in an engine that sorts by merging, a sort that meets
the language standard: of six items whose second has no parsable date, the sort
step returns i3 i0 i1 i2 i4 i5, and applied to that output it returns
i3 i2 i0 i1 i4 i5. -/
theorem idempotence_counterexample :
    conformingSort topDownMergeSort ∧
    asciiHost.dateParse (datedItem "i1" "soon").date = none ∧
    (sortStepOn topDownMergeSort asciiHost scenarioState interleavedItems).map
        (fun item => item.id) = ["i3", "i0", "i1", "i2", "i4", "i5"] ∧
    (sortStepOn topDownMergeSort asciiHost scenarioState
        (sortStepOn topDownMergeSort asciiHost scenarioState interleavedItems)).map
        (fun item => item.id) = ["i3", "i2", "i0", "i1", "i4", "i5"] ∧
    sortStepOn topDownMergeSort asciiHost scenarioState
        (sortStepOn topDownMergeSort asciiHost scenarioState interleavedItems)
      ≠ sortStepOn topDownMergeSort asciiHost scenarioState interleavedItems :=
  ⟨conformingSort_topDownMergeSort, by decide, by decide, by decide, by decide⟩

/-- C17, amended. Sort idempotence: in every engine whose sort meets the
language standard, for every item list whose dates all parse and either sort
direction, the sort step of `getFilteredItems` applied to its own output
returns that output unchanged. -/
theorem sortStep_idempotent (sort : (Item → Item → Int) → List Item → List Item)
    (hsort : conformingSort sort) (h : Host) (st : ViewState) (items : List Item)
    (hd : ∀ item ∈ items, (h.dateParse item.date).isSome = true) :
    sortStepOn sort h st (sortStepOn sort h st items) = sortStepOn sort h st items := by
  unfold sortStepOn
  obtain ⟨hperm, hcons⟩ := hsort (sortCompare h st.sort) items
  obtain ⟨hsorted, -⟩ := hcons (consistentOn_sortCompare h st.sort items hd)
  obtain ⟨hperm2, hcons2⟩ := hsort (sortCompare h st.sort) (sort (sortCompare h st.sort) items)
  have hd2 : ∀ item ∈ sort (sortCompare h st.sort) items,
      (h.dateParse item.date).isSome = true := fun item hi => hd item (hperm.mem_iff.1 hi)
  obtain ⟨-, hstable⟩ := hcons2 (consistentOn_sortCompare h st.sort _ hd2)
  exact ((hstable _ (List.Sublist.refl _) hsorted).eq_of_length hperm2.length_eq.symm).symm

/-- The amended C17 on the three scenario items: sorted by insertion, by V8
and by merging, the sorted list sorted again is returned as it is. -/
theorem sortStep_idempotent_witness :
    sortStep asciiHost scenarioState [itemSep2023, itemMay2022, itemCustomMay]
      = [itemMay2022, itemCustomMay, itemSep2023] ∧
    sortStep asciiHost scenarioState
        (sortStep asciiHost scenarioState [itemSep2023, itemMay2022, itemCustomMay])
      = sortStep asciiHost scenarioState [itemSep2023, itemMay2022, itemCustomMay] ∧
    sortStepOn v8Sort asciiHost scenarioState
        (sortStepOn v8Sort asciiHost scenarioState [itemSep2023, itemMay2022, itemCustomMay])
      = sortStepOn v8Sort asciiHost scenarioState [itemSep2023, itemMay2022, itemCustomMay] ∧
    sortStepOn topDownMergeSort asciiHost scenarioState
        (sortStepOn topDownMergeSort asciiHost scenarioState
          [itemSep2023, itemMay2022, itemCustomMay])
      = sortStepOn topDownMergeSort asciiHost scenarioState
          [itemSep2023, itemMay2022, itemCustomMay] :=
  ⟨by decide,
    sortStep_idempotent arraySort conformingSort_arraySort asciiHost scenarioState
      [itemSep2023, itemMay2022, itemCustomMay] (by decide),
    sortStep_idempotent v8Sort conformingSort_v8Sort asciiHost scenarioState
      [itemSep2023, itemMay2022, itemCustomMay] (by decide),
    sortStep_idempotent topDownMergeSort conformingSort_topDownMergeSort asciiHost scenarioState
      [itemSep2023, itemMay2022, itemCustomMay] (by decide)⟩

/-- C18 as stated fails in V8, whose sort meets the language standard, once
another item has no parsable date: of seven items, i5 and i6 have the same
date, both pass the filters and i5 stands before i6 in `state.items`, yet the
output is i1 i3 i4 i6 i0 i2 i5, with i6 before i5. -/
theorem tiebreak_counterexample :
    conformingSort v8Sort ∧
    asciiHost.dateParse (datedItem "i5" "2021-03-01").date = some 1614556800000 ∧
    asciiHost.dateParse (datedItem "i6" "2021-03-01").date = some 1614556800000 ∧
    passesFilters asciiHost { scenarioState with items := staggeredItems, filter := "All" }
      (datedItem "i5" "2021-03-01") = true ∧
    passesFilters asciiHost { scenarioState with items := staggeredItems, filter := "All" }
      (datedItem "i6" "2021-03-01") = true ∧
    [datedItem "i5" "2021-03-01", datedItem "i6" "2021-03-01"].Sublist staggeredItems ∧
    (getFilteredItemsOn v8Sort asciiHost
        { scenarioState with items := staggeredItems, filter := "All" }).map
        (fun item => item.id) = ["i1", "i3", "i4", "i6", "i0", "i2", "i5"] ∧
    ¬ [datedItem "i5" "2021-03-01", datedItem "i6" "2021-03-01"].Sublist
        (getFilteredItemsOn v8Sort asciiHost
          { scenarioState with items := staggeredItems, filter := "All" }) :=
  ⟨conformingSort_v8Sort, by decide, by decide, by decide, by decide, by decide, by decide,
    by decide⟩

/-- C18, amended. Tie-break: in every engine whose sort meets the language
standard, when every item that passes the filters has a date that parses, two
items with the same parsed date that both pass the filters keep in the output
of `getFilteredItems` the order they have in `state.items`, whatever the sort
direction; for the merged visible set this puts a kept base item before a
custom item of the same date. -/
theorem getFilteredItems_stable (sort : (Item → Item → Int) → List Item → List Item)
    (hsort : conformingSort sort) (h : Host) (st : ViewState) (a b : Item)
    (hl : st.loaded = true)
    (hparse : ∀ item ∈ st.items, passesFilters h st item = true →
      (h.dateParse item.date).isSome = true)
    (hd : ∃ d, h.dateParse a.date = some d ∧ h.dateParse b.date = some d)
    (hpa : passesFilters h st a = true) (hpb : passesFilters h st b = true) :
    ([a, b].Sublist st.items → [a, b].Sublist (getFilteredItemsOn sort h st)) ∧
    (∀ app : App, st.items = buildVisibleItems app → a ∈ app.baseItems →
      a.id ∉ app.deletedIds → b ∈ app.customItems →
      [a, b].Sublist (getFilteredItemsOn sort h st)) := by
  obtain ⟨d, hda, hdb⟩ := hd
  have hr : sortCompare h st.sort a b ≤ 0 := by
    rw [sortCompare_of_parsed h _ a b d d hda hdb]
    simp
  have hmain : [a, b].Sublist st.items → [a, b].Sublist (getFilteredItemsOn sort h st) := by
    intro hab
    have hf : [a, b].Sublist (st.items.filter (passesFilters h st)) := by
      have := hab.filter (passesFilters h st)
      simpa [List.filter, hpa, hpb] using this
    have heq : getFilteredItemsOn sort h st
        = sort (sortCompare h st.sort) (st.items.filter (passesFilters h st)) := by
      unfold getFilteredItemsOn sortStepOn
      simp only [hl, Bool.not_true, Bool.false_eq_true, if_false, textStep_categoryStep]
    rw [heq]
    have hd' : ∀ item ∈ st.items.filter (passesFilters h st),
        (h.dateParse item.date).isSome = true :=
      fun item hi => hparse item (List.mem_filter.1 hi).1 (List.mem_filter.1 hi).2
    exact ((hsort (sortCompare h st.sort) _).2
      (consistentOn_sortCompare h st.sort _ hd')).2 _ hf (List.pairwise_pair.2 hr)
  refine ⟨hmain, ?_⟩
  intro app hitems hbase hdel hcustom
  apply hmain
  rw [hitems]
  unfold buildVisibleItems
  have h1 : [a].Sublist (app.baseItems.filter (fun item => !includes app.deletedIds item.id)) :=
    List.singleton_sublist.2
      (List.mem_filter.2 ⟨hbase, by simp [(includes_eq_false_iff _ _).2 hdel]⟩)
  have h2 : [b].Sublist app.customItems := List.singleton_sublist.2 hcustom
  exact h1.append h2

/-- The amended C18 on a base item and a custom item that share the date
2022-05-10: sorted by V8 the base item stays first, and sorted by insertion it
stays first in both sort directions. -/
theorem getFilteredItems_stable_witness :
    [itemMay2022, itemCustomMay].Sublist
        (getFilteredItemsOn v8Sort asciiHost { scenarioState with
          items := buildVisibleItems tieApp, filter := "All" }) ∧
    [itemMay2022, itemCustomMay].Sublist
        (getFilteredItems asciiHost { scenarioState with
          items := buildVisibleItems tieApp, filter := "All" }) ∧
    getFilteredItems asciiHost { scenarioState with
        items := buildVisibleItems tieApp, filter := "All", sort := "newest" }
      = [itemSep2023, itemMay2022, itemCustomMay] :=
  ⟨(getFilteredItems_stable v8Sort conformingSort_v8Sort asciiHost
      { scenarioState with items := buildVisibleItems tieApp, filter := "All" }
      itemMay2022 itemCustomMay rfl (by decide) ⟨1652140800000, by decide, by decide⟩
      (by decide) (by decide)).2
      tieApp rfl (by decide) (by decide) (by decide),
    (getFilteredItems_stable arraySort conformingSort_arraySort asciiHost
      { scenarioState with items := buildVisibleItems tieApp, filter := "All" }
      itemMay2022 itemCustomMay rfl (by decide) ⟨1652140800000, by decide, by decide⟩
      (by decide) (by decide)).2
      tieApp rfl (by decide) (by decide) (by decide),
    by decide⟩

/-- C19 as stated fails: in ascending order the list of the item dated
2023-09-01 followed by an item whose date does not parse is returned as it is,
so the item without a date does not precede the dated one. -/
theorem unparsable_counterexample :
    asciiHost.dateParse itemNoDate.date = none ∧
    asciiHost.dateParse itemSep2023.date = some 1693526400000 ∧
    getFilteredItems asciiHost
        { scenarioState with items := [itemSep2023, itemNoDate], filter := "All" }
      = [itemSep2023, itemNoDate] :=
  ⟨by decide, by decide, by decide⟩

theorem sortCompare_of_unparsed (h : Host) (sort : String) (a b : Item)
    (hn : h.dateParse a.date = none ∨ h.dateParse b.date = none) :
    sortCompare h sort a b = 0 := by
  unfold sortCompare dateDiff
  rcases hn with hn | hn
  · rw [hn]
  · rw [hn]; cases h.dateParse a.date <;> rfl

/-- C19, amended. The sort step of `getFilteredItems` gives no special place
to an item with an unparsable date: the comparator reads every comparison with
such a date as a tie (`NaN`, taken as 0); the output is a permutation of the
input; a list in which every pair of items has an unparsable date is returned
in its input order; and a list whose dates all parse comes out in ascending
date order when the sort is not "newest". -/
theorem sortStep_unparsable (h : Host) (st : ViewState) (items : List Item) :
    (∀ a b : Item, h.dateParse a.date = none ∨ h.dateParse b.date = none →
      sortCompare h st.sort a b = 0) ∧
    (sortStep h st items).Perm items ∧
    (items.Pairwise (fun a b => h.dateParse a.date = none ∨ h.dateParse b.date = none) →
      sortStep h st items = items) ∧
    (st.sort ≠ "newest" → (∀ item ∈ items, (h.dateParse item.date).isSome = true) →
      (sortStep h st items).Pairwise (fun a b => dateLe h a b = true)) := by
  refine ⟨fun a b hn => sortCompare_of_unparsed h st.sort a b hn, sortStep_perm h st items,
    ?_, fun hs hd => sortStep_ascending h st items hs hd⟩
  intro hp
  unfold sortStep arraySort
  apply List.Sorted.insertionSort_eq
  exact hp.imp (fun {a b} hn => le_of_eq (sortCompare_of_unparsed h st.sort a b hn))

/-- The amended C19 on the dated item followed by the item without a date:
the two tie, and the sort step returns them in the order given. -/
theorem sortStep_unparsable_witness :
    sortCompare asciiHost "oldest" itemSep2023 itemNoDate = 0 ∧
    sortStep asciiHost scenarioState [itemSep2023, itemNoDate] = [itemSep2023, itemNoDate] :=
  ⟨(sortStep_unparsable asciiHost scenarioState [itemSep2023, itemNoDate]).1
      itemSep2023 itemNoDate (Or.inr (by decide)),
    (sortStep_unparsable asciiHost scenarioState [itemSep2023, itemNoDate]).2.2.1
      (List.pairwise_pair.2 (Or.inr (by decide)))⟩

/-! ## The publish signature -/

theorem digitChar_toNat (k : Nat) (hk : k < 10) : (Nat.digitChar k).toNat - 48 = k := by
  interval_cases k <;> rfl

theorem digitChar_ne_bar (k : Nat) (hk : k < 10) : Nat.digitChar k ≠ '|' := by
  interval_cases k <;> decide

/-- The decimal digits that `toString` writes for a natural number. -/
theorem toDigitsCore_eq (fuel : Nat) :
    ∀ (n : Nat) (ds : List Char), 0 < n → n < fuel →
      Nat.toDigitsCore 10 fuel n ds = ((Nat.digits 10 n).reverse.map Nat.digitChar) ++ ds := by
  induction fuel with
  | zero => intro n ds _ hn; omega
  | succ fuel ih =>
    intro n ds hpos hn
    rw [Nat.digits_def' (by omega) hpos]
    unfold Nat.toDigitsCore
    simp only []
    split_ifs with h0
    · rw [h0]; simp
    · have hpos' : 0 < n / 10 := Nat.pos_of_ne_zero h0
      rw [ih (n / 10) _ hpos' (by omega)]
      simp

theorem toDigits_eq (n : Nat) (hpos : 0 < n) :
    Nat.toDigits 10 n = (Nat.digits 10 n).reverse.map Nat.digitChar := by
  unfold Nat.toDigits
  rw [toDigitsCore_eq (n + 1) n [] hpos (by omega), List.append_nil]

/-- Reading the digits of `toString n` back gives `n`. -/
theorem ofDigits_toDigits (n : Nat) :
    Nat.ofDigits 10 ((Nat.toDigits 10 n).reverse.map (fun c => c.toNat - 48)) = n := by
  rcases Nat.eq_zero_or_pos n with h0 | hpos
  · subst h0; rfl
  · rw [toDigits_eq n hpos, ← List.map_reverse, List.reverse_reverse, List.map_map]
    have hmap : (Nat.digits 10 n).map ((fun c => c.toNat - 48) ∘ Nat.digitChar)
        = Nat.digits 10 n := by
      conv_rhs => rw [← List.map_id (Nat.digits 10 n)]
      apply List.map_congr_left
      intro k hk
      exact digitChar_toNat k (Nat.digits_lt_base (by omega) hk)
    rw [hmap, Nat.ofDigits_digits]

theorem toString_nat_injective (n m : Nat) (he : toString n = toString m) : n = m := by
  have hd : Nat.toDigits 10 n = Nat.toDigits 10 m := by
    have := congrArg String.data he
    exact this
  rw [← ofDigits_toDigits n, ← ofDigits_toDigits m, hd]

theorem toString_nat_no_bar (n : Nat) : '|' ∉ (toString n).data := by
  show '|' ∉ Nat.toDigits 10 n
  rcases Nat.eq_zero_or_pos n with h0 | hpos
  · subst h0; decide
  · rw [toDigits_eq n hpos]
    intro hm
    obtain ⟨k, hk, hkc⟩ := List.mem_map.1 hm
    exact digitChar_ne_bar k (Nat.digits_lt_base (by omega) (List.mem_reverse.1 hk)) hkc

theorem append_sep_injective {α : Type} (x : α) (s1 s2 r1 r2 : List α)
    (h1 : x ∉ r1) (h2 : x ∉ r2) (he : s1 ++ x :: r1 = s2 ++ x :: r2) : s1 = s2 ∧ r1 = r2 := by
  induction s1 generalizing s2 with
  | nil =>
    cases s2 with
    | nil => simpa using he
    | cons y s2 =>
      exfalso
      simp only [List.nil_append, List.cons_append, List.cons.injEq] at he
      exact h1 (he.2 ▸ List.mem_append_right _ (List.mem_cons_self _ _))
  | cons y s1 ih =>
    cases s2 with
    | nil =>
      exfalso
      simp only [List.nil_append, List.cons_append, List.cons.injEq] at he
      exact h2 (he.2 ▸ List.mem_append_right _ (List.mem_cons_self _ _))
    | cons z s2 =>
      simp only [List.cons_append, List.cons.injEq] at he
      obtain ⟨hs, hr⟩ := ih s2 he.2
      exact ⟨by rw [he.1, hs], hr⟩

theorem buildPublishSignature_some (p : Payload) :
    buildPublishSignature (some p)
      = some (p.lastUpdated.getD "" ++ "|" ++ toString (p.items.getD []).length) := by
  unfold buildPublishSignature
  have hs : (match p.lastUpdated with
      | some s => if truthy s = true then s else ""
      | none => "") = p.lastUpdated.getD "" := by
    cases hl : p.lastUpdated with
    | none => rfl
    | some s =>
      cases ht : truthy s with
      | true => simp [ht]
      | false => simp [(not_truthy_iff s).1 ht]
  have hc : (match p.items with
      | some items => items.length
      | none => 0) = (p.items.getD []).length := by
    cases p.items <;> rfl
  simp only [hs, hc]

/-- C20. `buildPublishSignature` depends on the last-updated text and the item
count only: the signatures of two payloads are equal iff their `lastUpdated`
(a missing one read as "") are equal and their item counts (a missing or
non-array `items` read as 0) are equal; so payloads that differ in item
content only have the same signature; and a missing payload gives `null`. -/
theorem buildPublishSignature_iff (p q : Payload) :
    (buildPublishSignature (some p) = buildPublishSignature (some q) ↔
      p.lastUpdated.getD "" = q.lastUpdated.getD "" ∧
        (p.items.getD []).length = (q.items.getD []).length) ∧
    (∀ items items' : List Item, items.length = items'.length →
      buildPublishSignature (some { p with items := some items })
        = buildPublishSignature (some { p with items := some items' })) ∧
    buildPublishSignature none = none ∧
    buildPublishSignature (some p) ≠ none := by
  have hiff : ∀ p q : Payload,
      buildPublishSignature (some p) = buildPublishSignature (some q) ↔
        p.lastUpdated.getD "" = q.lastUpdated.getD "" ∧
          (p.items.getD []).length = (q.items.getD []).length := by
    intro p q
    rw [buildPublishSignature_some, buildPublishSignature_some, Option.some.injEq]
    constructor
    · intro he
      have hd := congrArg String.data he
      simp only [String.data_append, List.append_assoc] at hd
      have hsplit := append_sep_injective '|' _ _ _ _ (toString_nat_no_bar _)
        (toString_nat_no_bar _) hd
      exact ⟨String.ext hsplit.1, toString_nat_injective _ _ (String.ext hsplit.2)⟩
    · rintro ⟨h1, h2⟩
      rw [h1, h2]
  refine ⟨hiff p q, ?_, rfl, ?_⟩
  · intro items items' hlen
    exact (hiff _ _).2 ⟨rfl, hlen⟩
  · rw [buildPublishSignature_some]
    exact Option.some_ne_none _

/-- C20 evaluated: the signature of the scenario payload, and the same
signature for a payload that differs in the content of its one item. -/
theorem buildPublishSignature_iff_witness :
    buildPublishSignature (some publishPayload) = some "2024-03-01|1" ∧
    buildPublishSignature (some { publishPayload with items := some [itemSep2023] })
      = buildPublishSignature (some { publishPayload with items := some [itemMay2022] }) :=
  ⟨by decide, (buildPublishSignature_iff publishPayload publishPayload).2.1 _ _ rfl⟩

/-! ## Authoring validation -/

/-- C13 as stated fails on the server: a submission without a title that
comes with a session token the server does not know is turned away by
`requireAuth` with 401 before any field is looked at, not with 400; nothing is
written. -/
theorem authoring_counterexample :
    strangerRequest.body = .json (some untitledFields) ∧
    fieldText untitledFields.title = "" ∧
    isLoggedIn scenarioServer strangerRequest = some false ∧
    handleAddEvent asciiHost 1700000000000 "1a2b3c4d" scenarioServer strangerRequest
      = some ⟨scenarioServer, some ⟨401, false, some "Not logged in."⟩⟩ :=
  ⟨by decide, by decide, by decide, by decide⟩

theorem truthy_eq_false_of_eq (s : String) (hs : s = "") : truthy s = false := by
  rw [hs]; rfl

theorem adminFormSubmit_rejects (h : Host) (now : Nat) (form : AdminForm) (a : App)
    (hbad : trim form.title = "" ∨ form.date = "" ∨ trim form.summary = "" ∨
      trim form.details = "" ∨ form.categories = []) :
    adminFormSubmit h now form a =
      a.log (.status "Fill title, date, summary, details, and at least one category." true) := by
  unfold adminFormSubmit
  simp only []
  rw [if_pos]
  rcases hbad with hb | hb | hb | hb | hb
  · simp [truthy_eq_false_of_eq _ hb]
  · simp [truthy_eq_false_of_eq _ hb]
  · simp [truthy_eq_false_of_eq _ hb]
  · simp [truthy_eq_false_of_eq _ hb]
  · simp [hb]

theorem adminFormSubmit_customItems (h : Host) (now : Nat) (form : AdminForm) (a : App) :
    ∀ item ∈ (adminFormSubmit h now form a).customItems,
      item ∈ a.customItems ∨ ∃ cs, item.categories = some cs ∧ cs ≠ [] := by
  intro item hi
  unfold adminFormSubmit at hi
  simp only [] at hi
  split_ifs at hi with hbad hserver
  · exact Or.inl hi
  · exact Or.inl hi
  · have hcat : form.categories ≠ [] := by
      intro he
      exact hbad (by simp [he])
    simp only [App.log, saveCustomItems, (requestRender_keeps h true _).2.1,
      List.mem_append, List.mem_singleton] at hi
    rcases hi with hi | hi
    · exact Or.inl hi
    · exact Or.inr ⟨form.categories, by rw [hi], hcat⟩

theorem handleAddEvent_rejects (h : Host) (now : Nat) (uuid8 : String) (s : Server)
    (req : Request) (payload : Fields) (hbody : req.body = .json (some payload))
    (hbad : fieldText payload.title = "" ∨ fieldText payload.date = "" ∨
      fieldText payload.summary = "" ∨ fieldText payload.details = "" ∨
      fieldList payload.categories = []) :
    (isLoggedIn s req = some true →
      handleAddEvent h now uuid8 s req
        = some ⟨s, some ⟨400, false, some "Missing required fields."⟩⟩) ∧
    (isLoggedIn s req = some false →
      handleAddEvent h now uuid8 s req = some ⟨s, some ⟨401, false, some "Not logged in."⟩⟩) := by
  constructor
  · intro hlog
    unfold handleAddEvent requireAuth readJsonBody
    simp only [hlog, hbody]
    rw [if_pos]
    rcases hbad with hb | hb | hb | hb | hb
    · simp [truthy_eq_false_of_eq _ hb]
    · simp [truthy_eq_false_of_eq _ hb]
    · simp [truthy_eq_false_of_eq _ hb]
    · simp [truthy_eq_false_of_eq _ hb]
    · simp [hb]
  · intro hlog
    unfold handleAddEvent requireAuth
    simp only [hlog]

theorem handleAddEvent_customFile (h : Host) (now : Nat) (uuid8 : String) (s : Server)
    (req : Request) (out : Outcome) (hout : handleAddEvent h now uuid8 s req = some out) :
    ∀ item ∈ getCustomItems out.server,
      item ∈ getCustomItems s ∨ ∃ cs, item.categories = some cs ∧ cs ≠ [] := by
  intro item hi
  unfold handleAddEvent at hout
  split at hout
  · cases hout
  · cases hout; exact Or.inl hi
  · split at hout
    · cases hout; exact Or.inl hi
    · cases hout; exact Or.inl hi
    · rename_i payload _
      simp only [] at hout
      split_ifs at hout with hbad
      · cases hout; exact Or.inl hi
      · cases hout
        have hcat : fieldList payload.categories ≠ [] := by
          intro he
          exact hbad (by simp [he])
        simp only [getCustomItems, Option.getD_some, List.mem_append, List.mem_singleton] at hi
        rcases hi with hi | hi
        · exact Or.inl hi
        · exact Or.inr ⟨fieldList payload.categories, by rw [hi], hcat⟩

theorem trimChars_ne_nil (c : Char) (cs : List Char) (hc : isTrimChar c = false) :
    trimChars (c :: cs) ≠ [] := by
  unfold trimChars
  intro hnil
  have hdrop : (c :: cs).dropWhile isTrimChar = c :: cs := by simp [List.dropWhile, hc]
  rw [hdrop, List.reverse_eq_nil_iff, List.dropWhile_eq_nil_iff] at hnil
  have := hnil c (by simp)
  rw [hc] at this
  cases this

theorem isTrimChar_of_digit (c : Char) (n : Nat) (hc : digitVal c = some n) :
    isTrimChar c = false := by
  unfold digitVal at hc
  split_ifs at hc with hrange
  unfold isTrimChar
  simp only [Bool.or_eq_false_iff, Bool.and_eq_false_iff, decide_eq_false_iff_not]
  omega

/-- A value of the date field that is empty after trimming is empty. -/
theorem isDateValue_trim (s : String) (hs : isDateValue s = true) (ht : trim s = "") :
    s = "" := by
  unfold isDateValue at hs
  rcases Bool.or_eq_true_iff.1 hs with hempty | hdate
  · exact String.ext (List.isEmpty_iff.1 hempty)
  · exfalso
    unfold isoDateParse at hdate
    have htrim : trimChars s.data = [] := congrArg String.data ht
    split at hdate
    · rename_i y1 y2 y3 y4 m1 m2 d1 d2 hdata
      rw [hdata] at htrim
      cases hy : digitVal y1 with
      | none => simp [digitsVal, List.foldl, hy] at hdate
      | some n => exact trimChars_ne_nil _ _ (isTrimChar_of_digit y1 n hy) htrim
    · simp at hdate

/-- C13, amended. Authoring validation.  On the client a submission in which
title, date, summary or details is empty after trimming, or that selects no
category, is rejected: the handler only sets the status text, so `customItems`,
`state.items` and the stored copy are unchanged and no request is issued.  On
the server `handleAddEvent` writes nothing for such a submission, whoever sends
it, and answers 400 when the request is logged in.  Every custom item that
either path adds has a non-empty category list. -/
theorem authoring_validation (h : Host) (now : Nat) (uuid8 : String) (form : AdminForm)
    (a : App) (s : Server) (req : Request) :
    (isDateValue form.date = true →
      (trim form.title = "" ∨ trim form.date = "" ∨ trim form.summary = "" ∨
        trim form.details = "" ∨ form.categories = []) →
      (adminFormSubmit h now form a).customItems = a.customItems ∧
      (adminFormSubmit h now form a).state = a.state ∧
      (adminFormSubmit h now form a).storedCustom = a.storedCustom ∧
      (adminFormSubmit h now form a).effects = a.effects ++
        [.status "Fill title, date, summary, details, and at least one category." true]) ∧
    (∀ payload : Fields, req.body = .json (some payload) →
      (fieldText payload.title = "" ∨ fieldText payload.date = "" ∨
        fieldText payload.summary = "" ∨ fieldText payload.details = "" ∨
        fieldList payload.categories = []) →
      (isLoggedIn s req = some true →
        handleAddEvent h now uuid8 s req
          = some ⟨s, some ⟨400, false, some "Missing required fields."⟩⟩) ∧
      (catchError s (handleAddEvent h now uuid8 s req)).server = s) ∧
    (∀ item ∈ (adminFormSubmit h now form a).customItems,
      item ∈ a.customItems ∨ ∃ cs, item.categories = some cs ∧ cs ≠ []) ∧
    (∀ out : Outcome, handleAddEvent h now uuid8 s req = some out →
      ∀ item ∈ getCustomItems out.server,
        item ∈ getCustomItems s ∨ ∃ cs, item.categories = some cs ∧ cs ≠ []) := by
  refine ⟨?_, ?_, adminFormSubmit_customItems h now form a,
    fun out hout => handleAddEvent_customFile h now uuid8 s req out hout⟩
  · intro hdate hbad
    have hbad2 : trim form.title = "" ∨ form.date = "" ∨ trim form.summary = "" ∨
        trim form.details = "" ∨ form.categories = [] := by
      rcases hbad with hb | hb | hb | hb | hb
      · exact Or.inl hb
      · exact Or.inr (Or.inl (isDateValue_trim _ hdate hb))
      · exact Or.inr (Or.inr (Or.inl hb))
      · exact Or.inr (Or.inr (Or.inr (Or.inl hb)))
      · exact Or.inr (Or.inr (Or.inr (Or.inr hb)))
    rw [adminFormSubmit_rejects h now form a hbad2]
    exact ⟨rfl, rfl, rfl, rfl⟩
  · intro payload hbody hbad
    obtain ⟨hgranted, hdenied⟩ := handleAddEvent_rejects h now uuid8 s req payload hbody hbad
    refine ⟨hgranted, ?_⟩
    cases hlog : isLoggedIn s req with
    | none =>
      have hthrow : handleAddEvent h now uuid8 s req = none := by
        unfold handleAddEvent requireAuth
        simp only [hlog]
      rw [hthrow]
      rfl
    | some logged =>
      cases logged with
      | false => rw [hdenied hlog]; rfl
      | true => rw [hgranted hlog]; rfl

/-- The amended C13 evaluated: the form with a blank title is rejected on the
client, and the request without a title gets 400 from the server when it is
logged in; the store stays as it was. -/
theorem authoring_validation_witness :
    (adminFormSubmit asciiHost 1700000000000 untitledForm deleteApp).customItems = [] ∧
    handleAddEvent asciiHost 1700000000000 "1a2b3c4d" scenarioServer untitledRequest
      = some ⟨scenarioServer, some ⟨400, false, some "Missing required fields."⟩⟩ ∧
    (catchError scenarioServer
      (handleAddEvent asciiHost 1700000000000 "1a2b3c4d" scenarioServer strangerRequest)).server
      = scenarioServer :=
  ⟨((authoring_validation asciiHost 1700000000000 "1a2b3c4d" untitledForm deleteApp
        scenarioServer untitledRequest).1 (by decide) (Or.inl (by decide))).1,
    ((authoring_validation asciiHost 1700000000000 "1a2b3c4d" untitledForm deleteApp
        scenarioServer untitledRequest).2.1 untitledFields rfl (Or.inl (by decide))).1
      (by decide),
    ((authoring_validation asciiHost 1700000000000 "1a2b3c4d" untitledForm deleteApp
        scenarioServer strangerRequest).2.1 untitledFields rfl (Or.inl (by decide))).2⟩

/-! ## Authorization on the server -/

/-- C14 as stated fails: a request without a session cookie whose cookie
header holds a value that is not a valid percent-encoding makes
`handleAddEvent` throw, and the server answers 500, not 401. -/
theorem requireAuth_counterexample :
    parseCookies brokenCookieRequest.cookie = none ∧
    handleAddEvent asciiHost 1700000000000 "1a2b3c4d" scenarioServer brokenCookieRequest = none ∧
    catchError scenarioServer
        (handleAddEvent asciiHost 1700000000000 "1a2b3c4d" scenarioServer brokenCookieRequest)
      = ⟨scenarioServer, some ⟨500, false, some "Server error."⟩⟩ :=
  ⟨by decide, by decide, by decide⟩

theorem isLoggedIn_eq_none_iff (s : Server) (req : Request) :
    isLoggedIn s req = none ↔ parseCookies req.cookie = none := by
  unfold isLoggedIn
  cases parseCookies req.cookie <;> simp

/-- C14, amended. Authorization on the server.  A request without a cookie
header, or whose cookies parse and whose session cookie is absent or carries a
token outside the session set, is not logged in; for a request that is not
logged in `handleAddEvent`, `handleDeleteEvent` and `handleUpload` answer 401
with `ok: false` and leave the stored custom items, the stored deleted ids and
the upload directory unchanged.  When a cookie value is not a valid
percent-encoding the three handlers throw before any write and the server
answers 500 with `ok: false`, the stored data unchanged again. -/
theorem requireAuth_guard (h : Host) (now : Nat) (uuid8 storedName : String) (s : Server)
    (req : Request) :
    (req.cookie = none → isLoggedIn s req = some false) ∧
    (∀ cookies, parseCookies req.cookie = some cookies →
      (cookieValue cookies SESSION_COOKIE = none ∨
        ∃ token, cookieValue cookies SESSION_COOKIE = some token ∧ token ∉ s.sessions) →
      isLoggedIn s req = some false) ∧
    (isLoggedIn s req = some false →
      handleAddEvent h now uuid8 s req = some ⟨s, some ⟨401, false, some "Not logged in."⟩⟩ ∧
      handleDeleteEvent s req = some ⟨s, some ⟨401, false, some "Not logged in."⟩⟩ ∧
      handleUpload h storedName s req = some ⟨s, some ⟨401, false, some "Not logged in."⟩⟩) ∧
    (parseCookies req.cookie = none →
      catchError s (handleAddEvent h now uuid8 s req)
        = ⟨s, some ⟨500, false, some "Server error."⟩⟩ ∧
      catchError s (handleDeleteEvent s req) = ⟨s, some ⟨500, false, some "Server error."⟩⟩ ∧
      catchError s (handleUpload h storedName s req)
        = ⟨s, some ⟨500, false, some "Server error."⟩⟩) := by
  refine ⟨?_, ?_, ?_, ?_⟩
  · intro hc
    unfold isLoggedIn parseCookies cookieValue
    rw [hc]
    rfl
  · intro cookies hp htoken
    unfold isLoggedIn
    rw [hp]
    rcases htoken with hn | ⟨token, ht, hnot⟩
    · simp [hn]
    · simp [ht, (includes_eq_false_iff _ _).2 hnot]
  · intro hlog
    unfold handleAddEvent handleDeleteEvent handleUpload requireAuth
    simp [hlog]
  · intro hp
    have hlog : isLoggedIn s req = none := (isLoggedIn_eq_none_iff s req).2 hp
    unfold handleAddEvent handleDeleteEvent handleUpload requireAuth
    simp [hlog, catchError]

/-- The amended C14 evaluated: a request with an unknown token gets 401 from
the delete handler and the store is as before; the request with the broken
cookie ends in 500 with the store as before. -/
theorem requireAuth_guard_witness :
    handleDeleteEvent scenarioServer strangerRequest
      = some ⟨scenarioServer, some ⟨401, false, some "Not logged in."⟩⟩ ∧
    catchError scenarioServer (handleDeleteEvent scenarioServer brokenCookieRequest)
      = ⟨scenarioServer, some ⟨500, false, some "Server error."⟩⟩ :=
  ⟨((requireAuth_guard asciiHost 1700000000000 "1a2b3c4d" "open-day.png" scenarioServer
        strangerRequest).2.2.1
      ((requireAuth_guard asciiHost 1700000000000 "1a2b3c4d" "open-day.png" scenarioServer
        strangerRequest).2.1 [("kcm_session", "token-2")] (by decide)
        (Or.inr ⟨"token-2", by decide, by decide⟩))).2.1,
    ((requireAuth_guard asciiHost 1700000000000 "1a2b3c4d" "open-day.png" scenarioServer
        brokenCookieRequest).2.2.2 (by decide)).2.1⟩

/-! ## The publish worker -/

/-- C15 as stated fails: a `POST /publish` whose body is not JSON is answered
400, not 401 (it makes no repository call and is not ok). -/
theorem workerFetch_counterexample :
    workerFetch scenarioEnv apiUp { method := "POST", pathname := "/publish", body := none }
      = ⟨400, false, []⟩ :=
  by decide

/-- C15, amended. For every `POST /publish` request the worker calls the
repository API, and can answer `ok: true`, only if `PUBLISH_PASSWORD` is set
and non-empty and the body is JSON whose `password` equals it; in every other
case it makes no repository call and answers with `ok: false`, with status 400
when the body is not JSON and 401 otherwise. -/
theorem workerFetch_password (env : WorkerEnv) (api : ApiReplies) (req : WorkerRequest)
    (hm : req.method = "POST") (hp : req.pathname = "/publish") :
    (((workerFetch env api req).calls ≠ [] ∨ (workerFetch env api req).ok = true) →
      ∃ pw body, env.PUBLISH_PASSWORD = some pw ∧ pw ≠ "" ∧ req.body = some (some body) ∧
        body.password = some pw) ∧
    ((¬ ∃ pw body, env.PUBLISH_PASSWORD = some pw ∧ pw ≠ "" ∧ req.body = some (some body) ∧
        body.password = some pw) →
      (workerFetch env api req).calls = [] ∧ (workerFetch env api req).ok = false ∧
      (workerFetch env api req).status = (if req.body = none then 400 else 401)) := by
  have hno : ¬ req.method = "OPTIONS" := by rw [hm]; decide
  have hroute : ¬ (req.pathname ≠ "/publish" ∨ req.method ≠ "POST") := by
    rw [hm, hp]; simp
  by_cases hauth : ∃ pw body, env.PUBLISH_PASSWORD = some pw ∧ pw ≠ "" ∧
      req.body = some (some body) ∧ body.password = some pw
  · exact ⟨fun _ => hauth, fun hn => absurd hauth hn⟩
  · have hres : (workerFetch env api req).calls = [] ∧ (workerFetch env api req).ok = false ∧
        (workerFetch env api req).status = (if req.body = none then 400 else 401) := by
      unfold workerFetch
      simp only [hno, hroute, if_false]
      cases hb : req.body with
      | none => exact ⟨rfl, rfl, rfl⟩
      | some body =>
        simp only []
        rw [if_pos]
        · exact ⟨rfl, rfl, by simp⟩
        · by_contra hc
          rw [Bool.or_eq_true, not_or, Bool.not_eq_true, Bool.not_eq_false', Bool.not_eq_true,
            decide_eq_false_iff_not, not_not] at hc
          obtain ⟨htr, heq⟩ := hc
          apply hauth
          cases hpw : env.PUBLISH_PASSWORD with
          | none => rw [hpw] at htr; cases htr
          | some pw =>
            rw [hpw] at htr heq
            have hne : pw ≠ "" := (truthy_iff pw).1 htr
            have hpass : (body.bind (fun b => b.password)).getD "" = pw := Option.some.inj heq
            cases body with
            | none => exact absurd hpass.symm hne
            | some b =>
              cases hbp : b.password with
              | none =>
                simp only [Option.some_bind, hbp, Option.getD_none] at hpass
                exact absurd hpass.symm hne
              | some p =>
                simp only [Option.some_bind, hbp, Option.getD_some] at hpass
                exact ⟨pw, b, rfl, hne, hb, by rw [hbp, hpass]⟩
    refine ⟨fun hcall => ?_, fun _ => hres⟩
    exfalso
    rcases hcall with hc | hc
    · exact hc hres.1
    · rw [hres.2.1] at hc; cases hc

/-- The amended C15 evaluated: a wrong password is answered 401 without a
repository call, and the right password reaches the repository. -/
theorem workerFetch_password_witness :
    (workerFetch scenarioEnv apiUp
        { method := "POST", pathname := "/publish",
          body := some (some { password := some "guess", data := some publishPayload }) }).status
      = 401 ∧
    workerFetch scenarioEnv apiUp
        { method := "POST", pathname := "/publish",
          body := some (some { password := some "secret", data := some publishPayload }) }
      = ⟨200, true, [.getFile, .putFile]⟩ :=
  ⟨((workerFetch_password scenarioEnv apiUp
        { method := "POST", pathname := "/publish",
          body := some (some { password := some "guess", data := some publishPayload }) }
        rfl rfl).2 (by
          rintro ⟨pw, body, h1, -, h3, h4⟩
          have e1 : pw = "secret" := (Option.some.inj h1).symm
          have e3 : body = { password := some "guess", data := some publishPayload } :=
            (Option.some.inj (Option.some.inj h3)).symm
          rw [e1, e3] at h4
          exact absurd h4 (by decide))).2.2,
    by decide⟩

/-! ## After a publish -/

/-- C21 as stated fails: after the confirmed publish of a payload with the
signature "2024-03-01|1", in a session whose base set has the signature
"2024-01-01|2", `currentSignature` is the signature of the base set and not
that of the payload. -/
theorem currentSignature_counterexample :
    (showPublishSuccess asciiHost publishPayload editedApp).currentSignature
      = some "2024-01-01|2" ∧
    buildPublishSignature (some publishPayload) = some "2024-03-01|1" ∧
    (showPublishSuccess asciiHost publishPayload editedApp).currentSignature
      ≠ buildPublishSignature (some publishPayload) :=
  ⟨by decide, by decide, by decide⟩

/-- Further fields that a render request leaves alone. -/
theorem requestRender_keeps_signatures (h : Host) (immediate : Bool) (a : App) :
    (requestRender h immediate a).currentSignature = a.currentSignature ∧
    (requestRender h immediate a).publishSignature = a.publishSignature ∧
    (requestRender h immediate a).pressedFilter = a.pressedFilter ∧
    (requestRender h immediate a).sortToggle = a.sortToggle ∧
    (requestRender h immediate a).serverMode = a.serverMode := by
  unfold requestRender renderTimeline afterTimelineRender App.log
  simp only []
  split_ifs <;> exact ⟨rfl, rfl, rfl, rfl, rfl⟩

/-- C21, amended. After a confirmed publish of a payload P, `showPublishSuccess`
leaves `currentSignature`, the signature the update poll compares against, at
the signature of the base set as last fetched (`baseMeta.lastUpdated` and the
number of `baseItems`), and sets `publishSignature`, the signature the publish
poll waits for, to `buildPublishSignature(P)`. -/
theorem showPublishSuccess_signatures (h : Host) (payload : Payload) (a : App) :
    (showPublishSuccess h payload a).currentSignature =
      buildPublishSignature
        (some { school := none, lastUpdated := some a.lastUpdated, items := some a.baseItems }) ∧
    (showPublishSuccess h payload a).publishSignature = buildPublishSignature (some payload) := by
  have hk := fun b : App => requestRender_keeps h true b
  unfold showPublishSuccess pollForPublishUpdate clearLocalEdits saveCustomItems saveDeletedIds
    showToast App.log
  simp only []
  split_ifs <;> simp [(hk _).2.2.2.2.2.2.1, (hk _).2.2.2.2.2.2.2.1]

/-- C26. Right after a confirmed publish, `clearLocalEdits` has set
`state.items` to the base set as last fetched, whatever payload was published:
every base item is in it, the ones that were deleted locally too, and a custom
item is in it only if it is also a base item. -/
theorem clearLocalEdits_shows_base (h : Host) (payload : Payload) (a : App) :
    (clearLocalEdits h a).state.items = a.baseItems ∧
    (showPublishSuccess h payload a).state.items = a.baseItems ∧
    (showPublishSuccess h payload a).baseItems = a.baseItems ∧
    (∀ item ∈ a.baseItems, item ∈ (showPublishSuccess h payload a).state.items) ∧
    (∀ item ∈ a.customItems, item ∉ a.baseItems →
      item ∉ (showPublishSuccess h payload a).state.items) := by
  have hk := fun b : App => requestRender_keeps h true b
  have h1 : (clearLocalEdits h a).state.items = a.baseItems := by
    unfold clearLocalEdits saveCustomItems saveDeletedIds
    simp [(hk _).1]
  have h2 : (showPublishSuccess h payload a).state.items = a.baseItems := by
    unfold showPublishSuccess pollForPublishUpdate clearLocalEdits saveCustomItems
      saveDeletedIds showToast App.log
    simp only []
    split_ifs <;> simp [(hk _).1]
  have h3 : (showPublishSuccess h payload a).baseItems = a.baseItems := by
    unfold showPublishSuccess pollForPublishUpdate clearLocalEdits saveCustomItems
      saveDeletedIds showToast App.log
    simp only []
    split_ifs <;> simp [(hk _).2.2.2.2.2.2.1]
  refine ⟨h1, h2, h3, ?_, ?_⟩
  · intro item hi
    rw [h2]; exact hi
  · intro item _ hnot
    rw [h2]; exact hnot

/-- C26 on the session with one tombstone and one custom item: before the
publish the visible set is the kept base item and the custom item; after it,
`state.items` is the two base items, the deleted one included and the custom
one gone, and not the one item of the published payload. -/
theorem clearLocalEdits_shows_base_witness :
    buildVisibleItems editedApp = [itemMay2022, { itemMay2022 with id := "evt-1" }] ∧
    (showPublishSuccess asciiHost publishPayload editedApp).state.items
      = [itemSep2023, itemMay2022] ∧
    ({ itemMay2022 with id := "evt-1" } : Item) ∉
      (showPublishSuccess asciiHost publishPayload editedApp).state.items :=
  ⟨by decide, (clearLocalEdits_shows_base asciiHost publishPayload editedApp).2.1,
    (clearLocalEdits_shows_base asciiHost publishPayload editedApp).2.2.2.2
      { itemMay2022 with id := "evt-1" } (by decide) (by decide)⟩

/-! ## The tombstones as a set -/

/-- The tombstones, the custom items and the mode after `deleteEventById`. -/
theorem deleteEventById_fields (h : Host) (id : String) (a : App) :
    (deleteEventById h id a).deletedIds =
      (if a.serverMode = true then a.deletedIds
       else if (a.customItems.findIdx? (fun item => decide (item.id = id))).isSome = true
         then a.deletedIds
       else if id ∈ a.deletedIds then a.deletedIds else a.deletedIds ++ [id]) ∧
    (deleteEventById h id a).customItems =
      (if a.serverMode = true then a.customItems
       else match a.customItems.findIdx? (fun item => decide (item.id = id)) with
         | some customIndex => a.customItems.eraseIdx customIndex
         | none => a.customItems) ∧
    (deleteEventById h id a).serverMode = a.serverMode := by
  have hk := fun b : App => requestRender_keeps h true b
  have hs := fun b : App => requestRender_keeps_signatures h true b
  unfold deleteEventById
  cases hmode : a.serverMode with
  | true => simp [App.log, hmode]
  | false =>
    simp only [Bool.false_eq_true, if_false]
    cases hfind : a.customItems.findIdx? (fun item => decide (item.id = id)) with
    | some customIndex =>
      simp [(hk _).2.1, (hk _).2.2.1, (hs _).2.2.2.2, saveCustomItems, hmode]
    | none =>
      by_cases hin : id ∈ a.deletedIds
      · have hinc : includes a.deletedIds id = true := (includes_iff _ _).2 hin
        simp [(hk _).2.1, (hk _).2.2.1, (hs _).2.2.2.2, hinc, hin, hmode]
      · have hinc : includes a.deletedIds id = false := (includes_eq_false_iff _ _).2 hin
        simp [(hk _).2.1, (hk _).2.2.1, (hs _).2.2.2.2, hinc, hin, hmode, saveDeletedIds]

theorem nodup_append_singleton {α : Type} (l : List α) (x : α) (hl : l.Nodup) (hx : x ∉ l) :
    (l ++ [x]).Nodup := by
  rw [List.nodup_append]
  refine ⟨hl, List.nodup_singleton x, ?_⟩
  intro y hy hy'
  rw [List.mem_singleton] at hy'
  exact hx (hy' ▸ hy)

/-- The tombstones in the file after `handleDeleteEvent`. -/
theorem handleDeleteEvent_deletedIds (s : Server) (req : Request) (out : Outcome)
    (hout : handleDeleteEvent s req = some out) :
    getDeletedIds out.server = getDeletedIds s ∨
      ∃ id, id ∉ getDeletedIds s ∧ getDeletedIds out.server = getDeletedIds s ++ [id] := by
  unfold handleDeleteEvent at hout
  cases hauth : requireAuth s req with
  | threw => simp only [hauth] at hout; cases hout
  | denied response => simp only [hauth] at hout; cases hout; exact Or.inl rfl
  | granted =>
    simp only [hauth] at hout
    cases hbody : readJsonBody req with
    | error response => simp only [hbody] at hout; cases hout; exact Or.inl rfl
    | ok value =>
      cases value with
      | none => simp only [hbody] at hout; cases hout; exact Or.inl rfl
      | some payload =>
        simp only [hbody] at hout
        cases hid : truthy (fieldText payload.id) with
        | false =>
          simp only [hid, Bool.not_false, if_true] at hout
          cases hout; exact Or.inl rfl
        | true =>
          simp only [hid, Bool.not_true, Bool.false_eq_true, if_false] at hout
          cases hfind : (getCustomItems s).findIdx?
              (fun item => decide (item.id = fieldText payload.id)) with
          | some customIndex => simp only [hfind] at hout; cases hout; exact Or.inl rfl
          | none =>
            simp only [hfind] at hout
            cases hinc : includes (getDeletedIds s) (fieldText payload.id) with
            | true =>
              simp only [hinc, Bool.not_true, Bool.false_eq_true, if_false] at hout
              cases hout; exact Or.inl rfl
            | false =>
              simp only [hinc, Bool.not_false, if_true] at hout
              cases hout
              exact Or.inr ⟨fieldText payload.id, (includes_eq_false_iff _ _).1 hinc, rfl⟩

/-- `handleDeleteEvent` on a JSON object whose id no stored custom item carries. -/
theorem handleDeleteEvent_base (s : Server) (req : Request) (payload : Fields)
    (hbody : req.body = .json (some payload))
    (hcustom : ∀ item ∈ getCustomItems s, item.id ≠ fieldText payload.id) :
    handleDeleteEvent s req =
      (match requireAuth s req with
        | .threw => none
        | .denied response => some ⟨s, some response⟩
        | .granted =>
          if !truthy (fieldText payload.id) then some ⟨s, some ⟨400, false, some "Missing id."⟩⟩
          else if !includes (getDeletedIds s) (fieldText payload.id) then
            some ⟨{ s with deletedFile := some (getDeletedIds s ++ [fieldText payload.id]) },
              some ⟨200, true, none⟩⟩
          else some ⟨s, some ⟨200, true, none⟩⟩) := by
  have hfind : (getCustomItems s).findIdx?
      (fun item => decide (item.id = fieldText payload.id)) = none :=
    findIdx?_eq_none_of_forall _ _ (fun item hi => by simpa using hcustom item hi)
  unfold handleDeleteEvent readJsonBody
  simp only [hbody, hfind]

/-- C25. `deletedIds` stays a set: when it holds no duplicate, it holds none
after `deleteEventById` for any id on the client, nor in the file after
`handleDeleteEvent` for any request on the server; and deleting an id that no
custom item carries a second time leaves the tombstones as they were after the
first deletion, on the client and on the server. -/
theorem deletedIds_set (h : Host) (id : String) (a : App) (s : Server) (req : Request) :
    (a.deletedIds.Nodup → (deleteEventById h id a).deletedIds.Nodup) ∧
    ((∀ item ∈ a.customItems, item.id ≠ id) →
      (deleteEventById h id (deleteEventById h id a)).deletedIds
        = (deleteEventById h id a).deletedIds) ∧
    (∀ out : Outcome, handleDeleteEvent s req = some out → (getDeletedIds s).Nodup →
      (getDeletedIds out.server).Nodup) ∧
    (∀ payload : Fields, req.body = .json (some payload) →
      (∀ item ∈ getCustomItems s, item.id ≠ fieldText payload.id) →
      ∀ out : Outcome, handleDeleteEvent s req = some out →
        ∀ out2 : Outcome, handleDeleteEvent out.server req = some out2 →
          getDeletedIds out2.server = getDeletedIds out.server) := by
  refine ⟨?_, ?_, ?_, ?_⟩
  · intro hn
    rw [(deleteEventById_fields h id a).1]
    split_ifs with h1 h2 h3
    · exact hn
    · exact hn
    · exact hn
    · exact nodup_append_singleton _ _ hn h3
  · intro hcustom
    have hfind : a.customItems.findIdx? (fun item => decide (item.id = id)) = none :=
      findIdx?_eq_none_of_forall _ _ (fun item hi => by simpa using hcustom item hi)
    obtain ⟨hd1, hc1, hm1⟩ := deleteEventById_fields h id a
    obtain ⟨hd2, -, -⟩ := deleteEventById_fields h id (deleteEventById h id a)
    have hc1' : (deleteEventById h id a).customItems = a.customItems := by
      rw [hc1, hfind]; split_ifs <;> rfl
    rw [hd2, hm1, hc1', hfind]
    by_cases hmode : a.serverMode = true
    · simp [hmode]
    · simp only [hmode, if_false, Option.isSome_none, Bool.false_eq_true]
      have hmem : id ∈ (deleteEventById h id a).deletedIds := by
        rw [hd1]
        simp only [hmode, if_false, hfind, Option.isSome_none, Bool.false_eq_true]
        split_ifs with hin
        · exact hin
        · simp
      rw [if_pos hmem]
  · intro out hout hn
    rcases handleDeleteEvent_deletedIds s req out hout with he | ⟨x, hx, he⟩
    · rw [he]; exact hn
    · rw [he]; exact nodup_append_singleton _ _ hn hx
  · intro payload hbody hcustom out hout out2 hout2
    rw [handleDeleteEvent_base s req payload hbody hcustom] at hout
    have hsecond : ∀ s2 : Server, s2.sessions = s.sessions → s2.customFile = s.customFile →
        (requireAuth s req = .granted → truthy (fieldText payload.id) = true →
          includes (getDeletedIds s2) (fieldText payload.id) = true) →
        handleDeleteEvent s2 req = some out2 → out2.server = s2 := by
      intro s2 hs hc hin h2
      have hauth : requireAuth s2 req = requireAuth s req := by
        unfold requireAuth isLoggedIn
        rw [hs]
      have hcustom2 : ∀ item ∈ getCustomItems s2, item.id ≠ fieldText payload.id := by
        unfold getCustomItems
        rw [hc]
        exact hcustom
      rw [handleDeleteEvent_base s2 req payload hbody hcustom2, hauth] at h2
      cases hreq : requireAuth s req with
      | threw => simp only [hreq] at h2; cases h2
      | denied response => simp only [hreq] at h2; cases h2; rfl
      | granted =>
        simp only [hreq] at h2
        cases hid : truthy (fieldText payload.id) with
        | false => simp only [hid, Bool.not_false, if_true] at h2; cases h2; rfl
        | true =>
          simp only [hid, Bool.not_true, Bool.false_eq_true, if_false, hin hreq hid] at h2
          cases h2; rfl
    cases hreq : requireAuth s req with
    | threw => simp only [hreq] at hout; cases hout
    | denied response =>
      simp only [hreq] at hout
      cases hout
      rw [hsecond s rfl rfl (fun hg => by rw [hreq] at hg; cases hg) hout2]
    | granted =>
      simp only [hreq] at hout
      cases hid : truthy (fieldText payload.id) with
      | false =>
        simp only [hid, Bool.not_false, if_true] at hout
        cases hout
        rw [hsecond s rfl rfl (fun _ ht => by rw [hid] at ht; cases ht) hout2]
      | true =>
        simp only [hid, Bool.not_true, Bool.false_eq_true, if_false] at hout
        cases hinc : includes (getDeletedIds s) (fieldText payload.id) with
        | true =>
          simp only [hinc, Bool.not_true, Bool.false_eq_true, if_false] at hout
          cases hout
          rw [hsecond s rfl rfl (fun _ _ => hinc) hout2]
        | false =>
          simp only [hinc, Bool.not_false, if_true] at hout
          cases hout
          rw [hsecond { s with deletedFile := some (getDeletedIds s ++ [fieldText payload.id]) }
            rfl rfl (fun _ _ => by
              rw [includes_iff]
              simp [getDeletedIds]) hout2]

/-- C25 on the scenario session and server: deleting "evt-1" twice leaves the
one tombstone of the first deletion, on the client and in the file. -/
theorem deletedIds_set_witness :
    (deleteEventById asciiHost "evt-1" (deleteEventById asciiHost "evt-1" deleteApp)).deletedIds
      = ["evt-1"] ∧
    (deleteEventById asciiHost "evt-1" deleteApp).deletedIds.Nodup ∧
    (handleDeleteEvent scenarioServer { untitledRequest with cookie := some "kcm_session=token-1" }).map
        (fun out => getDeletedIds out.server) = some ["evt-1"] :=
  ⟨((deletedIds_set asciiHost "evt-1" deleteApp scenarioServer untitledRequest).2.1
      (by decide)).trans (by decide),
    (deletedIds_set asciiHost "evt-1" deleteApp scenarioServer untitledRequest).1 (by decide),
    by decide⟩

/-! ## The two merges -/

/-- C28. The merge of `getTimelineData` on the server and the merge of
`buildVisibleItems` on the client are the same function of the base items, the
custom items and the deleted ids: on the same three lists both return the base
items whose id is not deleted, in their order, followed by the custom items. -/
theorem getTimelineData_eq_buildVisibleItems (s : Server) (a : App) :
    (getBaseItems s = a.baseItems → getCustomItems s = a.customItems →
      getDeletedIds s = a.deletedIds → getTimelineData s = buildVisibleItems a) ∧
    getTimelineData s =
      (getBaseItems s).filter (fun item => decide (item.id ∉ getDeletedIds s))
        ++ getCustomItems s ∧
    buildVisibleItems a =
      a.baseItems.filter (fun item => decide (item.id ∉ a.deletedIds)) ++ a.customItems := by
  have hfilter : ∀ (base : List Item) (deleted : List String),
      base.filter (fun item => !includes deleted item.id)
        = base.filter (fun item => decide (item.id ∉ deleted)) := by
    intro base deleted
    apply List.filter_congr
    intro item _
    cases hi : includes deleted item.id with
    | true => simp [(includes_iff _ _).1 hi]
    | false => simp [(includes_eq_false_iff _ _).1 hi]
  refine ⟨?_, ?_, ?_⟩
  · intro hb hc hd
    show (getBaseItems s).filter (fun item => !includes (getDeletedIds s) item.id)
        ++ getCustomItems s
      = a.baseItems.filter (fun item => !includes a.deletedIds item.id) ++ a.customItems
    rw [hb, hc, hd]
  · show (getBaseItems s).filter (fun item => !includes (getDeletedIds s) item.id)
        ++ getCustomItems s = _
    rw [hfilter]
  · show a.baseItems.filter (fun item => !includes a.deletedIds item.id) ++ a.customItems = _
    rw [hfilter]

/-- C28 on the session with one tombstone and one custom item and a server
that stores the same three lists: both merges give the same two items. -/
theorem getTimelineData_eq_buildVisibleItems_witness :
    getTimelineData
        { scenarioServer with
          customFile := some editedApp.customItems, deletedFile := some ["evt-1"] }
      = buildVisibleItems editedApp ∧
    buildVisibleItems editedApp = [itemMay2022, { itemMay2022 with id := "evt-1" }] :=
  ⟨(getTimelineData_eq_buildVisibleItems
      { scenarioServer with
        customFile := some editedApp.customItems, deletedFile := some ["evt-1"] }
      editedApp).1 rfl rfl rfl,
    by decide⟩

/-! ## Media indicators -/

theorem imageEntries_spec (many : Bool) (index : Nat) (images : List String) :
    (imageEntries many index images).map (fun e => e.url) = images ∧
    (imageEntries many index images).map (fun e => e.type)
      = List.replicate images.length "image" ∧
    (imageEntries many index images).length = images.length := by
  induction images generalizing index with
  | nil => exact ⟨rfl, rfl, rfl⟩
  | cons src rest ih =>
    obtain ⟨h1, h2, h3⟩ := ih (index + 1)
    simp [imageEntries, h1, h2, h3, List.replicate_succ]

theorem videoEntries_spec (index : Nat) (videos : List String) :
    (videoEntries index videos).map (fun e => e.url) = videos ∧
    (videoEntries index videos).map (fun e => e.type)
      = List.replicate videos.length "video" ∧
    (videoEntries index videos).length = videos.length := by
  induction videos generalizing index with
  | nil => exact ⟨rfl, rfl, rfl⟩
  | cons url rest ih =>
    obtain ⟨h1, h2, h3⟩ := ih (index + 1)
    simp [videoEntries, h1, h2, h3, List.replicate_succ]

theorem linkEntries_spec (links : List Link) :
    (linkEntries links).map (fun e => e.url) = links.map (fun link => link.url) ∧
    (linkEntries links).map (fun e => e.type) = List.replicate links.length "link" ∧
    (linkEntries links).length = links.length := by
  induction links with
  | nil => exact ⟨rfl, rfl, rfl⟩
  | cons link rest ih =>
    obtain ⟨h1, h2, h3⟩ := ih
    unfold linkEntries at h1 h2 h3 ⊢
    simp [h1, h2, List.replicate_succ]

/-- C23. Media indicators: for an item with i images, v videos and l links,
n = i + v + l, the pool of `createMediaIndicators` lists the images, then the
videos, then the links, each in its order; the function returns the first
min(n, 2) pool entries as media chips, followed by one overflow chip with the
text "+(n - 2)" exactly when n > 2; and no chip when n = 0. -/
theorem createMediaIndicators_spec (item : Item) :
    (mediaPool item).map (fun e => e.url) =
      item.images.getD [] ++ item.videos.getD []
        ++ (item.links.getD []).map (fun link => link.url) ∧
    (mediaPool item).map (fun e => e.type) =
      List.replicate (item.images.getD []).length "image"
        ++ List.replicate (item.videos.getD []).length "video"
        ++ List.replicate (item.links.getD []).length "link" ∧
    (mediaPool item).length =
      (item.images.getD []).length + (item.videos.getD []).length
        + (item.links.getD []).length ∧
    createMediaIndicators item =
      ((mediaPool item).take 2).map Chip.media ++
        (if 2 < (mediaPool item).length then
          [Chip.overflow ("+" ++ toString ((mediaPool item).length - 2))]
         else []) ∧
    ((mediaPool item).take 2).length = min (mediaPool item).length 2 ∧
    ((mediaPool item).length = 0 → createMediaIndicators item = []) := by
  obtain ⟨i1, i2, i3⟩ := imageEntries_spec (decide ((item.images.getD []).length > 1)) 0
    (item.images.getD [])
  obtain ⟨v1, v2, v3⟩ := videoEntries_spec 0 (item.videos.getD [])
  obtain ⟨l1, l2, l3⟩ := linkEntries_spec (item.links.getD [])
  have hchips : createMediaIndicators item =
      ((mediaPool item).take 2).map Chip.media ++
        (if 2 < (mediaPool item).length then
          [Chip.overflow ("+" ++ toString ((mediaPool item).length - 2))]
         else []) := by
    unfold createMediaIndicators
    simp only [List.length_take]
    by_cases hn : 2 < (mediaPool item).length
    · have h1 : (mediaPool item).length > min 2 (mediaPool item).length := by omega
      have h2 : min 2 (mediaPool item).length = 2 := by omega
      rw [if_pos h1, if_pos hn, h2]
    · have h1 : ¬ (mediaPool item).length > min 2 (mediaPool item).length := by omega
      rw [if_neg h1, if_neg hn, List.append_nil]
  refine ⟨?_, ?_, ?_, hchips, ?_, ?_⟩
  · unfold mediaPool
    rw [List.map_append, List.map_append, i1, v1, l1]
  · unfold mediaPool
    rw [List.map_append, List.map_append, i2, v2, l2]
  · unfold mediaPool
    rw [List.length_append, List.length_append, i3, v3, l3]
  · rw [List.length_take, Nat.min_comm]
  · intro h0
    rw [hchips, List.length_eq_zero.1 h0]
    rfl

/-- C23 on an item with two images, a video and a link: two image chips and
the overflow chip "+2"; an item without media gets no chip. -/
theorem createMediaIndicators_spec_witness :
    createMediaIndicators itemWithMedia =
      [.media ⟨"image", "Image 1", "img/a.png"⟩, .media ⟨"image", "Image 2", "img/b.png"⟩,
       .overflow "+2"] ∧
    createMediaIndicators itemMay2022 = [] :=
  ⟨by decide, (createMediaIndicators_spec itemMay2022).2.2.2.2.2 (by decide)⟩

/-! ## Year groups -/

theorem mem_firstOccurrences (y : Option Int) (ys : List (Option Int)) :
    y ∈ firstOccurrences ys ↔ y ∈ ys := by
  induction ys with
  | nil => simp [firstOccurrences]
  | cons z ys ih =>
    simp only [firstOccurrences, List.mem_cons, List.mem_filter, ih, decide_eq_true_eq]
    by_cases hz : y = z
    · simp [hz]
    · simp [hz]

theorem firstOccurrences_nodup (ys : List (Option Int)) : (firstOccurrences ys).Nodup := by
  induction ys with
  | nil => simp [firstOccurrences]
  | cons z ys ih =>
    simp only [firstOccurrences, List.nodup_cons, List.mem_filter, decide_eq_true_eq]
    exact ⟨fun hmem => hmem.2 rfl, ih.filter _⟩

theorem firstOccurrences_append_singleton (ys : List (Option Int)) (y : Option Int) :
    firstOccurrences (ys ++ [y]) =
      if y ∈ ys then firstOccurrences ys else firstOccurrences ys ++ [y] := by
  induction ys with
  | nil => simp [firstOccurrences]
  | cons z ys ih =>
    have hstep : firstOccurrences (z :: ys ++ [y]) =
        z :: (firstOccurrences (ys ++ [y])).filter (fun w => decide (w ≠ z)) := rfl
    rw [hstep, ih]
    by_cases hy : y ∈ ys
    · rw [if_pos hy, if_pos (List.mem_cons_of_mem _ hy)]
      rfl
    · rw [if_neg hy, List.filter_append]
      by_cases hz : y = z
      · have hmem : y ∈ z :: ys := by simp [hz]
        rw [if_pos hmem]
        simp [firstOccurrences, hz]
      · have hmem : y ∉ z :: ys := by simp [hz, hy]
        rw [if_neg hmem]
        simp [firstOccurrences, hz]

theorem groupByYear_append_singleton (items : List Item) (item : Item) :
    groupByYear (items ++ [item]) = addToGroups item (groupByYear items) := by
  simp [groupByYear, List.foldl_append]

theorem yearGroup_append_of_ne (items : List Item) (item : Item) (y : Option Int)
    (hne : y ≠ item.year) : yearGroup (items ++ [item]) y = yearGroup items y := by
  have hne2 : ¬ item.year = y := fun heq => hne heq.symm
  simp [yearGroup, List.filter_append, hne2]

theorem addToGroups_yearGroups (items : List Item) (item : Item) (keys : List (Option Int))
    (hnodup : keys.Nodup) :
    addToGroups item (keys.map (yearGroup items)) =
      if item.year ∈ keys then keys.map (yearGroup (items ++ [item]))
      else keys.map (yearGroup (items ++ [item])) ++ [(item.year, [item])] := by
  induction keys with
  | nil => simp [addToGroups]
  | cons k keys ih =>
    obtain ⟨hk, hrest⟩ := List.nodup_cons.1 hnodup
    by_cases hkey : k = item.year
    · have htail : keys.map (yearGroup (items ++ [item])) = keys.map (yearGroup items) := by
        apply List.map_congr_left
        intro y hy
        apply yearGroup_append_of_ne
        intro hy2
        exact hk (hkey ▸ hy2 ▸ hy)
      have hhead : yearGroup (items ++ [item]) k = (k, (yearGroup items k).2 ++ [item]) := by
        simp [yearGroup, List.filter_append, hkey]
      rw [List.map_cons, List.map_cons, htail, hhead]
      have hmem : item.year ∈ k :: keys := by simp [hkey]
      rw [if_pos hmem]
      simp [addToGroups, yearGroup, hkey]
    · have hhead : yearGroup (items ++ [item]) k = yearGroup items k :=
        yearGroup_append_of_ne items item k hkey
      have hstep : addToGroups item ((k :: keys).map (yearGroup items)) =
          yearGroup items k :: addToGroups item (keys.map (yearGroup items)) := by
        simp [addToGroups, yearGroup, hkey]
      rw [hstep, ih hrest, List.map_cons, hhead]
      have hkey2 : ¬ item.year = k := fun heq => hkey heq.symm
      by_cases hmem : item.year ∈ keys
      · simp [hmem]
      · simp [hmem, hkey2]

theorem groupByYear_eq_groupsSpec (items : List Item) : groupByYear items = groupsSpec items := by
  induction items using List.reverseRecOn with
  | nil => rfl
  | append_singleton items item ih =>
    rw [groupByYear_append_singleton, ih]
    unfold groupsSpec
    rw [addToGroups_yearGroups items item _ (firstOccurrences_nodup _), List.map_append,
      List.map_singleton, firstOccurrences_append_singleton]
    by_cases hmem : item.year ∈ items.map (fun item => item.year)
    · rw [if_pos ((mem_firstOccurrences _ _).2 hmem), if_pos hmem]
    · rw [if_neg (fun hin => hmem ((mem_firstOccurrences _ _).1 hin)), if_neg hmem,
        List.map_append, List.map_singleton]
      have hnone : items.filter (fun i => decide (i.year = item.year)) = [] := by
        rw [List.filter_eq_nil_iff]
        intro i hi hyear
        exact hmem (List.mem_map.2 ⟨i, hi, by simpa using hyear⟩)
      simp [yearGroup, List.filter_append, hnone]

theorem addToGroups_length_sum (item : Item) (groups : List (Option Int × List Item)) :
    ((addToGroups item groups).map (fun g => g.2.length)).sum
      = (groups.map (fun g => g.2.length)).sum + 1 := by
  induction groups with
  | nil => simp [addToGroups]
  | cons g rest ih =>
    obtain ⟨y, members⟩ := g
    by_cases hy : y = item.year
    · simp [addToGroups, hy]; omega
    · simp [addToGroups, hy, ih]; omega

theorem groupByYear_length_sum (items : List Item) :
    ((groupByYear items).map (fun g => g.2.length)).sum = items.length := by
  induction items using List.reverseRecOn with
  | nil => rfl
  | append_singleton items item ih =>
    rw [groupByYear_append_singleton, addToGroups_length_sum, ih]
    simp

/-- C22. Year groups: with `items` the filtered and sorted sequence,
`renderTimeline` builds the groups `groupByYear items` (put on the page at once,
or handed to the swap timer). These are one group per distinct year, ordered by
the first occurrence of the year in `items`; each group holds exactly the items
of its year in sequence order and is not empty; every item lies in exactly one
group, and the group sizes add up to the number of items. -/
theorem renderTimeline_groups (h : Host) (immediate : Bool) (a : App) :
    ((renderTimeline h immediate a).shown = groupByYear (getFilteredItems h a.state) ∨
      Effect.swapTimer (groupByYear (getFilteredItems h a.state))
        ∈ (renderTimeline h immediate a).effects) ∧
    groupByYear (getFilteredItems h a.state) = groupsSpec (getFilteredItems h a.state) ∧
    (groupByYear (getFilteredItems h a.state)).map Prod.fst =
      firstOccurrences ((getFilteredItems h a.state).map (fun item => item.year)) ∧
    ((groupByYear (getFilteredItems h a.state)).map Prod.fst).Nodup ∧
    (∀ y, y ∈ (groupByYear (getFilteredItems h a.state)).map Prod.fst ↔
      ∃ item ∈ getFilteredItems h a.state, item.year = y) ∧
    (∀ g ∈ groupByYear (getFilteredItems h a.state),
      g.2 = (getFilteredItems h a.state).filter (fun item => decide (item.year = g.1)) ∧
      g.2 ≠ []) ∧
    (∀ item ∈ getFilteredItems h a.state,
      ∃ g ∈ groupByYear (getFilteredItems h a.state), item ∈ g.2 ∧
        ∀ g2 ∈ groupByYear (getFilteredItems h a.state), item ∈ g2.2 → g2 = g) ∧
    ((groupByYear (getFilteredItems h a.state)).map (fun g => g.2.length)).sum =
      (getFilteredItems h a.state).length := by
  generalize hitems : getFilteredItems h a.state = items
  have hkeys : (groupByYear items).map Prod.fst =
      firstOccurrences (items.map (fun item => item.year)) := by
    rw [groupByYear_eq_groupsSpec, groupsSpec, List.map_map]
    exact List.map_id _
  have hnodup : ((groupByYear items).map Prod.fst).Nodup := by
    rw [hkeys]
    exact firstOccurrences_nodup _
  have hyears : ∀ y, y ∈ (groupByYear items).map Prod.fst ↔ ∃ item ∈ items, item.year = y := by
    intro y
    rw [hkeys, mem_firstOccurrences, List.mem_map]
  have hgroup : ∀ g ∈ groupByYear items,
      g.2 = items.filter (fun item => decide (item.year = g.1)) ∧ g.2 ≠ [] := by
    intro g hg
    have hkey : g.1 ∈ (groupByYear items).map Prod.fst := List.mem_map.2 ⟨g, hg, rfl⟩
    rw [groupByYear_eq_groupsSpec, groupsSpec] at hg
    obtain ⟨y, _, rfl⟩ := List.mem_map.1 hg
    refine ⟨rfl, ?_⟩
    obtain ⟨item, hitem, hyear⟩ := (hyears _).1 hkey
    intro hnil
    have hmem : item ∈ (yearGroup items y).2 :=
      List.mem_filter.2 ⟨hitem, by simpa [yearGroup] using hyear⟩
    rw [hnil] at hmem
    exact List.not_mem_nil _ hmem
  refine ⟨?_, groupByYear_eq_groupsSpec items, hkeys, hnodup, hyears, hgroup, ?_,
    groupByYear_length_sum items⟩
  · unfold renderTimeline
    simp only [hitems]
    cases hempty : items.isEmpty
    · by_cases hswap : (!immediate && a.initialRenderDone && a.motion) = true
      · right
        simp [hswap, App.log]
      · left
        simp [hswap, App.log, afterTimelineRender]
        split <;> rfl
    · left
      have hnil : items = [] := List.isEmpty_iff.1 hempty
      simp [hnil, groupByYear]
  · intro item hitem
    obtain ⟨g, hg, hgy⟩ := List.mem_map.1 ((hyears item.year).2 ⟨item, hitem, rfl⟩)
    have hin : item ∈ g.2 := by
      rw [(hgroup g hg).1]
      exact List.mem_filter.2 ⟨hitem, by simpa using hgy.symm⟩
    refine ⟨g, hg, hin, ?_⟩
    intro g2 hg2 hin2
    rw [(hgroup g2 hg2).1] at hin2
    have hy2 : item.year = g2.1 := by simpa using (List.mem_filter.1 hin2).2
    exact List.inj_on_of_nodup_map hnodup hg2 hg (hy2.symm.trans hgy.symm)

/-- C22 on a session sorted newest first: the group of 2023 comes before the
group of 2022, whose two items keep their order. -/
theorem renderTimeline_groups_witness :
    (renderTimeline asciiHost true groupedApp).shown =
      [(some 2023, [itemSep2023]), (some 2022, [itemMay2022, itemCustomMay])] ∧
    ((groupByYear (getFilteredItems asciiHost groupedApp.state)).map Prod.fst).Nodup :=
  ⟨by decide, (renderTimeline_groups asciiHost true groupedApp).2.2.2.1⟩

/-! ## Render coalescing -/

/-- C24, counterexample. Immediate render requests are not coalesced: two calls
`requestRender(true)` in a row run the renderer twice before any animation
frame, and a state update followed by an immediate request runs it once at
once and a second time in the frame callback. -/
theorem coalescing_counterexample :
    (runOps asciiHost [.request true, .request true] groupedApp).effects
      = [.render, .render] ∧
    (runOps asciiHost [.update ⟨some "Academics", none, none⟩, .request true]
      groupedApp).effects = [.frameRequest, .render] ∧
    (frameCallback asciiHost
      (runOps asciiHost [.update ⟨some "Academics", none, none⟩, .request true]
        groupedApp)).effects =
      [.frameRequest, .render, .render, .swapTimer [(some 2023, [itemSep2023])]] := by
  decide

theorem syncHash_keeps_queue (a : App) :
    (syncHash a).effects = a.effects ∧ (syncHash a).renderQueued = a.renderQueued ∧
    (syncHash a).hydratingFromHash = a.hydratingFromHash := by
  unfold syncHash
  split_ifs <;> exact ⟨rfl, rfl, rfl⟩

theorem requestRender_deferred (h : Host) (a : App) :
    (requestRender h false a).hydratingFromHash = a.hydratingFromHash ∧
    (requestRender h false a).renderQueued = true ∧
    (a.renderQueued = true → (requestRender h false a).effects = a.effects) ∧
    (a.renderQueued = false →
      (requestRender h false a).effects = a.effects ++ [.frameRequest]) := by
  unfold requestRender App.log
  cases hq : a.renderQueued <;> simp [hq]

theorem updateState_deferred (h : Host) (a : App) (p : Partial) :
    (updateState h p a).hydratingFromHash = a.hydratingFromHash ∧
    (((updateState h p a).effects = a.effects ∧
        (updateState h p a).renderQueued = a.renderQueued ∧
        (a.renderQueued = false → a.hydratingFromHash = true)) ∨
      (a.renderQueued = false ∧ (updateState h p a).effects = a.effects ++ [.frameRequest] ∧
        (updateState h p a).renderQueued = true)) := by
  unfold updateState
  by_cases hhyd : a.hydratingFromHash = true
  · rw [if_pos hhyd]
    exact ⟨rfl, Or.inl ⟨rfl, rfl, fun _ => hhyd⟩⟩
  · rw [if_neg hhyd]
    simp only []
    obtain ⟨b, hb, s1, s2, s3⟩ : ∃ b : App,
        syncHash { a with state := assignState a.state p } = b ∧ b.effects = a.effects ∧
        b.renderQueued = a.renderQueued ∧ b.hydratingFromHash = a.hydratingFromHash :=
      ⟨_, rfl, syncHash_keeps_queue _⟩
    rw [hb]
    obtain ⟨r1, r2, r3, r4⟩ := requestRender_deferred h b
    refine ⟨r1.trans s3, ?_⟩
    by_cases hq : a.renderQueued = true
    · left
      refine ⟨(r3 (s2.trans hq)).trans s1, r2.trans hq.symm, ?_⟩
      intro hq0
      rw [hq] at hq0
      cases hq0
    · right
      have hq0 : a.renderQueued = false := by simpa using hq
      refine ⟨hq0, ?_, r2⟩
      rw [r4 (s2.trans hq0), s1]

theorem runOp_deferred (h : Host) (a : App) (op : RenderOp) (hop : op ≠ .request true) :
    (runOp h a op).hydratingFromHash = a.hydratingFromHash ∧
    (((runOp h a op).effects = a.effects ∧ (runOp h a op).renderQueued = a.renderQueued ∧
        (a.renderQueued = false → a.hydratingFromHash = true)) ∨
      (a.renderQueued = false ∧ (runOp h a op).effects = a.effects ++ [.frameRequest] ∧
        (runOp h a op).renderQueued = true)) := by
  cases op with
  | update p => exact updateState_deferred h a p
  | request immediate =>
    cases immediate
    · obtain ⟨r1, r2, r3, r4⟩ := requestRender_deferred h a
      refine ⟨r1, ?_⟩
      by_cases hq : a.renderQueued = true
      · refine Or.inl ⟨r3 hq, r2.trans hq.symm, ?_⟩
        intro hq0
        rw [hq] at hq0
        cases hq0
      · have hq0 : a.renderQueued = false := by simpa using hq
        exact Or.inr ⟨hq0, r4 hq0, r2⟩
    · exact absurd rfl hop

theorem runOps_deferred (h : Host) (ops : List RenderOp) (a : App)
    (hops : ∀ op ∈ ops, op ≠ .request true) :
    (runOps h ops a).hydratingFromHash = a.hydratingFromHash ∧
    (((runOps h ops a).effects = a.effects ∧ (runOps h ops a).renderQueued = a.renderQueued ∧
        (a.renderQueued = false → a.hydratingFromHash = false → ops = [])) ∨
      (a.renderQueued = false ∧ (runOps h ops a).effects = a.effects ++ [.frameRequest] ∧
        (runOps h ops a).renderQueued = true)) := by
  induction ops generalizing a with
  | nil => exact ⟨rfl, Or.inl ⟨rfl, rfl, fun _ _ => rfl⟩⟩
  | cons op rest ih =>
    have hrest : ∀ o ∈ rest, o ≠ .request true := fun o ho => hops o (List.mem_cons_of_mem _ ho)
    obtain ⟨hhyd, hstep⟩ := runOp_deferred h a op (hops op (List.mem_cons_self _ _))
    obtain ⟨ihhyd, ihstep⟩ := ih (runOp h a op) hrest
    have hfold : runOps h (op :: rest) a = runOps h rest (runOp h a op) := rfl
    rw [hfold]
    refine ⟨ihhyd.trans hhyd, ?_⟩
    rcases hstep with ⟨he, hq, hidle⟩ | ⟨hq0, he, hq⟩
    · rcases ihstep with ⟨ie, iq, _⟩ | ⟨iq0, ie, iq⟩
      · left
        refine ⟨ie.trans he, iq.trans hq, ?_⟩
        intro hq0 hh
        rw [hidle hq0] at hh
        cases hh
      · right
        exact ⟨hq.symm.trans iq0, by rw [ie, he], iq⟩
    · rcases ihstep with ⟨ie, iq, _⟩ | ⟨iq0, _, _⟩
      · right
        exact ⟨hq0, by rw [ie, he], iq.trans hq⟩
      · rw [hq] at iq0
        cases iq0

theorem renderTimeline_renders (h : Host) (immediate : Bool) (a : App) :
    (renderTimeline h immediate a).renderQueued = a.renderQueued ∧
    ∃ extra, (renderTimeline h immediate a).effects = a.effects ++ Effect.render :: extra ∧
      Effect.render ∉ extra ∧ Effect.frameRequest ∉ extra := by
  unfold renderTimeline afterTimelineRender App.log
  simp only []
  split_ifs <;> refine ⟨rfl, ?_⟩
  · exact ⟨[], rfl, by simp, by simp⟩
  · exact ⟨[.swapTimer (groupByYear (getFilteredItems h a.state))], by simp, by simp, by simp⟩
  · exact ⟨[.scrollToYear a.pendingYearScroll], by simp, by simp, by simp⟩
  · exact ⟨[], rfl, by simp, by simp⟩

theorem frameCallback_renders (h : Host) (a : App) :
    (frameCallback h a).renderQueued = false ∧
    ∃ extra, (frameCallback h a).effects = a.effects ++ Effect.render :: extra ∧
      Effect.render ∉ extra ∧ Effect.frameRequest ∉ extra :=
  renderTimeline_renders h false { a with renderQueued := false }

/-- C24, amended. Deferred render requests are coalesced: any sequence of
`updateState` calls and non-immediate `requestRender` calls issued with no
animation frame in between runs no render itself and queues at most one frame
callback; none when one is already queued, exactly one when none is queued, the
sequence is not empty and the script is not hydrating from the fragment. The
frame callback then clears `renderQueued` and runs the renderer exactly once.
An immediate request (`requestRender(true)`) runs the renderer at once, every
time it is called. -/
theorem requestRender_coalesced (h : Host) (ops : List RenderOp) (a : App)
    (hops : ∀ op ∈ ops, op ≠ .request true) :
    ((runOps h ops a).effects = a.effects ∨
      (runOps h ops a).effects = a.effects ++ [.frameRequest]) ∧
    (a.renderQueued = true →
      (runOps h ops a).effects = a.effects ∧ (runOps h ops a).renderQueued = true) ∧
    (a.renderQueued = false → a.hydratingFromHash = false → ops ≠ [] →
      (runOps h ops a).effects = a.effects ++ [.frameRequest] ∧
      (runOps h ops a).renderQueued = true) ∧
    (frameCallback h (runOps h ops a)).renderQueued = false ∧
    (∃ extra, (frameCallback h (runOps h ops a)).effects =
        (runOps h ops a).effects ++ Effect.render :: extra ∧
      Effect.render ∉ extra ∧ Effect.frameRequest ∉ extra) ∧
    ∀ b : App, ∃ extra, (requestRender h true b).effects = b.effects ++ Effect.render :: extra ∧
      Effect.render ∉ extra ∧ Effect.frameRequest ∉ extra := by
  obtain ⟨_, hstep⟩ := runOps_deferred h ops a hops
  obtain ⟨hq, hextra⟩ := frameCallback_renders h (runOps h ops a)
  refine ⟨?_, ?_, ?_, hq, hextra, ?_⟩
  · rcases hstep with ⟨he, _, _⟩ | ⟨_, he, _⟩
    · exact Or.inl he
    · exact Or.inr he
  · intro hqueued
    rcases hstep with ⟨he, hq2, _⟩ | ⟨hq0, _, _⟩
    · exact ⟨he, hq2.trans hqueued⟩
    · rw [hqueued] at hq0
      cases hq0
  · intro hidle hhyd hne
    rcases hstep with ⟨_, _, hnil⟩ | ⟨_, he, hq2⟩
    · exact absurd (hnil hidle hhyd) hne
    · exact ⟨he, hq2⟩
  · intro b
    exact (renderTimeline_renders h true b).2

/-- C24, amended, on the session `groupedApp`: two state updates and a deferred
request queue one frame callback, and the callback renders once. -/
theorem requestRender_coalesced_witness :
    (runOps asciiHost
      [.update ⟨some "Academics", none, none⟩, .update ⟨none, none, some "oldest"⟩,
        .request false] groupedApp).effects = [.frameRequest] ∧
    (frameCallback asciiHost (runOps asciiHost
      [.update ⟨some "Academics", none, none⟩, .update ⟨none, none, some "oldest"⟩,
        .request false] groupedApp)).effects = [.frameRequest, .render] :=
  ⟨((requestRender_coalesced asciiHost
      [.update ⟨some "Academics", none, none⟩, .update ⟨none, none, some "oldest"⟩,
        .request false] groupedApp (by decide)).2.2.1 rfl rfl (by decide)).1,
    by decide⟩

/-! ## Controls after a change of the fragment -/

/-- C27. The controls fall out of step with the view state after a hashchange
to an empty fragment: on a session that shows "Sustainability" and "newest",
`applyHashParams(true)` resets `state.filter` to "All" and `state.sort` to
"oldest" and renders, but the chip "Sustainability" stays pressed and the sort
toggle still shows "newest". On the initial load (`applyHashParams(false)`) and
for a non-empty fragment the controls are brought in line. -/
theorem applyHashParams_empty_fragment :
    (applyHashParams asciiHost true pressedApp).state.filter = "All" ∧
    (applyHashParams asciiHost true pressedApp).pressedFilter = "Sustainability" ∧
    (applyHashParams asciiHost true pressedApp).state.sort = "oldest" ∧
    (applyHashParams asciiHost true pressedApp).sortToggle = "newest" ∧
    (applyHashParams asciiHost true pressedApp).effects = pressedApp.effects ++ [.render] ∧
    (applyHashParams asciiHost false pressedApp).pressedFilter = "All" ∧
    (applyHashParams asciiHost false pressedApp).sortToggle = "oldest" ∧
    (applyHashParams asciiHost true { pressedApp with locationHash := "#q=fair" }).pressedFilter
      = "All" ∧
    (applyHashParams asciiHost true { pressedApp with locationHash := "#q=fair" }).sortToggle
      = "oldest" := by
  decide

/-- For every session, a hashchange to an empty fragment leaves the pressed chip
and the sort toggle as they were, while the view state goes back to the
defaults. -/
theorem applyHashParams_event_empty (h : Host) (a : App)
    (hempty : truthy (slice1 a.locationHash) = false) :
    (applyHashParams h true a).state.filter = "All" ∧
    (applyHashParams h true a).state.sort = "oldest" ∧
    (applyHashParams h true a).pressedFilter = a.pressedFilter ∧
    (applyHashParams h true a).sortToggle = a.sortToggle := by
  unfold applyHashParams
  simp only [hempty, Bool.false_eq_true, if_false, if_true]
  refine ⟨?_, ?_, ?_, ?_⟩
  · exact congrArg (fun s : ViewState => s.filter) (requestRender_keeps h true _).1
  · exact congrArg (fun s : ViewState => s.sort) (requestRender_keeps h true _).1
  · exact (requestRender_keeps_signatures h true _).2.2.1
  · exact (requestRender_keeps_signatures h true _).2.2.2.1

/-! ## Static files -/

/-- C29. The guard of `safeResolveUrlPath` lets a sibling directory through:
with the root "/srv/app", the path "/..%2Fapp-secret%2Fnotes.txt" resolves to
"/srv/app-secret/notes.txt", which starts with the text of the root and is
returned although it is neither the root nor inside it; `handleStatic` then
sends that file. A path that leaves the root for a directory with another
name is refused, and a path inside the root is returned. -/
theorem safeResolveUrlPath_sibling :
    safeResolveUrlPath scenarioRoot "/..%2Fapp-secret%2Fnotes.txt"
      = some (some "/srv/app-secret/notes.txt") ∧
    "/srv/app-secret/notes.txt" ≠ scenarioRoot ∧
    startsWith "/srv/app-secret/notes.txt" (scenarioRoot ++ "/") = false ∧
    handleStatic scenarioRoot scenarioFiles "/..%2Fapp-secret%2Fnotes.txt"
      = some (.file "/srv/app-secret/notes.txt") ∧
    safeResolveUrlPath scenarioRoot "/..%2Fother%2Fnotes.txt" = some none ∧
    safeResolveUrlPath scenarioRoot "/assets/..%5Cindex.html"
      = some (some "/srv/app/index.html") ∧
    handleStatic scenarioRoot scenarioFiles "/" = some (.file "/srv/app/index.html") := by
  decide

end Timeline
